import Mathlib

/-!
# TruffleHog command-line front end: verification development

A shallow embedding of the flag handling in `main.go` (`parseResults`,
`commaSeparatedToSlice`, `compareMetrics`, the log-level switch and the
argument rewriting of `init`, `logFatalFunc`, and the configuration assembly of
`run` / `runSingleScan`) and of the command builders of the terminal wizard
(`pkg/tui/sources/elasticsearch`, `pkg/tui/sources/jenkins`,
`pkg/tui/sources/s3`, `pkg/tui/sources/github`), followed by theorems about
them.

Conventions of the embedding:

* a Go `string` is a Lean `String` (a sequence of Unicode code points, i.e. a
  valid UTF-8 Go string);
* a Go `[]string` is a `List String`, the nil and the empty slice both being `[]`;
* a Go `map[string]struct{}` is an `Option (List String)`: the list of its keys,
  each once, the nil map being `none`;
* a Go `error` is an `Option String`, `nil` being `none`;
* a Go `map[string]textinputs.Input` is its lookup function, `none` when the key
  is absent;
* goroutines are kept apart: a process is described by the calls that each
  goroutine has made when the process ends, the order of calls of different
  goroutines is not recorded;
* logging and printing are not part of the state and are left out.
-/

namespace Trufflehog

/-! ## The Go standard-library string functions used by `main.go` -/

/-- Go `unicode.IsSpace`: the code points with the Unicode White_Space property. -/
def isSpace (c : Char) : Bool :=
  let n := c.toNat
  (9 ≤ n && n ≤ 13) || n == 32 || n == 133 || n == 160 || n == 5760 ||
    (8192 ≤ n && n ≤ 8202) || n == 8232 || n == 8233 || n == 8239 || n == 8287 || n == 12288

/-- The rune-level lower-casing table behind Go `strings.ToLower`
(`unicode.ToLower`). The table itself belongs to the Go runtime, so it is a
parameter of the embedding, constrained by three facts of the Unicode case
tables: on ASCII it maps `A`..`Z` to `a`..`z` and fixes everything else, only
the comma is mapped to the comma, and white space has no case. -/
structure CaseTable where
  lower : Char → Char
  ascii : ∀ c : Char, c.toNat < 128 → lower c = c.toLower
  comma : ∀ c : Char, lower c = ',' → c = ','
  space : ∀ c : Char, isSpace c = true → lower c = c

/-- Go `strings.ToLower`: every rune is replaced by its lower-case form. -/
def ToLower (T : CaseTable) (s : String) : String :=
  ⟨s.data.map T.lower⟩

/-- The pieces of a rune sequence between the occurrences of `sep`. There is
always at least one piece: a sequence with `n` separators has `n + 1` pieces. -/
def splitRunes (sep : Char) : List Char → List (List Char)
  | [] => [[]]
  | c :: cs =>
    if c = sep then [] :: splitRunes sep cs
    else
      match splitRunes sep cs with
      | [] => [[c]]
      | p :: ps => (c :: p) :: ps

/-- Go `strings.Split(s, sep)` for a one-rune separator (both call sites of
`main.go` pass `","`): all substrings of `s` between the separators. -/
def Split (s : String) (sep : Char) : List String :=
  (splitRunes sep s.data).map String.mk

/-- Go `strings.TrimSpace`: `s` without its leading and trailing white space. -/
def TrimSpace (s : String) : String :=
  ⟨(s.data.dropWhile isSpace).rdropWhile isSpace⟩

/-! ## `parseResults` -/

/-- The four result kinds that `--results` accepts (the `case` list of the
`switch` in `parseResults`). -/
def allowedResults : List String :=
  ["verified", "unknown", "unverified", "filtered_unverified"]

/-- The error built by `fmt.Errorf` in the `default` branch of `parseResults`. -/
def invalidValueError (value : String) : String :=
  "invalid value '" ++ value ++
    "', valid values are 'verified,unknown,unverified,filtered_unverified'"

/-- The `for _, value := range values` loop of `parseResults`, started with the
map built so far. -/
def parseResultsLoop : List String → List String → Option (List String) × Option String
  | [], results => (some results, none)
  | value :: values, results =>
    if value = "verified" ∨ value = "unknown" ∨ value = "unverified" ∨
        value = "filtered_unverified" then
      parseResultsLoop values (results.insert value)
    else
      (none, some (invalidValueError value))

/-- `parseResults` of `main.go`: the pair `(map, error)` it returns for the
string `*input`. -/
def parseResults (T : CaseTable) (input : String) : Option (List String) × Option String :=
  if input = "" then (none, none)
  else parseResultsLoop (Split (ToLower T input) ',') []

/-- The comma-separated pieces of the input, each lower-cased: the reading of
the `--results` value that the documentation of the flag gives. -/
def loweredPieces (T : CaseTable) (input : String) : List String :=
  (Split input ',').map (ToLower T)

/-- The ASCII case table: `A`..`Z` are lower-cased, every other rune is fixed.
It agrees with `unicode.ToLower` on every string without cased non-ASCII
letters. -/
def asciiCaseTable : CaseTable where
  lower := Char.toLower
  ascii := fun _ _ => rfl
  comma := by
    intro c h
    by_cases hc : c.toNat ≥ 65 ∧ c.toNat ≤ 90
    · have key : ∀ n : Nat, 65 ≤ n → n ≤ 90 → (Char.ofNat n).toLower ≠ ',' := by
        intro n h1 h2
        interval_cases n <;> decide
      exact absurd (by rwa [Char.ofNat_toNat]) (key c.toNat hc.1 hc.2)
    · simpa [Char.toLower, hc] using h
  space := by
    intro c h
    have hc : ¬ (c.toNat ≥ 65 ∧ c.toNat ≤ 90) := by
      simp only [isSpace, Bool.or_eq_true, Bool.and_eq_true, decide_eq_true_eq, beq_iff_eq] at h
      omega
    simp [Char.toLower, hc]

/-! ## `commaSeparatedToSlice` -/

/-- The inner loop of `commaSeparatedToSlice`, `for _, item := range
strings.Split(items, ",")`, started with the slice built so far. -/
def commaSeparatedToSliceItems : List String → List String → List String
  | [], result => result
  | item :: rest, result =>
    let item := TrimSpace item
    if item = "" then commaSeparatedToSliceItems rest result
    else commaSeparatedToSliceItems rest (result ++ [item])

/-- The outer loop of `commaSeparatedToSlice`, `for _, items := range s`,
started with the slice built so far. -/
def commaSeparatedToSliceLoop : List String → List String → List String
  | [], result => result
  | items :: s, result =>
    commaSeparatedToSliceLoop s (commaSeparatedToSliceItems (Split items ',') result)

/-- `commaSeparatedToSlice` of `main.go`. -/
def commaSeparatedToSlice (s : List String) : List String :=
  commaSeparatedToSliceLoop s []

/-- The pieces one flag value contributes: its comma-separated pieces, trimmed,
without the empty ones. -/
def trimmedPieces (items : String) : List String :=
  ((Split items ',').map TrimSpace).filter (fun item => item ≠ "")

/-! ## The log-level switch of `init` -/

/-- The Go conversion `int8(n)` of an `int`: the value in `-128..127` congruent
to `n` modulo 256. -/
def int8 (n : Int) : Int :=
  (n + 128) % 256 - 128

/-- How the `switch` that configures logging in `init` ends: the process exits,
or `log.SetLevel` is called. -/
inductive LogSetup where
  | exit (code : Nat)
  | SetLevel (level : Int)
deriving DecidableEq, Repr

/-- The logging `switch` of `init`, for the values of `--trace`, `--debug` and
`--log-level`. -/
def configureLogging (trace debug : Bool) (logLevel : Int) : LogSetup :=
  if trace then .SetLevel 5
  else if debug then .SetLevel 2
  else
    let l := int8 logLevel
    if l < -1 ∨ l > 5 then .exit 1
    else if l = -1 then .SetLevel (-5)
    else .SetLevel l

/-! ## Metrics and `compareMetrics` -/

/-- The fields of `engine.Metrics` that `main.go` reads. The counters are
unsigned, the duration is in nanoseconds. -/
structure engine.Metrics where
  ChunksScanned : Nat := 0
  BytesScanned : Nat := 0
  VerifiedSecretsFound : Nat := 0
  UnverifiedSecretsFound : Nat := 0
  ScanDuration : Int := 0
deriving DecidableEq, Repr

/-- `compareMetrics` of `main.go`: the error it returns, if any. -/
def compareMetrics (customMetrics entireMetrics : engine.Metrics) : Option String :=
  if customMetrics.ChunksScanned ≠ entireMetrics.ChunksScanned ∨
      customMetrics.BytesScanned ≠ entireMetrics.BytesScanned ∨
      customMetrics.VerifiedSecretsFound ≠ entireMetrics.VerifiedSecretsFound then
    some "scan metrics do not match"
  else none

/-- The `metrics` struct of `main.go`. -/
structure metrics where
  Metrics : engine.Metrics := {}
  hasFoundResults : Bool := false
deriving DecidableEq, Repr

/-! ## Flags and source configurations -/

/-- The command-line flags (the package-level variables of `main.go`) that
`run` and `runSingleScan` read on the paths embedded below. A flag that is not
given has its zero value. -/
structure Flags where
  concurrency : Int
  onlyVerified : Bool := false
  results : String := ""
  fail : Bool := false
  scanEntireChunk : Bool := false
  compareDetectionStrategies : Bool := false
  configFilename : String := ""
  printAvgDetectorTime : Bool := false
  jobReportFile : Bool := false
  gitScanSinceCommit : String := ""
  githubScanRepos : List String := []
  githubScanOrgs : List String := []
  filesystemPaths : List String := []
  filesystemDirectories : List String := []
  gcsProjectID : String := ""
  gcsCloudEnv : Bool := false
  gcsServiceAccount : String := ""
  gcsWithoutAuth : Bool := false
  gcsAPIKey : String := ""
  gcsIncludeBuckets : List String := []
  gcsExcludeBuckets : List String := []
  gcsIncludeObjects : List String := []
  gcsExcludeObjects : List String := []
  postmanToken : String := ""
  postmanWorkspaces : List String := []
  postmanWorkspaceIDs : List String := []
  postmanCollections : List String := []
  postmanCollectionIDs : List String := []
  postmanEnvironments : List String := []
  postmanIncludeCollections : List String := []
  postmanIncludeCollectionIDs : List String := []
  postmanIncludeEnvironments : List String := []
  postmanExcludeCollections : List String := []
  postmanExcludeCollectionIDs : List String := []
  postmanExcludeEnvironments : List String := []
  postmanWorkspacePaths : List String := []
  postmanCollectionPaths : List String := []
  postmanEnvironmentPaths : List String := []
  huggingfaceModels : List String := []
  huggingfaceSpaces : List String := []
  huggingfaceDatasets : List String := []
  huggingfaceOrgs : List String := []
  huggingfaceUsers : List String := []

/-- The fields of `sources.GCSConfig` that `runSingleScan` fills in, but for
`MaxObjectSize`. -/
structure sources.GCSConfig where
  ProjectID : String
  CloudCred : Bool
  ServiceAccount : String
  WithoutAuth : Bool
  ApiKey : String
  IncludeBuckets : List String
  ExcludeBuckets : List String
  IncludeObjects : List String
  ExcludeObjects : List String
  Concurrency : Int
deriving DecidableEq, Repr

/-- The struct `sources.PostmanConfig` as `runSingleScan` fills it in. -/
structure sources.PostmanConfig where
  Token : String
  Workspaces : List String
  Collections : List String
  Environments : List String
  IncludeCollections : List String
  IncludeEnvironments : List String
  ExcludeCollections : List String
  ExcludeEnvironments : List String
  CollectionPaths : List String
  WorkspacePaths : List String
  EnvironmentPaths : List String
deriving DecidableEq, Repr

/-- The `sources.GCSConfig` literal of the `gcsScan` case of `runSingleScan`. -/
def gcsConfig (fl : Flags) : sources.GCSConfig where
  ProjectID := fl.gcsProjectID
  CloudCred := fl.gcsCloudEnv
  ServiceAccount := fl.gcsServiceAccount
  WithoutAuth := fl.gcsWithoutAuth
  ApiKey := fl.gcsAPIKey
  IncludeBuckets := commaSeparatedToSlice fl.gcsIncludeBuckets
  ExcludeBuckets := commaSeparatedToSlice fl.gcsExcludeBuckets
  IncludeObjects := commaSeparatedToSlice fl.gcsIncludeObjects
  ExcludeObjects := commaSeparatedToSlice fl.gcsExcludeObjects
  Concurrency := fl.concurrency

/-- The `postmanScan` case of `runSingleScan` up to the call of `ScanPostman`:
the four `make` / `append` / `append` blocks and the `sources.PostmanConfig`
literal. -/
def postmanConfig (fl : Flags) : sources.PostmanConfig :=
  let workspaceIDs := ([] ++ fl.postmanWorkspaceIDs) ++ fl.postmanWorkspaces
  let collectionIDs := ([] ++ fl.postmanCollectionIDs) ++ fl.postmanCollections
  let includeCollectionIDs := ([] ++ fl.postmanIncludeCollectionIDs) ++ fl.postmanIncludeCollections
  let excludeCollectionIDs := ([] ++ fl.postmanExcludeCollectionIDs) ++ fl.postmanExcludeCollections
  { Token := fl.postmanToken
    Workspaces := workspaceIDs
    Collections := collectionIDs
    Environments := fl.postmanEnvironments
    IncludeCollections := includeCollectionIDs
    IncludeEnvironments := fl.postmanIncludeEnvironments
    ExcludeCollections := excludeCollectionIDs
    ExcludeEnvironments := fl.postmanExcludeEnvironments
    CollectionPaths := fl.postmanCollectionPaths
    WorkspacePaths := fl.postmanWorkspacePaths
    EnvironmentPaths := fl.postmanEnvironmentPaths }

/-! ## The source manager and the engine configuration -/

/-- The functional options that `runSingleScan` hands to `sources.NewManager`. -/
inductive sources.ManagerOption where
  | WithConcurrentSources (n : Int)
  | WithConcurrentUnits (n : Int)
  | WithSourceUnits
  | WithBufferedOutput (size : Nat)
  | WithReportHook
deriving DecidableEq, Repr

/-- Modelled from the spec: the settings of the source manager of `pkg/sources`,
which is not among the sources at hand. Section 4.2 gives it two concurrency
budgets, `max_concurrent_sources` and `max_concurrent_units`, a buffered chunk
channel and an optional per-unit metrics channel. A setting that no option
touched is `none` (the manager's own default). -/
structure sources.SourceManager where
  max_concurrent_sources : Option Int := none
  max_concurrent_units : Option Int := none
  sourceUnits : Bool := false
  bufferedOutput : Option Nat := none
  reportHook : Bool := false
deriving DecidableEq, Repr

/-- Modelled from the spec: what one functional option of `pkg/sources` does to
the manager; each option sets the setting it is named after. -/
def sources.ManagerOption.apply (mgr : sources.SourceManager) :
    sources.ManagerOption → sources.SourceManager
  | .WithConcurrentSources n => { mgr with max_concurrent_sources := some n }
  | .WithConcurrentUnits n => { mgr with max_concurrent_units := some n }
  | .WithSourceUnits => { mgr with sourceUnits := true }
  | .WithBufferedOutput size => { mgr with bufferedOutput := some size }
  | .WithReportHook => { mgr with reportHook := true }

/-- Modelled from the spec: `sources.NewManager(opts...)` of `pkg/sources`
applies the options in order to a fresh manager. -/
def sources.NewManager (opts : List sources.ManagerOption) : sources.SourceManager :=
  opts.foldl sources.ManagerOption.apply {}

/-- The fields of `engine.Config` that depend on the flags embedded here
(`Concurrency`, `Results`, `ShouldScanEntireChunk`) and the `SourceManager`
that `runSingleScan` stores in it. -/
structure engine.Config where
  Concurrency : Int
  Results : Option (List String)
  ShouldScanEntireChunk : Bool
  SourceManager : Option sources.SourceManager := none
deriving DecidableEq, Repr

/-- The constant `defaultOutputBufferSize` of `runSingleScan`. -/
def defaultOutputBufferSize : Nat := 64

/-- The option list `opts` that `runSingleScan` builds, the report hook being
appended when a job report writer is present. -/
def managerOptions (cfg : engine.Config) (jobReportWriter : Bool) : List sources.ManagerOption :=
  let opts := [sources.ManagerOption.WithConcurrentSources cfg.Concurrency,
    sources.ManagerOption.WithConcurrentUnits cfg.Concurrency,
    sources.ManagerOption.WithSourceUnits,
    sources.ManagerOption.WithBufferedOutput defaultOutputBufferSize]
  if jobReportWriter then opts ++ [sources.ManagerOption.WithReportHook] else opts

/-! ## `runSingleScan` -/

/-- What the engine and the path-filter loader, which live outside `main.go`,
answer during one call of `runSingleScan`: the errors of `engine.NewEngine`,
`common.FilterFromFiles`, the `Scan<Source>` method and `Finish`, and the values
of `GetMetrics` and `HasFoundResults`. -/
structure EngineAnswers where
  newEngineErr : Option String := none
  filterErr : Option String := none
  scanErr : Option String := none
  finishErr : Option String := none
  GetMetrics : engine.Metrics := {}
  HasFoundResults : Bool := false
deriving DecidableEq, Repr

/-- The calls that `runSingleScan` makes on the engine and on the temp-file
janitor, with the arguments that `main.go` computes. A source configuration
that only copies flags is not recorded. -/
inductive EngineCall where
  | NewEngine (cfg : engine.Config)
  | Start
  | ScanGit
  | ScanGitHub (orgs repos : List String)
  | ScanGitHubExperimental
  | ScanGitLab
  | ScanFileSystem (paths : List String)
  | ScanS3
  | ScanSyslog
  | ScanCircleCI
  | ScanTravisCI
  | ScanGCS (cfg : sources.GCSConfig)
  | ScanDocker
  | ScanPostman (cfg : sources.PostmanConfig)
  | ScanElasticsearch
  | ScanJenkins
  | ScanHuggingface (models spaces datasets orgs users : List String)
  | Finish
  | CleanTempArtifacts
deriving DecidableEq, Repr

/-- The result of one `Scan<Source>` call inside the `switch` of
`runSingleScan`: the call made and the error returned by this case, if any. -/
def scanCall (eng : EngineAnswers) (call : EngineCall) (failure : String) :
    List EngineCall × Option String :=
  ([call], eng.scanErr.map (fun err => failure ++ err))

/-- The `githubScan` case of the `switch` of `runSingleScan`. -/
def githubScanCase (fl : Flags) (eng : EngineAnswers) : List EngineCall × Option String :=
  match eng.filterErr with
  | some err => ([], some ("could not create filter: " ++ err))
  | none =>
    if fl.githubScanOrgs.length = 0 ∧ fl.githubScanRepos.length = 0 then
      ([], some "invalid config: you must specify at least one organization or repository")
    else scanCall eng (.ScanGitHub fl.githubScanOrgs fl.githubScanRepos) "failed to scan Github: "

/-- The `gitlabScan` case of the `switch` of `runSingleScan`. -/
def gitlabScanCase (eng : EngineAnswers) : List EngineCall × Option String :=
  match eng.filterErr with
  | some err => ([], some ("could not create filter: " ++ err))
  | none => scanCall eng .ScanGitLab "failed to scan GitLab: "

/-- The `filesystemScan` case of the `switch` of `runSingleScan`. -/
def filesystemScanCase (fl : Flags) (eng : EngineAnswers) : List EngineCall × Option String :=
  let paths := ([] ++ fl.filesystemPaths) ++ fl.filesystemDirectories
  scanCall eng (.ScanFileSystem paths) "failed to scan filesystem: "

/-- The `huggingfaceScan` case of the `switch` of `runSingleScan`. -/
def huggingfaceScanCase (fl : Flags) (eng : EngineAnswers) : List EngineCall × Option String :=
  if fl.huggingfaceModels.length = 0 ∧ fl.huggingfaceSpaces.length = 0 ∧
      fl.huggingfaceDatasets.length = 0 ∧ fl.huggingfaceOrgs.length = 0 ∧
      fl.huggingfaceUsers.length = 0 then
    ([], some ("invalid config: you must specify at least one organization, user, model, " ++
      "space or dataset"))
  else
    scanCall eng (.ScanHuggingface fl.huggingfaceModels fl.huggingfaceSpaces
      fl.huggingfaceDatasets fl.huggingfaceOrgs fl.huggingfaceUsers)
      "failed to scan HuggingFace: "

/-- The `switch cmd` of `runSingleScan`: the engine calls of the selected case
and the error with which the case returns, if any. The `FullCommand()` of a
top-level command is its name. -/
def scanSource (fl : Flags) (eng : EngineAnswers) (cmd : String) :
    List EngineCall × Option String :=
  if cmd = "git" then scanCall eng .ScanGit "failed to scan Git: "
  else if cmd = "github" then githubScanCase fl eng
  else if cmd = "github-experimental" then
    scanCall eng .ScanGitHubExperimental "failed to scan using Github Experimental: "
  else if cmd = "gitlab" then gitlabScanCase eng
  else if cmd = "filesystem" then filesystemScanCase fl eng
  else if cmd = "s3" then scanCall eng .ScanS3 "failed to scan S3: "
  else if cmd = "syslog" then scanCall eng .ScanSyslog "failed to scan syslog: "
  else if cmd = "circleci" then scanCall eng .ScanCircleCI "failed to scan CircleCI: "
  else if cmd = "travisci" then scanCall eng .ScanTravisCI "failed to scan TravisCI: "
  else if cmd = "gcs" then scanCall eng (.ScanGCS (gcsConfig fl)) "failed to scan GCS: "
  else if cmd = "docker" then scanCall eng .ScanDocker "failed to scan Docker: "
  else if cmd = "postman" then
    scanCall eng (.ScanPostman (postmanConfig fl)) "failed to scan Postman: "
  else if cmd = "elasticsearch" then
    scanCall eng .ScanElasticsearch "failed to scan Elasticsearch: "
  else if cmd = "jenkins" then scanCall eng .ScanJenkins "failed to scan Jenkins: "
  else if cmd = "huggingface" then huggingfaceScanCase fl eng
  else ([], some ("invalid command: " ++ cmd))

/-- One execution of `runSingleScan`: the pair it returns and the calls it made
on the engine, in order. -/
structure ScanRun where
  result : metrics
  err : Option String
  calls : List EngineCall
deriving DecidableEq, Repr

/-- `runSingleScan` of `main.go`. The deferred `CleanTempArtifacts` runs at
every return that follows `eng.Start`. -/
def runSingleScan (fl : Flags) (eng : EngineAnswers) (cmd : String) (cfg : engine.Config) :
    ScanRun :=
  let scanMetrics : metrics := {}
  let opts := managerOptions cfg fl.jobReportFile
  let cfg := { cfg with SourceManager := some (sources.NewManager opts) }
  match eng.newEngineErr with
  | some err => ⟨scanMetrics, some ("error initializing engine: " ++ err), [.NewEngine cfg]⟩
  | none =>
    match scanSource fl eng cmd with
    | (calls, some err) =>
      ⟨scanMetrics, some err, [.NewEngine cfg, .Start] ++ calls ++ [.CleanTempArtifacts]⟩
    | (calls, none) =>
      match eng.finishErr with
      | some err =>
        ⟨scanMetrics, some ("engine failed to finish execution: " ++ err),
          [.NewEngine cfg, .Start] ++ calls ++ [.Finish, .CleanTempArtifacts]⟩
      | none =>
        ⟨{ Metrics := eng.GetMetrics, hasFoundResults := eng.HasFoundResults }, none,
          [.NewEngine cfg, .Start] ++ calls ++ [.Finish, .CleanTempArtifacts]⟩

/-! ## `compareScans` and `run` -/

/-- What `compareScans` leaves behind when it returns: its error, the
executions of `runSingleScan` that have returned by then, and, for a goroutine
that it started and did not wait for, the calls that this goroutine makes
before the process ends. -/
structure CompareRun where
  err : Option String
  scans : List ScanRun
  unawaited : List (List EngineCall) := []
deriving DecidableEq, Repr

/-- `compareScans` of `main.go`. The goroutine scans with
`ShouldScanEntireChunk` set, the caller with the configured span calculator, and
only the error of the latter is returned. When the caller's scan returns an
error, `compareScans` returns at once, before `wg.Wait()`: the goroutine is
still running, and `progress`, which the scheduler decides, is the number of
calls it gets to make before the process ends. Otherwise `compareScans` waits
for the goroutine and compares the metrics. -/
def compareScans (fl : Flags) (entire maxLength : EngineAnswers) (progress : Nat)
    (cmd : String) (cfg : engine.Config) : CompareRun :=
  let entireRun := runSingleScan fl entire cmd { cfg with ShouldScanEntireChunk := true }
  let maxLengthRun := runSingleScan fl maxLength cmd cfg
  match maxLengthRun.err with
  | some err =>
    { err := some ("error running scan with custom span calculator: " ++ err)
      scans := [maxLengthRun]
      unawaited := [entireRun.calls.take progress] }
  | none =>
    { err := compareMetrics maxLengthRun.result.Metrics entireRun.result.Metrics
      scans := [maxLengthRun, entireRun] }

/-- How `run` ends: it calls `os.Exit` with a code, or it returns to its caller. -/
inductive ProcessEnd where
  | exit (code : Nat)
  | returned
deriving DecidableEq, Repr

/-- What lies outside `main.go` during one call of `run`: the error of
`config.Read`, the answers of the engine to the scan (and, when the two
detection strategies are compared, to the entire-chunk scan), and the number of
calls that the goroutine of `compareScans` gets to make when `compareScans` does
not wait for it. -/
structure RunAnswers where
  configReadErr : Option String := none
  scan : EngineAnswers := {}
  entireScan : EngineAnswers := {}
  entireProgress : Nat := 0
deriving DecidableEq, Repr

/-- One execution of `run`: how it ends, the engine configuration it built (if
it got that far), the executions of `runSingleScan` that have returned when it
ends, and, for each goroutine scan that was started and not waited for, the
calls of that goroutine before the process ends. -/
structure RunTrace where
  ending : ProcessEnd
  engConf : Option engine.Config := none
  scans : List ScanRun := []
  unawaited : List (List EngineCall) := []
deriving DecidableEq, Repr

/-- The function returned by `logFatalFunc`, called with the error `err`: the
exit code of the process. -/
def logFatal (err : Option String) : ProcessEnd :=
  match err with
  | some _ => .exit 1
  | none => .exit 0

/-- The statement `if *gitScanSinceCommit != "" { *concurrency = 1; ... }` of
`run`: the flags after it. -/
def sinceCommitOverride (fl : Flags) : Flags :=
  if fl.gitScanSinceCommit ≠ "" then { fl with concurrency := 1 } else fl

/-- The end of `run`, from `if *compareDetectionStrategies` on, for the engine
configuration `engConf` built before. -/
def runScans (fl : Flags) (world : RunAnswers) (cmd : String) (engConf : engine.Config) :
    RunTrace :=
  if fl.compareDetectionStrategies then
    let compared := compareScans fl world.entireScan world.scan world.entireProgress cmd engConf
    match compared.err with
    | some err =>
      { ending := logFatal (some err), engConf := some engConf, scans := compared.scans,
        unawaited := compared.unawaited }
    | none =>
      { ending := .returned, engConf := some engConf, scans := compared.scans,
        unawaited := compared.unawaited }
  else
    let scan := runSingleScan fl world.scan cmd engConf
    match scan.err with
    | some err => { ending := logFatal (some err), engConf := some engConf, scans := [scan] }
    | none =>
      if scan.result.hasFoundResults && fl.fail then
        { ending := .exit 183, engConf := some engConf, scans := [scan] }
      else { ending := .returned, engConf := some engConf, scans := [scan] }

/-- `run` of `main.go`, from the `--since-commit` override of `*concurrency` to
its end, for the parsed command `cmd`. The signal handler, the validity check
of the commit (which only logs), profiling and the feature switches, none of
which touches the values below, are left out. -/
def run (T : CaseTable) (fl : Flags) (world : RunAnswers) (cmd : String) : RunTrace :=
  let fl := sinceCommitOverride fl
  if fl.configFilename ≠ "" ∧ world.configReadErr ≠ none then
    { ending := logFatal world.configReadErr }
  else
    let results := if fl.onlyVerified then "verified" else fl.results
    match parseResults T results with
    | (_, some err) => { ending := logFatal (some err) }
    | (parsedResults, none) =>
      runScans fl world cmd
        { Concurrency := fl.concurrency
          Results := parsedResults
          ShouldScanEntireChunk := fl.scanEntireChunk }

/-! ## More Go string functions -/

/-- The pieces of a rune sequence between its white-space runes; like
`splitRunes`, with every white-space rune a separator. -/
def splitSpaces : List Char → List (List Char)
  | [] => [[]]
  | c :: cs =>
    if isSpace c then [] :: splitSpaces cs
    else
      match splitSpaces cs with
      | [] => [[c]]
      | p :: ps => (c :: p) :: ps

/-- Go `strings.Fields`: the maximal substrings of `s` without white space. -/
def Fields (s : String) : List String :=
  ((splitSpaces s.data).filter (fun p => p ≠ [])).map String.mk

/-- Go `strings.Join`. -/
def Join : List String → String → String
  | [], _ => ""
  | [a], _ => a
  | a :: b :: rest, sep => a ++ sep ++ Join (b :: rest) sep

/-- Go `strings.HasPrefix`. -/
def HasPrefix (s pre : String) : Bool :=
  pre.data.isPrefixOf s.data

/-- Go `strings.ReplaceAll` for one-rune strings `old` and `new`. -/
def ReplaceAll (s : String) (old new : Char) : String :=
  ⟨s.data.map (fun c => if c = old then new else c)⟩

/-- Go `strings.SplitN(s, sep, 2)` for a one-rune separator: `s` cut at the
first separator, or `s` alone when it has none. -/
def SplitN2 (s : String) (sep : Char) : List String :=
  if sep ∈ s.data then
    [⟨s.data.takeWhile (fun c => c ≠ sep)⟩, ⟨(s.data.dropWhile (fun c => c ≠ sep)).drop 1⟩]
  else [s]

/-! ## Command-line arguments: `init` and the registered flags -/

/-- The body of the loop over `os.Args` in `init`: in an argument that begins
with `--`, every `_` before the first `=` becomes `-`. -/
def initArg (arg : String) : String :=
  if HasPrefix arg "--" then
    match SplitN2 arg '=' with
    | [] => Join [] "="
    | first :: rest => Join (ReplaceAll first '_' '-' :: rest) "="
  else arg

/-- The name of the long flag that the argument `--name=value` (or `--name`)
sets, as the flag parser reads it: what stands between `--` and the first `=`. -/
def flagName (arg : String) : Option String :=
  if HasPrefix arg "--" then some ⟨(arg.data.drop 2).takeWhile (fun c => c ≠ '=')⟩ else none

/-- The arguments into which a command line falls when it is cut at white
space; quoting is not interpreted. -/
def commandArgs (cmd : String) : List String :=
  Fields cmd

/-- The names of the long flags among the arguments of a command line, in
order. -/
def commandFlags (cmd : String) : List String :=
  (commandArgs cmd).filterMap flagName

/-- The names of the flags that `main.go` registers on the `elasticsearch`
command (`elasticsearchScan.Flag(...)`). -/
def elasticsearchFlags : List String :=
  ["nodes", "username", "password", "service-token", "cloud-id", "api-key", "index-pattern",
    "query-json", "since-timestamp", "best-effort-scan"]

/-- The names of the flags that `main.go` registers on the application itself
(`cli.Flag(...)`), which every command accepts. -/
def cliFlags : List String :=
  ["log-level", "debug", "trace", "profile", "local-dev", "json", "json-legacy",
    "github-actions", "concurrency", "no-verification", "only-verified", "results",
    "allow-verification-overlap", "filter-unverified", "filter-entropy", "scan-entire-chunk",
    "compare-detection-strategies", "config", "print-avg-detector-time", "no-update", "fail",
    "verifier", "custom-verifiers-only", "detector-timeout", "archive-max-size",
    "archive-max-depth", "archive-timeout", "include-detectors", "exclude-detectors",
    "output-report", "no-verification-cache", "force-skip-binaries", "force-skip-archives",
    "skip-additional-refs", "user-agent-suffix"]

/-- The `FullCommand()` values of the cases of the `switch` of `runSingleScan`. -/
def scanCommands : List String :=
  ["git", "github", "github-experimental", "gitlab", "filesystem", "s3", "syslog", "circleci",
    "travisci", "gcs", "docker", "postman", "elasticsearch", "jenkins", "huggingface"]

/-! ## The terminal wizard: text inputs -/

/-- The fields of `textinputs.Input` that the source models of the wizard read.
The type is declared in `pkg/tui/components/textinputs`. -/
structure textinputs.Input where
  Value : String := ""
  IsDefault : Bool := false
deriving DecidableEq, Repr

/-- A Go `map[string]textinputs.Input`, as the lookup `inputs[key]`: `none` when
the key is absent. -/
abbrev textinputs.Inputs := String → Option textinputs.Input

/-- A Go `map[string]string`, the labels of the inputs. -/
abbrev textinputs.Labels := String → Option String

/-- The Go expression `inputs[key].Value`: the value of the entry, the empty
string when the key is absent. -/
def textinputs.Inputs.Value (inputs : textinputs.Inputs) (key : String) : String :=
  match inputs key with
  | some val => val.Value
  | none => ""

/-- The type of `common.SummarizeSource(keys, inputs, labels)`, which is declared
in `pkg/tui/common` and is a parameter of the `Summary` methods below. -/
abbrev SummarizeSourceFn := List String → textinputs.Inputs → textinputs.Labels → String

/-! ## The terminal wizard: Elasticsearch -/

/-- `findFirstNonEmptyKey` of `elasticsearch.go`. -/
def elasticsearch.findFirstNonEmptyKey (inputs : textinputs.Inputs) : List String → String
  | [] => ""
  | key :: keys =>
    match inputs key with
    | some val =>
      if val.Value ≠ "" then key else elasticsearch.findFirstNonEmptyKey inputs keys
    | none => elasticsearch.findFirstNonEmptyKey inputs keys

/-- The map literal `keyMap` of `getConnectionKeys`. -/
def elasticsearch.keyMap : List (String × List String) :=
  [("username", ["username", "password", "nodes"]),
    ("password", ["username", "password", "nodes"]),
    ("serviceToken", ["serviceToken", "nodes"]),
    ("cloudId", ["cloudId", "apiKey"]),
    ("apiKey", ["cloudId", "apiKey"])]

/-- `getConnectionKeys` of `elasticsearch.go`. -/
def elasticsearch.getConnectionKeys (inputs : textinputs.Inputs) : List String :=
  let keys := ["username", "password", "serviceToken", "cloudId", "apiKey"]
  let key := elasticsearch.findFirstNonEmptyKey inputs keys
  match elasticsearch.keyMap.lookup key with
  | some val => val
  | none => []

/-- The loop `for _, key := range getConnectionKeys(inputs)` of
`elasticSearchCmdModel.Cmd`, started with the slice `command` built so far. -/
def elasticsearch.cmdLoop (inputs : textinputs.Inputs) : List String → List String → List String
  | [], command => command
  | key :: keys, command =>
    match inputs key with
    | none => elasticsearch.cmdLoop inputs keys command
    | some val =>
      if val.Value = "" then elasticsearch.cmdLoop inputs keys command
      else if key = "nodes" then
        elasticsearch.cmdLoop inputs keys
          (command ++ (Fields val.Value).map (fun node => "--nodes=" ++ node))
      else elasticsearch.cmdLoop inputs keys (command ++ ["--" ++ key ++ "=" ++ val.Value])

/-- The slice `command` of `elasticSearchCmdModel.Cmd` when the loop is over. -/
def elasticsearch.command (inputs : textinputs.Inputs) : List String :=
  elasticsearch.cmdLoop inputs (elasticsearch.getConnectionKeys inputs)
    ([] ++ ["trufflehog", "elasticsearch"])

/-- `elasticSearchCmdModel.Cmd` of `elasticsearch.go`, for the map that
`m.GetInputs()` returns. -/
def elasticsearch.Cmd (inputs : textinputs.Inputs) : String :=
  Join (elasticsearch.command inputs) " "

/-- `elasticSearchCmdModel.Summary` of `elasticsearch.go`, for the maps that
`m.GetInputs()` and `m.GetLabels()` return. -/
def elasticsearch.Summary (SummarizeSource : SummarizeSourceFn) (inputs : textinputs.Inputs)
    (labels : textinputs.Labels) : String :=
  let summaryKeys := elasticsearch.getConnectionKeys inputs
  SummarizeSource summaryKeys inputs labels

/-- The names of the flags that the command line returned by
`elasticSearchCmdModel.Cmd` carries, in order. -/
def elasticsearch.emittedFlags (inputs : textinputs.Inputs) : List String :=
  commandFlags (elasticsearch.Cmd inputs)

/-- The three groups of connection settings of the Elasticsearch source: a
local cluster with user name and password, a local cluster with a service
token, a cloud cluster. -/
def elasticsearch.connectionGroups : List (List String) :=
  [["nodes", "username", "password"], ["nodes", "serviceToken"], ["cloudId", "apiKey"]]

/-! ## The terminal wizard: Jenkins -/

/-- `checkIsAuthenticated` of `jenkins.go`. -/
def jenkins.checkIsAuthenticated (inputs : textinputs.Inputs) : Bool :=
  let username := inputs.Value "username"
  let password := inputs.Value "password"
  username ≠ "" && password ≠ ""

/-- The key list that `jenkinsCmdModel.Cmd` and `jenkinsCmdModel.Summary` both
build: `url`, and the credentials when `checkIsAuthenticated` holds. -/
def jenkins.keys (inputs : textinputs.Inputs) : List String :=
  let keys := ["url"]
  if jenkins.checkIsAuthenticated inputs then keys ++ ["username", "password"] else keys

/-- The loop `for _, key := range keys` of `jenkinsCmdModel.Cmd`, started with
the slice `command` built so far. -/
def jenkins.cmdLoop (inputs : textinputs.Inputs) : List String → List String → List String
  | [], command => command
  | key :: keys, command =>
    match inputs key with
    | none => jenkins.cmdLoop inputs keys command
    | some val =>
      if val.Value = "" then jenkins.cmdLoop inputs keys command
      else jenkins.cmdLoop inputs keys (command ++ ["--" ++ key ++ "=" ++ val.Value])

/-- The slice `command` of `jenkinsCmdModel.Cmd` when the loop is over. -/
def jenkins.command (inputs : textinputs.Inputs) : List String :=
  jenkins.cmdLoop inputs (jenkins.keys inputs) ([] ++ ["trufflehog", "jenkins"])

/-- `jenkinsCmdModel.Cmd` of `jenkins.go`, for the map that `m.GetInputs()`
returns. -/
def jenkins.Cmd (inputs : textinputs.Inputs) : String :=
  Join (jenkins.command inputs) " "

/-- `jenkinsCmdModel.Summary` of `jenkins.go`, for the maps that `m.GetInputs()`
and `m.GetLabels()` return. -/
def jenkins.Summary (SummarizeSource : SummarizeSourceFn) (inputs : textinputs.Inputs)
    (labels : textinputs.Labels) : String :=
  let summaryKeys := jenkins.keys inputs
  SummarizeSource summaryKeys inputs labels

/-! ## The signal handler of `run` and the goroutines of a process -/

/-- A step of the goroutine that `run` starts after `signal.Notify`. -/
inductive HandlerStep where
  | cancel
  | CleanTempArtifacts
  | Exit (code : Nat)
deriving DecidableEq, Repr

/-- What the signal goroutine of `run` does once SIGINT, SIGTERM or SIGQUIT has
arrived on `killSignal`: it cancels the context, cleans the temp artifacts and
exits with code 0. -/
def signalHandler : List HandlerStep :=
  [.cancel, .CleanTempArtifacts, .Exit 0]

/-- The code with which a sequence of handler steps exits: that of its first
`os.Exit`. -/
def handlerExit : List HandlerStep → Option Nat
  | [] => none
  | .Exit code :: _ => some code
  | _ :: steps => handlerExit steps

/-- Whether a sequence of handler steps calls `CleanTempArtifacts` before its
first `os.Exit`. -/
def handlerCleans : List HandlerStep → Bool
  | [] => false
  | .Exit _ :: _ => false
  | .CleanTempArtifacts :: _ => true
  | _ :: steps => handlerCleans steps

/-- A process that runs `run`, seen when it ends: how it ends, for each
goroutine that executes `runSingleScan` the calls it has made by then, in order,
and the steps of the signal goroutine. -/
structure ProcessTrace where
  ending : ProcessEnd
  threads : List (List EngineCall) := []
  handler : List HandlerStep := []
deriving DecidableEq, Repr

/-- The calls that the goroutines have made when a signal ends the process:
the goroutine with index `i` has made the first `cut i` of its calls. -/
def cutThreads (cut : Nat → Nat) : Nat → List (List EngineCall) → List (List EngineCall)
  | _, [] => []
  | i, calls :: threads => calls.take (cut i) :: cutThreads cut (i + 1) threads

/-- The process of `run`. Without a signal it ends as `run` ends, every scan
that `run` waited for having made all its calls. With a signal (`signal = some
cut`) the signal goroutine runs and ends the process, each scanning goroutine
having made a prefix of its calls, as `cut` says. The goroutine that `run`
starts first, which calls `CleanTempArtifacts` once at start-up and is not
ordered after the start of any engine, is left out. -/
def process (T : CaseTable) (fl : Flags) (world : RunAnswers) (cmd : String)
    (signal : Option (Nat → Nat)) : ProcessTrace :=
  let t := run T fl world cmd
  let threads := t.scans.map (fun scan => scan.calls) ++ t.unawaited
  match signal with
  | none => { ending := t.ending, threads := threads }
  | some cut =>
    { ending :=
        match handlerExit signalHandler with
        | some code => .exit code
        | none => t.ending
      threads := cutThreads cut 0 threads
      handler := signalHandler }

/-- Whether a goroutine calls `CleanTempArtifacts` after it has started its
engine. -/
def cleanedAfterStart (calls : List EngineCall) : Bool :=
  (calls.dropWhile (fun c => c ≠ EngineCall.Start)).contains EngineCall.CleanTempArtifacts

/-- The clean-up property of a process that has ended: for every goroutine that
has started an engine, `CleanTempArtifacts` has been called, by that goroutine
after the start or by the signal goroutine before its `os.Exit`. -/
def ProcessTrace.cleanedUp (p : ProcessTrace) : Bool :=
  p.threads.all (fun calls =>
    !calls.contains EngineCall.Start || cleanedAfterStart calls || handlerCleans p.handler)

/-- Whether `CleanTempArtifacts` has been called at all when the process ends. -/
def ProcessTrace.anyCleanup (p : ProcessTrace) : Bool :=
  p.threads.any (fun calls => calls.contains EngineCall.CleanTempArtifacts) ||
    handlerCleans p.handler

/-- Whether a call of `runSingleScan` enrols a source, that is, whether it is
one of the `Scan<Source>` methods of the engine. -/
def EngineCall.isScan : EngineCall → Bool
  | .NewEngine _ => false
  | .Start => false
  | .Finish => false
  | .CleanTempArtifacts => false
  | _ => true

/-- The error of the `githubScan` case of `runSingleScan` when neither an
organization nor a repository is given. -/
def githubInvalidConfig : String :=
  "invalid config: you must specify at least one organization or repository"

/-- The error of the `huggingfaceScan` case of `runSingleScan` when no target is
given. -/
def huggingfaceInvalidConfig : String :=
  "invalid config: you must specify at least one organization, user, model, " ++
    "space or dataset"

/-- The names of the flags that the command line returned by
`jenkinsCmdModel.Cmd` carries, in order. -/
def jenkins.emittedFlags (inputs : textinputs.Inputs) : List String :=
  commandFlags (jenkins.Cmd inputs)

/-! ## The terminal wizard: S3 -/

/-- The names of the flags that `main.go` registers on the `s3` command
(`s3Scan.Flag(...)`). -/
def s3Flags : List String :=
  ["key", "role-arn", "secret", "session-token", "cloud-environment", "bucket", "ignore-bucket",
    "max-object-size"]

/-- The loop `for _, bucket := range buckets` of `s3CmdModel.Cmd`, started with
the slice `command` built so far. -/
def s3.bucketLoop : List String → List String → List String
  | [], command => command
  | bucket :: buckets, command => s3.bucketLoop buckets (command ++ ["--bucket=" ++ bucket])

/-- The slice `command` of `s3CmdModel.Cmd` before it is joined. -/
def s3.command (inputs : textinputs.Inputs) : List String :=
  let command := [] ++ ["trufflehog", "s3"]
  let vals := inputs.Value "buckets"
  if vals ≠ "" then
    let buckets := Fields vals
    s3.bucketLoop buckets command
  else command

/-- `s3CmdModel.Cmd` of `s3.go`, for the map that `m.GetInputs()` returns. -/
def s3.Cmd (inputs : textinputs.Inputs) : String :=
  Join (s3.command inputs) " "

/-! ## The terminal wizard: GitHub -/

/-- The Go expression `inputs[key].IsDefault`: `false` when the key is absent. -/
def textinputs.Inputs.IsDefault (inputs : textinputs.Inputs) (key : String) : Bool :=
  match inputs key with
  | some val => val.IsDefault
  | none => false

/-- The Go statement `delete(inputs, key)`: the map without the key. -/
def textinputs.Inputs.delete (inputs : textinputs.Inputs) (key : String) : textinputs.Inputs :=
  fun k => if k = key then none else inputs k

/-- `githubCmdModel.GetSpecialInputs` of `github.go`, for the map that
`m.GetInputs()` returns. -/
def github.GetSpecialInputs (inputs : textinputs.Inputs) : textinputs.Inputs :=
  if inputs.IsDefault "org" ≠ inputs.IsDefault "repo" then
    let inputs := if inputs.IsDefault "org" then inputs.delete "org" else inputs
    let inputs := if inputs.IsDefault "repo" then inputs.delete "repo" else inputs
    inputs
  else inputs

/-- The slice `command` of `githubCmdModel.Cmd` before it is joined. -/
def github.command (inputs : textinputs.Inputs) : List String :=
  let command := [] ++ ["trufflehog", "github"]
  let inputs := github.GetSpecialInputs inputs
  let command :=
    if inputs.Value "org" ≠ "" then command ++ ["--org=" ++ inputs.Value "org"] else command
  let command :=
    if inputs.Value "repo" ≠ "" then command ++ ["--repo=" ++ inputs.Value "repo"] else command
  command

/-- `githubCmdModel.Cmd` of `github.go`, for the map that `m.GetInputs()`
returns. -/
def github.Cmd (inputs : textinputs.Inputs) : String :=
  Join (github.command inputs) " "

/-- The names of the flags that the command line returned by
`githubCmdModel.Cmd` carries, in order. -/
def github.emittedFlags (inputs : textinputs.Inputs) : List String :=
  commandFlags (github.Cmd inputs)

/-! ## Lemmas on the string functions -/

theorem splitRunes_ne_nil (sep : Char) (l : List Char) : splitRunes sep l ≠ [] := by
  cases l with
  | nil => simp [splitRunes]
  | cons c cs =>
    unfold splitRunes
    split_ifs
    · simp
    · split <;> simp

theorem splitRunes_cons_of_ne (sep c : Char) (cs : List Char) (h : c ≠ sep) :
    ∃ p ps, splitRunes sep cs = p :: ps ∧ splitRunes sep (c :: cs) = (c :: p) :: ps := by
  rcases hs : splitRunes sep cs with _ | ⟨p, ps⟩
  · exact absurd hs (splitRunes_ne_nil sep cs)
  · exact ⟨p, ps, rfl, by simp [splitRunes, h, hs]⟩

theorem splitRunes_map (f : Char → Char) (sep : Char) (hf : ∀ c, f c = sep ↔ c = sep)
    (l : List Char) :
    splitRunes sep (l.map f) = (splitRunes sep l).map (List.map f) := by
  induction l with
  | nil => simp [splitRunes]
  | cons c cs ih =>
    by_cases hc : c = sep
    · subst hc
      have hfc : f c = c := (hf c).2 rfl
      simp [splitRunes, hfc, ih]
    · have hfc : f c ≠ sep := fun h => hc ((hf c).1 h)
      obtain ⟨p, ps, hs, hcons⟩ := splitRunes_cons_of_ne sep c cs hc
      obtain ⟨q, qs, hs2, hcons2⟩ := splitRunes_cons_of_ne sep (f c) (cs.map f) hfc
      rw [List.map_cons, hcons2, hcons]
      rw [ih, hs] at hs2
      simp only [List.map_cons, List.cons.injEq] at hs2
      simp [hs2.1, hs2.2]

theorem splitRunes_append_sep (sep : Char) (l r : List Char) :
    splitRunes sep (l ++ sep :: r) = splitRunes sep l ++ splitRunes sep r := by
  induction l with
  | nil => simp [splitRunes]
  | cons c cs ih =>
    by_cases hc : c = sep
    · simp [splitRunes, hc, ih]
    · obtain ⟨p, ps, hs, hcons⟩ := splitRunes_cons_of_ne sep c cs hc
      obtain ⟨q, qs, hs2, hcons2⟩ := splitRunes_cons_of_ne sep c (cs ++ sep :: r) hc
      rw [List.cons_append, hcons2, hcons]
      rw [ih, hs] at hs2
      simp only [List.cons_append, List.cons.injEq] at hs2
      simp [hs2.1, hs2.2]

theorem Split_ne_nil (s : String) (sep : Char) : Split s sep ≠ [] := by
  simp [Split, splitRunes_ne_nil]

theorem Split_append_comma (s t : String) :
    Split (s ++ "," ++ t) ',' = Split s ',' ++ Split t ',' := by
  have h : (s ++ "," ++ t).data = s.data ++ ',' :: t.data := by
    simp [String.data_append]
  simp [Split, h, splitRunes_append_sep]

theorem Split_ToLower (T : CaseTable) (s : String) :
    Split (ToLower T s) ',' = loweredPieces T s := by
  have hf : ∀ c, T.lower c = ',' ↔ c = ',' := by
    intro c
    constructor
    · exact T.comma c
    · rintro rfl
      rw [T.ascii ',' (by decide)]
      decide
  simp [Split, ToLower, loweredPieces, splitRunes_map T.lower ',' hf, List.map_map,
    Function.comp_def]

/-! ## Lemmas on `parseResultsLoop` -/

theorem allowed_iff (value : String) :
    (value = "verified" ∨ value = "unknown" ∨ value = "unverified" ∨
      value = "filtered_unverified") ↔ value ∈ allowedResults := by
  simp [allowedResults]

theorem parseResultsLoop_ok (values acc : List String)
    (h : ∀ v ∈ values, v ∈ allowedResults) :
    ∃ S, parseResultsLoop values acc = (some S, none) ∧
      (∀ k, k ∈ S ↔ k ∈ acc ∨ k ∈ values) ∧ (acc.Nodup → S.Nodup) := by
  induction values generalizing acc with
  | nil => exact ⟨acc, rfl, by simp, id⟩
  | cons v vs ih =>
    have hv : v ∈ allowedResults := h v (List.mem_cons_self _ _)
    obtain ⟨S, hS, hmem, hnd⟩ := ih (acc.insert v) (fun w hw => h w (List.mem_cons_of_mem _ hw))
    refine ⟨S, ?_, ?_, ?_⟩
    · rw [parseResultsLoop, if_pos ((allowed_iff v).2 hv)]
      exact hS
    · intro k
      rw [hmem k, List.mem_insert_iff, List.mem_cons]
      tauto
    · intro hacc
      exact hnd (hacc.insert)

theorem parseResultsLoop_err (values acc : List String)
    (h : ∃ v ∈ values, v ∉ allowedResults) :
    ∃ v ∈ values, v ∉ allowedResults ∧
      parseResultsLoop values acc = (none, some (invalidValueError v)) := by
  induction values generalizing acc with
  | nil => simp at h
  | cons v vs ih =>
    by_cases hv : v ∈ allowedResults
    · have h2 : ∃ w ∈ vs, w ∉ allowedResults := by
        obtain ⟨w, hw, hwn⟩ := h
        rcases List.mem_cons.1 hw with rfl | hw
        · exact absurd hv hwn
        · exact ⟨w, hw, hwn⟩
      obtain ⟨w, hw, hwn, hres⟩ := ih (acc.insert v) h2
      refine ⟨w, List.mem_cons_of_mem _ hw, hwn, ?_⟩
      rw [parseResultsLoop, if_pos ((allowed_iff v).2 hv)]
      exact hres
    · refine ⟨v, List.mem_cons_self _ _, hv, ?_⟩
      rw [parseResultsLoop, if_neg (fun hc => hv ((allowed_iff v).1 hc))]

theorem parseResults_of_ne (T : CaseTable) (input : String) (hne : input ≠ "") :
    parseResults T input = parseResultsLoop (loweredPieces T input) [] := by
  rw [parseResults, if_neg hne, Split_ToLower]

theorem allowed_no_space : ∀ w ∈ allowedResults,
    w.data.head?.all (fun c => !isSpace c) = true ∧
      w.data.getLast?.all (fun c => !isSpace c) = true := by
  decide

theorem spaced_piece_not_allowed (T : CaseTable) (p : String) (c : Char)
    (hc : isSpace c = true) (hp : p.data.head? = some c ∨ p.data.getLast? = some c) :
    ToLower T p ∉ allowedResults := by
  intro hmem
  obtain ⟨h1, h2⟩ := allowed_no_space _ hmem
  rcases hp with hp | hp
  · have : (ToLower T p).data.head? = some c := by
      simp [ToLower, List.head?_map, hp, T.space c hc]
    rw [this] at h1
    simp [hc] at h1
  · have : (ToLower T p).data.getLast? = some c := by
      simp [ToLower, List.getLast?_map, hp, T.space c hc]
    rw [this] at h2
    simp [hc] at h2

theorem parseResults_error_of_piece (T : CaseTable) (input p : String) (hne : input ≠ "")
    (hp : p ∈ Split input ',') (hbad : ToLower T p ∉ allowedResults) :
    (parseResults T input).2 ≠ none := by
  obtain ⟨v, _, _, hres⟩ := parseResultsLoop_err (loweredPieces T input) []
    ⟨ToLower T p, List.mem_map_of_mem _ hp, hbad⟩
  rw [parseResults_of_ne T input hne, hres]
  simp

theorem parseResults_ok_of_allowed (T : CaseTable) (input : String) (hne : input ≠ "")
    (hall : ∀ p ∈ loweredPieces T input, p ∈ allowedResults) :
    ∃ S, parseResults T input = (some S, none) ∧ S.Nodup ∧
      (∀ k, k ∈ S ↔ k ∈ loweredPieces T input) ∧ ∀ k ∈ S, k ∈ allowedResults := by
  obtain ⟨S, hS, hmem, hnd⟩ := parseResultsLoop_ok (loweredPieces T input) [] hall
  refine ⟨S, ?_, hnd List.nodup_nil, ?_, ?_⟩
  · rw [parseResults_of_ne T input hne, hS]
  · intro k
    simpa using hmem k
  · intro k hk
    exact hall k (by simpa using (hmem k).1 hk)

theorem parseResults_err_iff_bad_piece (T : CaseTable) (input : String) (hne : input ≠ "") :
    (parseResults T input).2 ≠ none ↔ ∃ p ∈ loweredPieces T input, p ∉ allowedResults := by
  constructor
  · intro herr
    by_contra hno
    push_neg at hno
    obtain ⟨S, hS, _⟩ := parseResults_ok_of_allowed T input hne hno
    rw [hS] at herr
    exact herr rfl
  · intro hbad
    obtain ⟨v, _, _, hres⟩ := parseResultsLoop_err (loweredPieces T input) [] hbad
    rw [parseResults_of_ne T input hne, hres]
    simp

theorem ToLower_of_ascii (T : CaseTable) (p : String) (h : ∀ c ∈ p.data, c.toNat < 128) :
    ToLower T p = ⟨p.data.map Char.toLower⟩ := by
  unfold ToLower
  congr 1
  exact List.map_congr_left (fun c hc => T.ascii c (h c hc))

theorem append_ne_empty_of_comma (s t : String) : s ++ "," ++ t ≠ "" := by
  intro h
  have := congrArg String.length h
  simp only [String.length_append] at this
  have h2 : ",".length = 1 := by decide
  have h3 : "".length = 0 := by decide
  omega

/-! ## Theorems on `parseResults` -/

/-- C1: for a non-empty input whose comma-separated pieces, lower-cased, are all
among the four allowed kinds, `parseResults` returns no error and a set whose
members are exactly those lower-cased pieces; the set is a subset of the four
kinds, and a piece written in ASCII is matched whatever the case of its letters. -/
theorem parseResults_accepts_valid (T : CaseTable) (input : String) (hne : input ≠ "")
    (hall : ∀ p ∈ loweredPieces T input, p ∈ allowedResults) :
    ∃ S, parseResults T input = (some S, none) ∧ S.Nodup ∧
      (∀ k, k ∈ S ↔ k ∈ loweredPieces T input) ∧ (∀ k ∈ S, k ∈ allowedResults) ∧
      ∀ p ∈ Split input ',', (∀ c ∈ p.data, c.toNat < 128) →
        String.mk (p.data.map Char.toLower) ∈ S := by
  obtain ⟨S, hS, hnd, hmem, hsub⟩ := parseResults_ok_of_allowed T input hne hall
  refine ⟨S, hS, hnd, hmem, hsub, ?_⟩
  intro p hp hascii
  rw [← ToLower_of_ascii T p hascii, hmem]
  exact List.mem_map_of_mem _ hp

/-- Witness of C1 at the input `Verified,UNKNOWN,verified`. -/
theorem parseResults_accepts_valid_witness :
    "Verified,UNKNOWN,verified" ≠ "" ∧
      (∀ p ∈ loweredPieces asciiCaseTable "Verified,UNKNOWN,verified", p ∈ allowedResults) ∧
      ∃ S, parseResults asciiCaseTable "Verified,UNKNOWN,verified" = (some S, none) ∧ S.Nodup ∧
        (∀ k, k ∈ S ↔ k ∈ loweredPieces asciiCaseTable "Verified,UNKNOWN,verified") ∧
        (∀ k ∈ S, k ∈ allowedResults) ∧
        ∀ p ∈ Split "Verified,UNKNOWN,verified" ',', (∀ c ∈ p.data, c.toNat < 128) →
          String.mk (p.data.map Char.toLower) ∈ S :=
  ⟨by decide, by decide,
    parseResults_accepts_valid asciiCaseTable "Verified,UNKNOWN,verified" (by decide) (by decide)⟩

/-- C2: for a non-empty input, `parseResults` returns an error exactly when one
of the comma-separated, lower-cased pieces is not an allowed kind, and then the
returned set is nil. In particular an empty piece (from a leading, a trailing
or a doubled comma) and a piece that begins or ends with white space are
rejected. -/
theorem parseResults_error_iff (T : CaseTable) (input : String) (hne : input ≠ "") :
    ((parseResults T input).2 ≠ none ↔ ∃ p ∈ loweredPieces T input, p ∉ allowedResults) ∧
    ((parseResults T input).2 ≠ none → (parseResults T input).1 = none) ∧
    ("" ∈ Split input ',' → (parseResults T input).2 ≠ none) ∧
    (∀ p ∈ Split input ',', ∀ c, isSpace c = true →
      (p.data.head? = some c ∨ p.data.getLast? = some c) → (parseResults T input).2 ≠ none) ∧
    (∀ s : String, (parseResults T ("," ++ s)).2 ≠ none) ∧
    (∀ s : String, (parseResults T (s ++ ",")).2 ≠ none) ∧
    (∀ s t : String, (parseResults T (s ++ ",," ++ t)).2 ≠ none) := by
  have hiff := parseResults_err_iff_bad_piece T input hne
  have hempty : ToLower T "" ∉ allowedResults := by
    have : ToLower T "" = "" := by simp [ToLower]
    rw [this]
    decide
  refine ⟨hiff, ?_, ?_, ?_, ?_, ?_, ?_⟩
  · intro herr
    obtain ⟨v, _, _, hres⟩ := parseResultsLoop_err (loweredPieces T input) [] (hiff.1 herr)
    rw [parseResults_of_ne T input hne, hres]
  · intro hmem
    exact parseResults_error_of_piece T input "" hne hmem hempty
  · intro p hp c hc hpc
    exact parseResults_error_of_piece T input p hne hp (spaced_piece_not_allowed T p c hc hpc)
  · intro s
    have h1 : "," ++ s = "" ++ "," ++ s := by simp
    have hmem : "" ∈ Split ("," ++ s) ',' := by
      rw [h1, Split_append_comma]
      exact List.mem_append_left _ (by decide)
    exact parseResults_error_of_piece T _ "" (by rw [h1]; exact append_ne_empty_of_comma _ _)
      hmem hempty
  · intro s
    have h1 : s ++ "," = s ++ "," ++ "" := by simp
    have hmem : "" ∈ Split (s ++ ",") ',' := by
      rw [h1, Split_append_comma]
      exact List.mem_append_right _ (by decide)
    exact parseResults_error_of_piece T _ "" (by rw [h1]; exact append_ne_empty_of_comma _ _)
      hmem hempty
  · intro s t
    have h1 : s ++ ",," ++ t = s ++ "," ++ ("" ++ "," ++ t) := by
      apply String.ext
      simp [String.data_append]
    have hmem : "" ∈ Split (s ++ ",," ++ t) ',' := by
      rw [h1, Split_append_comma, Split_append_comma]
      exact List.mem_append_right _ (List.mem_append_left _ (by decide))
    exact parseResults_error_of_piece T _ "" (by rw [h1]; exact append_ne_empty_of_comma _ _)
      hmem hempty

/-- Witness of C2 at the input `verified, unknown`, whose second piece begins
with a blank. -/
theorem parseResults_error_iff_witness :
    "verified, unknown" ≠ "" ∧
      (parseResults asciiCaseTable "verified, unknown").2 ≠ none ∧
      (parseResults asciiCaseTable "verified, unknown").1 = none :=
  ⟨by decide,
    (parseResults_error_iff asciiCaseTable "verified, unknown" (by decide)).2.2.2.1
      " unknown" (by decide) ' ' (by decide) (Or.inl (by decide)),
    (parseResults_error_iff asciiCaseTable "verified, unknown" (by decide)).2.1
      ((parseResults_error_iff asciiCaseTable "verified, unknown" (by decide)).2.2.2.1
        " unknown" (by decide) ' ' (by decide) (Or.inl (by decide)))⟩

/-- C3: `parseResults` returns the keep-all value (no error and a nil or empty
set) exactly for the empty input; every other input that is accepted yields a
non-empty set. -/
theorem parseResults_keep_all_iff (T : CaseTable) (input : String) :
    (((parseResults T input).2 = none ∧
        ((parseResults T input).1 = none ∨ (parseResults T input).1 = some [])) ↔
      input = "") ∧
    (input ≠ "" → (parseResults T input).2 = none →
      ∃ S, (parseResults T input).1 = some S ∧ S ≠ []) := by
  have hnonempty : input ≠ "" → (parseResults T input).2 = none →
      ∃ S, (parseResults T input).1 = some S ∧ S ≠ [] := by
    intro hne herr
    by_cases hall : ∀ p ∈ loweredPieces T input, p ∈ allowedResults
    · obtain ⟨S, hS, _, hmem, _⟩ := parseResults_ok_of_allowed T input hne hall
      refine ⟨S, by rw [hS], ?_⟩
      obtain ⟨p, ps, hp⟩ := List.exists_cons_of_ne_nil
        (show loweredPieces T input ≠ [] by simp [loweredPieces, Split_ne_nil])
      intro hnil
      have : p ∈ S := (hmem p).2 (by rw [hp]; exact List.mem_cons_self _ _)
      rw [hnil] at this
      simp at this
    · push_neg at hall
      exact absurd herr ((parseResults_err_iff_bad_piece T input hne).2 hall)
  refine ⟨⟨?_, ?_⟩, hnonempty⟩
  · rintro ⟨herr, hset⟩
    by_contra hne
    obtain ⟨S, hS, hSne⟩ := hnonempty hne herr
    rcases hset with h | h
    · rw [hS] at h
      simp at h
    · rw [hS] at h
      exact hSne (by simpa using h)
  · rintro rfl
    simp [parseResults]

/-! ## Lemmas on `run` and `runSingleScan` -/

theorem sinceCommitOverride_fields (fl : Flags) :
    (sinceCommitOverride fl).fail = fl.fail ∧
    (sinceCommitOverride fl).compareDetectionStrategies = fl.compareDetectionStrategies ∧
    (sinceCommitOverride fl).configFilename = fl.configFilename ∧
    (sinceCommitOverride fl).onlyVerified = fl.onlyVerified ∧
    (sinceCommitOverride fl).results = fl.results ∧
    (sinceCommitOverride fl).gitScanSinceCommit = fl.gitScanSinceCommit ∧
    (sinceCommitOverride fl).jobReportFile = fl.jobReportFile := by
  unfold sinceCommitOverride
  split_ifs <;> simp

theorem sinceCommitOverride_concurrency (fl : Flags) (h : fl.gitScanSinceCommit ≠ "") :
    (sinceCommitOverride fl).concurrency = 1 := by
  simp [sinceCommitOverride, h]

theorem runSingleScan_result_of_ok (fl : Flags) (eng : EngineAnswers) (cmd : String)
    (cfg : engine.Config) (h : (runSingleScan fl eng cmd cfg).err = none) :
    (runSingleScan fl eng cmd cfg).result =
      { Metrics := eng.GetMetrics, hasFoundResults := eng.HasFoundResults } := by
  unfold runSingleScan at h ⊢
  split at h
  · simp at h
  · split at h
    · simp at h
    · split at h
      · simp at h
      · simp_all

theorem run_cases (T : CaseTable) (fl : Flags) (world : RunAnswers) (cmd : String) :
    ((run T fl world cmd).engConf = none ∧ (run T fl world cmd).scans = []) ∨
    ∃ parsedResults, run T fl world cmd =
      runScans (sinceCommitOverride fl) world cmd
        { Concurrency := (sinceCommitOverride fl).concurrency
          Results := parsedResults
          ShouldScanEntireChunk := (sinceCommitOverride fl).scanEntireChunk } := by
  unfold run
  simp only
  split_ifs
  · exact Or.inl ⟨rfl, rfl⟩
  · split
    · exact Or.inl ⟨rfl, rfl⟩
    · exact Or.inr ⟨_, rfl⟩
  · split
    · exact Or.inl ⟨rfl, rfl⟩
    · exact Or.inr ⟨_, rfl⟩

theorem runScans_single (fl : Flags) (world : RunAnswers) (cmd : String) (cfg : engine.Config)
    (hsingle : fl.compareDetectionStrategies = false) :
    (runScans fl world cmd cfg).scans = [runSingleScan fl world.scan cmd cfg] ∧
    ((runSingleScan fl world.scan cmd cfg).err = none →
      (runScans fl world cmd cfg).ending =
        if world.scan.HasFoundResults && fl.fail then ProcessEnd.exit 183
        else ProcessEnd.returned) := by
  unfold runScans
  simp only [hsingle, Bool.false_eq_true, if_false]
  rcases herr : (runSingleScan fl world.scan cmd cfg).err with _ | err
  · have hres := runSingleScan_result_of_ok _ _ _ _ herr
    simp only [hres]
    split_ifs <;> simp
  · simp

theorem ite_of_both {α : Type} (P : α → Prop) (c : Prop) [Decidable c] (a b : α)
    (ha : P a) (hb : P b) : P (if c then a else b) := by
  split_ifs <;> assumption

theorem scanCall_no_NewEngine (eng : EngineAnswers) (call : EngineCall) (failure : String)
    (c : engine.Config) (hcall : EngineCall.NewEngine c ≠ call) :
    EngineCall.NewEngine c ∉ (scanCall eng call failure).1 := by
  simpa [scanCall] using hcall

theorem scanSource_no_NewEngine (fl : Flags) (eng : EngineAnswers) (cmd : String)
    (c : engine.Config) : EngineCall.NewEngine c ∉ (scanSource fl eng cmd).1 := by
  have hgithub : EngineCall.NewEngine c ∉ (githubScanCase fl eng).1 := by
    unfold githubScanCase
    split
    · exact List.not_mem_nil _
    · split_ifs
      · exact List.not_mem_nil _
      · exact scanCall_no_NewEngine _ _ _ c (by simp)
  have hgitlab : EngineCall.NewEngine c ∉ (gitlabScanCase eng).1 := by
    unfold gitlabScanCase
    split
    · exact List.not_mem_nil _
    · exact scanCall_no_NewEngine _ _ _ c (by simp)
  have hfs : EngineCall.NewEngine c ∉ (filesystemScanCase fl eng).1 :=
    scanCall_no_NewEngine _ _ _ c (by simp)
  have hhf : EngineCall.NewEngine c ∉ (huggingfaceScanCase fl eng).1 := by
    unfold huggingfaceScanCase
    split_ifs
    · exact List.not_mem_nil _
    · exact scanCall_no_NewEngine _ _ _ c (by simp)
  unfold scanSource
  repeat' apply ite_of_both (fun r : List EngineCall × Option String => EngineCall.NewEngine c ∉ r.1)
  all_goals first
    | exact hgithub
    | exact hgitlab
    | exact hfs
    | exact hhf
    | exact List.not_mem_nil _
    | exact scanCall_no_NewEngine _ _ _ c (by simp)

theorem runSingleScan_NewEngine (fl : Flags) (eng : EngineAnswers) (cmd : String)
    (cfg : engine.Config) :
    (∃ rest, (runSingleScan fl eng cmd cfg).calls =
      EngineCall.NewEngine { cfg with
        SourceManager := some (sources.NewManager (managerOptions cfg fl.jobReportFile)) } ::
        rest) ∧
    ∀ c, EngineCall.NewEngine c ∈ (runSingleScan fl eng cmd cfg).calls →
      c = { cfg with
        SourceManager := some (sources.NewManager (managerOptions cfg fl.jobReportFile)) } := by
  have hno := scanSource_no_NewEngine fl eng cmd
  unfold runSingleScan
  split
  · exact ⟨⟨_, rfl⟩, fun c hc => by simpa using hc⟩
  · split
    · rename_i calls err hsrc
      rw [hsrc] at hno
      refine ⟨⟨_, rfl⟩, fun c hc => ?_⟩
      have := hno c
      simp only [List.cons_append, List.nil_append, List.mem_cons, List.mem_append,
        EngineCall.NewEngine.injEq, List.mem_singleton, reduceCtorEq, false_or, or_false] at hc
      tauto
    · rename_i calls hsrc
      rw [hsrc] at hno
      split
      all_goals
        refine ⟨⟨_, rfl⟩, fun c hc => ?_⟩
        have := hno c
        simp only [List.cons_append, List.nil_append, List.mem_cons, List.mem_append,
          EngineCall.NewEngine.injEq, List.mem_singleton, reduceCtorEq, false_or, or_false,
          List.not_mem_nil] at hc
        tauto

theorem managerOptions_units (cfg : engine.Config) (jobReportWriter : Bool) (n : Int) :
    sources.ManagerOption.WithConcurrentUnits n ∈ managerOptions cfg jobReportWriter ↔
      n = cfg.Concurrency := by
  cases jobReportWriter <;> simp [managerOptions]

theorem NewManager_managerOptions (cfg : engine.Config) (jobReportWriter : Bool) :
    (sources.NewManager (managerOptions cfg jobReportWriter)).max_concurrent_units =
      some cfg.Concurrency ∧
    (sources.NewManager (managerOptions cfg jobReportWriter)).max_concurrent_sources =
      some cfg.Concurrency := by
  cases jobReportWriter <;>
    simp [managerOptions, sources.NewManager, sources.ManagerOption.apply]

theorem compareScans_cases (fl : Flags) (entire maxLength : EngineAnswers) (progress : Nat)
    (cmd : String) (cfg : engine.Config) :
    (∃ err, (runSingleScan fl maxLength cmd cfg).err = some err ∧
      compareScans fl entire maxLength progress cmd cfg =
        { err := some ("error running scan with custom span calculator: " ++ err)
          scans := [runSingleScan fl maxLength cmd cfg]
          unawaited := [(runSingleScan fl entire cmd
            { cfg with ShouldScanEntireChunk := true }).calls.take progress] }) ∨
    ((runSingleScan fl maxLength cmd cfg).err = none ∧
      compareScans fl entire maxLength progress cmd cfg =
        { err := compareMetrics (runSingleScan fl maxLength cmd cfg).result.Metrics
            (runSingleScan fl entire cmd { cfg with ShouldScanEntireChunk := true }).result.Metrics
          scans := [runSingleScan fl maxLength cmd cfg,
            runSingleScan fl entire cmd { cfg with ShouldScanEntireChunk := true }]
          unawaited := [] }) := by
  unfold compareScans
  simp only
  rcases herr : (runSingleScan fl maxLength cmd cfg).err with _ | err
  · exact Or.inr ⟨rfl, rfl⟩
  · exact Or.inl ⟨err, rfl, rfl⟩

/-- The shapes of the trace of `runScans`: a single scan; in compare mode the
max-length scan alone, with the goroutine left behind, when it returns an
error, and both scans otherwise. -/
theorem runScans_cases (fl : Flags) (world : RunAnswers) (cmd : String) (cfg : engine.Config) :
    (runScans fl world cmd cfg).engConf = some cfg ∧
    ((fl.compareDetectionStrategies = false ∧
        (runScans fl world cmd cfg).scans = [runSingleScan fl world.scan cmd cfg] ∧
        (runScans fl world cmd cfg).unawaited = []) ∨
      (fl.compareDetectionStrategies = true ∧
        (runSingleScan fl world.scan cmd cfg).err ≠ none ∧
        (runScans fl world cmd cfg).ending = ProcessEnd.exit 1 ∧
        (runScans fl world cmd cfg).scans = [runSingleScan fl world.scan cmd cfg] ∧
        (runScans fl world cmd cfg).unawaited =
          [(runSingleScan fl world.entireScan cmd
            { cfg with ShouldScanEntireChunk := true }).calls.take world.entireProgress]) ∨
      (fl.compareDetectionStrategies = true ∧
        (runSingleScan fl world.scan cmd cfg).err = none ∧
        (runScans fl world cmd cfg).scans =
          [runSingleScan fl world.scan cmd cfg,
            runSingleScan fl world.entireScan cmd { cfg with ShouldScanEntireChunk := true }] ∧
        (runScans fl world cmd cfg).unawaited = [])) := by
  unfold runScans
  by_cases hcmp : fl.compareDetectionStrategies = true
  · rw [if_pos hcmp]
    simp only
    rcases compareScans_cases fl world.entireScan world.scan world.entireProgress cmd cfg with
      ⟨err, herr, hc⟩ | ⟨herr, hc⟩
    · rw [hc]
      refine ⟨rfl, Or.inr (Or.inl ⟨hcmp, by rw [herr]; simp, rfl, rfl, rfl⟩)⟩
    · rw [hc]
      simp only
      split <;> exact ⟨rfl, Or.inr (Or.inr ⟨hcmp, herr, rfl, rfl⟩)⟩
  · rw [if_neg hcmp]
    simp only
    have hfalse : fl.compareDetectionStrategies = false := by simpa using hcmp
    rcases herr : (runSingleScan fl world.scan cmd cfg).err with _ | err
    · simp only
      split_ifs <;> exact ⟨rfl, Or.inl ⟨hfalse, rfl, rfl⟩⟩
    · exact ⟨rfl, Or.inl ⟨hfalse, rfl, rfl⟩⟩

theorem runScans_scans (fl : Flags) (world : RunAnswers) (cmd : String) (cfg : engine.Config) :
    (runScans fl world cmd cfg).engConf = some cfg ∧ (runScans fl world cmd cfg).scans ≠ [] ∧
    ∀ scan ∈ (runScans fl world cmd cfg).scans, ∃ eng cfg2,
      scan = runSingleScan fl eng cmd cfg2 ∧ cfg2.Concurrency = cfg.Concurrency := by
  obtain ⟨hconf, hcases⟩ := runScans_cases fl world cmd cfg
  rcases hcases with ⟨-, h, -⟩ | ⟨-, -, -, h, -⟩ | ⟨-, -, h, -⟩
  all_goals
    rw [h]
    refine ⟨hconf, by simp, ?_⟩
    intro scan hscan
    simp only [List.mem_cons, List.mem_singleton, List.not_mem_nil, or_false] at hscan
  · exact ⟨_, _, hscan, rfl⟩
  · exact ⟨_, _, hscan, rfl⟩
  · rcases hscan with rfl | rfl
    · exact ⟨_, _, rfl, rfl⟩
    · exact ⟨_, _, rfl, rfl⟩

/-! ## Theorems on `run` -/

/-- C4: when `run` makes a single scan and `runSingleScan` returns no error,
`run` ends the process with exit code 183 exactly when `--fail` is set and the
engine reports that results were found; in every other case it returns. -/
theorem run_exit_183_iff (T : CaseTable) (fl : Flags) (world : RunAnswers) (cmd : String)
    (hsingle : fl.compareDetectionStrategies = false)
    (hscan : ∃ scan, (run T fl world cmd).scans = [scan] ∧ scan.err = none) :
    ((run T fl world cmd).ending = ProcessEnd.exit 183 ↔
      fl.fail = true ∧ world.scan.HasFoundResults = true) ∧
    (¬ (fl.fail = true ∧ world.scan.HasFoundResults = true) →
      (run T fl world cmd).ending = ProcessEnd.returned) := by
  obtain ⟨scan, hscans, herr⟩ := hscan
  obtain ⟨hfail, hcmp, -, -, -, -, -⟩ := sinceCommitOverride_fields fl
  rcases run_cases T fl world cmd with ⟨-, hnil⟩ | ⟨parsedResults, hrun⟩
  · rw [hnil] at hscans
    simp at hscans
  · rw [hrun] at hscans ⊢
    obtain ⟨h1, h2⟩ := runScans_single (sinceCommitOverride fl) world cmd _ (hcmp.trans hsingle)
    rw [h1] at hscans
    simp only [List.cons.injEq, and_true] at hscans
    rw [← hscans] at herr
    rw [h2 herr, hfail]
    by_cases hf : fl.fail = true <;> by_cases hr : world.scan.HasFoundResults = true <;>
      simp [hf, hr]

/-- Witness of C4: a `git` scan that finds results, once with `--fail` and once
without it. -/
theorem run_exit_183_iff_witness :
    (run asciiCaseTable { concurrency := 8, fail := true }
        { scan := { HasFoundResults := true } } "git").ending = ProcessEnd.exit 183 ∧
    (run asciiCaseTable { concurrency := 8, fail := false }
        { scan := { HasFoundResults := true } } "git").ending = ProcessEnd.returned :=
  ⟨(run_exit_183_iff asciiCaseTable { concurrency := 8, fail := true }
      { scan := { HasFoundResults := true } } "git" rfl ⟨_, rfl, rfl⟩).1.2
      ⟨rfl, rfl⟩,
    (run_exit_183_iff asciiCaseTable { concurrency := 8, fail := false }
      { scan := { HasFoundResults := true } } "git" rfl ⟨_, rfl, rfl⟩).2
      (by decide)⟩

/-- C5: when `--since-commit` is non-empty, the engine configuration built by
`run` has `Concurrency = 1` whatever `--concurrency` was, and every
`runSingleScan` that `run` starts hands `sources.NewManager` exactly one
concurrent-unit option, `WithConcurrentUnits(1)`, so that the source manager in
the configuration passed to `engine.NewEngine` has a concurrent-unit limit of 1.
Such a configuration and scan exist whenever the configuration file is read and
`--results` is parsed without error. -/
theorem since_commit_forces_unit_concurrency (T : CaseTable) (fl : Flags) (world : RunAnswers)
    (cmd : String) (hsince : fl.gitScanSinceCommit ≠ "") :
    (∀ cfg, (run T fl world cmd).engConf = some cfg → cfg.Concurrency = 1) ∧
    (∀ scan ∈ (run T fl world cmd).scans,
      (∃ cfg, EngineCall.NewEngine cfg ∈ scan.calls) ∧
      ∀ cfg, EngineCall.NewEngine cfg ∈ scan.calls →
        cfg.Concurrency = 1 ∧
        (∀ n, sources.ManagerOption.WithConcurrentUnits n ∈ managerOptions cfg fl.jobReportFile ↔
          n = 1) ∧
        cfg.SourceManager = some (sources.NewManager (managerOptions cfg fl.jobReportFile)) ∧
        ∃ mgr, cfg.SourceManager = some mgr ∧ mgr.max_concurrent_units = some 1) ∧
    ((fl.configFilename = "" ∨ world.configReadErr = none) →
      (parseResults T (if fl.onlyVerified then "verified" else fl.results)).2 = none →
      (run T fl world cmd).engConf ≠ none ∧ (run T fl world cmd).scans ≠ []) := by
  obtain ⟨-, -, hcfg, honly, hresults, -, hjob⟩ := sinceCommitOverride_fields fl
  have hconc := sinceCommitOverride_concurrency fl hsince
  refine ⟨?_, ?_, ?_⟩
  · intro cfg hcfgeq
    rcases run_cases T fl world cmd with ⟨hnone, -⟩ | ⟨parsedResults, hrun⟩
    · rw [hnone] at hcfgeq
      simp at hcfgeq
    · rw [hrun, (runScans_scans _ _ _ _).1] at hcfgeq
      rw [← Option.some.inj hcfgeq]
      exact hconc
  · intro scan hscan
    rcases run_cases T fl world cmd with ⟨-, hnil⟩ | ⟨parsedResults, hrun⟩
    · rw [hnil] at hscan
      simp at hscan
    · rw [hrun] at hscan
      obtain ⟨eng, cfg2, rfl, hc2⟩ := (runScans_scans _ _ _ _).2.2 scan hscan
      obtain ⟨⟨rest, hhead⟩, honly2⟩ := runSingleScan_NewEngine (sinceCommitOverride fl) eng cmd cfg2
      refine ⟨⟨_, by rw [hhead]; exact List.mem_cons_self _ _⟩, ?_⟩
      intro cfg hmem
      have hcfg2 := honly2 cfg hmem
      have h1 : cfg2.Concurrency = 1 := hc2.trans hconc
      have hopts : managerOptions cfg fl.jobReportFile =
          managerOptions cfg2 (sinceCommitOverride fl).jobReportFile := by
        rw [hcfg2, hjob]
        rfl
      have hmgr := (NewManager_managerOptions cfg2 (sinceCommitOverride fl).jobReportFile).1
      refine ⟨by rw [hcfg2]; exact h1, ?_, ?_, ?_⟩
      · intro n
        rw [hopts, managerOptions_units, h1]
      · rw [hopts, hcfg2]
      · exact ⟨_, by rw [hcfg2], by rw [hmgr, h1]⟩
  · intro hread hparse
    have hrun : ∃ parsedResults, run T fl world cmd =
        runScans (sinceCommitOverride fl) world cmd
          { Concurrency := (sinceCommitOverride fl).concurrency
            Results := parsedResults
            ShouldScanEntireChunk := (sinceCommitOverride fl).scanEntireChunk } := by
      unfold run
      simp only [hcfg, honly, hresults]
      rw [if_neg (by
        rintro ⟨h1, h2⟩
        rcases hread with h | h
        · exact h1 h
        · exact h2 h)]
      split
      · rename_i err heq
        rw [heq] at hparse
        simp at hparse
      · exact ⟨_, rfl⟩
    obtain ⟨parsedResults, hrun⟩ := hrun
    rw [hrun]
    obtain ⟨h1, h2, -⟩ := runScans_scans (sinceCommitOverride fl) world cmd
      { Concurrency := (sinceCommitOverride fl).concurrency
        Results := parsedResults
        ShouldScanEntireChunk := (sinceCommitOverride fl).scanEntireChunk }
    exact ⟨by rw [h1]; simp, h2⟩

/-- Witness of C5: `git --since-commit=abc123 --concurrency=8`. -/
theorem since_commit_forces_unit_concurrency_witness :
    (run asciiCaseTable { concurrency := 8, gitScanSinceCommit := "abc123" } {} "git").engConf =
        some { Concurrency := 1, Results := none, ShouldScanEntireChunk := false } ∧
      ∀ cfg, (run asciiCaseTable { concurrency := 8, gitScanSinceCommit := "abc123" } {}
        "git").engConf = some cfg → cfg.Concurrency = 1 :=
  ⟨by decide,
    (since_commit_forces_unit_concurrency asciiCaseTable
      { concurrency := 8, gitScanSinceCommit := "abc123" } {} "git" (by decide)).1⟩

/-! ## Theorems on `compareMetrics` -/

/-- C6, counterexample: two scans that agree on chunks, bytes and verified
secrets but differ in the number of unverified secrets; `compareMetrics`
returns nil. -/
theorem compareMetrics_unverified_differ :
    (0 : Nat) ≠ 2 ∧
    compareMetrics
      { ChunksScanned := 3, BytesScanned := 100, VerifiedSecretsFound := 1,
        UnverifiedSecretsFound := 0 }
      { ChunksScanned := 3, BytesScanned := 100, VerifiedSecretsFound := 1,
        UnverifiedSecretsFound := 2 } = none := by
  decide

/-- C6, amended: `compareMetrics` returns an error exactly when the two scans
differ in chunks scanned, bytes scanned or verified secrets found, and nil when
these three counts are equal; the number of unverified secrets and the duration
are not compared. -/
theorem compareMetrics_error_iff (customMetrics entireMetrics : engine.Metrics) :
    (compareMetrics customMetrics entireMetrics ≠ none ↔
      (customMetrics.ChunksScanned ≠ entireMetrics.ChunksScanned ∨
        customMetrics.BytesScanned ≠ entireMetrics.BytesScanned ∨
        customMetrics.VerifiedSecretsFound ≠ entireMetrics.VerifiedSecretsFound)) ∧
    (compareMetrics customMetrics entireMetrics = none ↔
      (customMetrics.ChunksScanned = entireMetrics.ChunksScanned ∧
        customMetrics.BytesScanned = entireMetrics.BytesScanned ∧
        customMetrics.VerifiedSecretsFound = entireMetrics.VerifiedSecretsFound)) ∧
    (∀ (unverified : Nat) (duration : Int),
      compareMetrics
        { customMetrics with UnverifiedSecretsFound := unverified, ScanDuration := duration }
        entireMetrics = compareMetrics customMetrics entireMetrics) := by
  refine ⟨?_, ?_, ?_⟩
  · unfold compareMetrics
    split_ifs with h
    · simpa using h
    · simpa using h
  · unfold compareMetrics
    split_ifs with h
    · simp only [reduceCtorEq, false_iff]
      tauto
    · simp only [true_iff]
      tauto
  · intro unverified duration
    rfl

/-! ## Theorems on the Postman configuration -/

/-- C7, counterexample: `--workspace-id=a --workspace=a` puts `a` twice into the
`Workspaces` list. -/
theorem postmanConfig_duplicate :
    (postmanConfig
      { concurrency := 1, postmanWorkspaceIDs := ["a"], postmanWorkspaces := ["a"] }).Workspaces =
      ["a", "a"] ∧
    ¬ (postmanConfig
      { concurrency := 1, postmanWorkspaceIDs := ["a"], postmanWorkspaces := ["a"] }).Workspaces.Nodup := by
  decide

/-- C7, amended: no value is removed at config assembly. Each of the four lists
of the `PostmanConfig` is free of repetitions exactly when neither the
canonical flag nor its deprecated alias was given a value twice and no value
was given through both. -/
theorem postmanConfig_nodup_iff (fl : Flags) :
    ((postmanConfig fl).Workspaces.Nodup ↔
      fl.postmanWorkspaceIDs.Nodup ∧ fl.postmanWorkspaces.Nodup ∧
        fl.postmanWorkspaceIDs.Disjoint fl.postmanWorkspaces) ∧
    ((postmanConfig fl).Collections.Nodup ↔
      fl.postmanCollectionIDs.Nodup ∧ fl.postmanCollections.Nodup ∧
        fl.postmanCollectionIDs.Disjoint fl.postmanCollections) ∧
    ((postmanConfig fl).IncludeCollections.Nodup ↔
      fl.postmanIncludeCollectionIDs.Nodup ∧ fl.postmanIncludeCollections.Nodup ∧
        fl.postmanIncludeCollectionIDs.Disjoint fl.postmanIncludeCollections) ∧
    ((postmanConfig fl).ExcludeCollections.Nodup ↔
      fl.postmanExcludeCollectionIDs.Nodup ∧ fl.postmanExcludeCollections.Nodup ∧
        fl.postmanExcludeCollectionIDs.Disjoint fl.postmanExcludeCollections) := by
  simp only [postmanConfig, List.nil_append]
  exact ⟨List.nodup_append, List.nodup_append, List.nodup_append, List.nodup_append⟩

/-- C8: each of the `Workspaces`, `Collections`, `IncludeCollections` and
`ExcludeCollections` lists handed to `ScanPostman` is the values of the
canonical `*-id` flag followed by the values of the deprecated flag, in the
order given; every value occurs in it as often as it was supplied through the
two flags together. -/
theorem postmanConfig_lists (fl : Flags) (eng : EngineAnswers) :
    (scanSource fl eng "postman").1 = [EngineCall.ScanPostman (postmanConfig fl)] ∧
    (postmanConfig fl).Workspaces = fl.postmanWorkspaceIDs ++ fl.postmanWorkspaces ∧
    (postmanConfig fl).Collections = fl.postmanCollectionIDs ++ fl.postmanCollections ∧
    (postmanConfig fl).IncludeCollections =
      fl.postmanIncludeCollectionIDs ++ fl.postmanIncludeCollections ∧
    (postmanConfig fl).ExcludeCollections =
      fl.postmanExcludeCollectionIDs ++ fl.postmanExcludeCollections ∧
    (∀ v : String,
      (postmanConfig fl).Workspaces.count v =
        fl.postmanWorkspaceIDs.count v + fl.postmanWorkspaces.count v ∧
      (postmanConfig fl).Collections.count v =
        fl.postmanCollectionIDs.count v + fl.postmanCollections.count v ∧
      (postmanConfig fl).IncludeCollections.count v =
        fl.postmanIncludeCollectionIDs.count v + fl.postmanIncludeCollections.count v ∧
      (postmanConfig fl).ExcludeCollections.count v =
        fl.postmanExcludeCollectionIDs.count v + fl.postmanExcludeCollections.count v) := by
  refine ⟨?_, ?_, ?_, ?_, ?_, ?_⟩
  · simp [scanSource, scanCall]
  · simp [postmanConfig]
  · simp [postmanConfig]
  · simp [postmanConfig]
  · simp [postmanConfig]
  · intro v
    simp [postmanConfig, List.count_append]

/-! ## Theorems on the log level -/

theorem int8_of_range (n : Int) (h1 : -128 ≤ n) (h2 : n ≤ 127) : int8 n = n := by
  unfold int8
  omega

theorem int8_add_256 (n : Int) : int8 (n + 256) = int8 n := by
  unfold int8
  omega

theorem configureLogging_exit_iff (logLevel : Int) :
    configureLogging false false logLevel = LogSetup.exit 1 ↔
      (int8 logLevel < -1 ∨ int8 logLevel > 5) := by
  unfold configureLogging
  simp only [Bool.false_eq_true, if_false]
  split_ifs <;> simp_all

/-- For a level that fits into an `int8` the check of `init` is the documented
one: the level is rejected exactly when it lies outside `-1..5`. -/
theorem configureLogging_exit_iff_of_range (logLevel : Int) (h1 : -128 ≤ logLevel)
    (h2 : logLevel ≤ 127) :
    configureLogging false false logLevel = LogSetup.exit 1 ↔ (logLevel < -1 ∨ logLevel > 5) := by
  rw [configureLogging_exit_iff, int8_of_range logLevel h1 h2]

/-- C9, the code at the failing input: with neither `--trace` nor `--debug`,
`--log-level=256` is greater than 5 and yet is not rejected: `int8(256)` is 0
and `init` calls `log.SetLevel(0)`. Likewise `--log-level=255` silences the logs
like `-1`, and `--log-level=-256` is taken for 0. -/
theorem configureLogging_accepts_256 :
    (256 : Int) > 5 ∧
    configureLogging false false 256 = LogSetup.SetLevel 0 ∧
    configureLogging false false 255 = LogSetup.SetLevel (-5) ∧
    configureLogging false false (-256) = LogSetup.SetLevel 0 := by
  decide

/-! ## Theorems on `commaSeparatedToSlice` -/

theorem commaSeparatedToSliceItems_eq (pieces result : List String) :
    commaSeparatedToSliceItems pieces result =
      result ++ (pieces.map TrimSpace).filter (fun item => item ≠ "") := by
  induction pieces generalizing result with
  | nil => simp [commaSeparatedToSliceItems]
  | cons item rest ih =>
    unfold commaSeparatedToSliceItems
    by_cases h : TrimSpace item = ""
    · simp [h, ih]
    · simp [h, ih]

theorem commaSeparatedToSliceLoop_eq (s result : List String) :
    commaSeparatedToSliceLoop s result = result ++ s.flatMap trimmedPieces := by
  induction s generalizing result with
  | nil => simp [commaSeparatedToSliceLoop]
  | cons items rest ih =>
    rw [commaSeparatedToSliceLoop, ih, commaSeparatedToSliceItems_eq]
    simp [trimmedPieces, List.flatMap_cons]

theorem TrimSpace_head (s : String) (c : Char) (h : (TrimSpace s).data.head? = some c) :
    isSpace c = false := by
  unfold TrimSpace at h
  simp only at h
  have hne : (s.data.dropWhile isSpace).rdropWhile isSpace ≠ [] := by
    intro h0
    rw [h0] at h
    simp at h
  have hh := List.IsPrefix.head ( List.rdropWhile_prefix isSpace (l := s.data.dropWhile isSpace)) hne
  rw [List.head?_eq_head hne] at h
  rw [← Option.some.inj h, hh]
  exact List.head_dropWhile_not isSpace s.data _

theorem TrimSpace_getLast (s : String) (c : Char)
    (h : (TrimSpace s).data.getLast? = some c) : isSpace c = false := by
  unfold TrimSpace at h
  simp only at h
  have hne : (s.data.dropWhile isSpace).rdropWhile isSpace ≠ [] := by
    intro h0
    rw [h0] at h
    simp at h
  have hh := List.rdropWhile_last_not isSpace (s.data.dropWhile isSpace) hne
  rw [List.getLast?_eq_getLast _ hne] at h
  rw [← Option.some.inj h]
  simpa using hh

theorem trimmedPieces_append_comma (s t : String) :
    trimmedPieces (s ++ "," ++ t) = trimmedPieces s ++ trimmedPieces t := by
  simp [trimmedPieces, Split_append_comma]

/-- C10: `commaSeparatedToSlice` returns, for every list of strings, the
concatenation over the strings in order of each string's comma-separated
pieces, trimmed of surrounding white space, the empty ones removed (so no item
of the result is empty or begins or ends with white space). Hence it
distributes over the concatenation of lists, and one value `s,t` gives the same
list as the two values `s` and `t`. -/
theorem commaSeparatedToSlice_spec (xs ys : List String) :
    commaSeparatedToSlice xs = xs.flatMap trimmedPieces ∧
    commaSeparatedToSlice (xs ++ ys) = commaSeparatedToSlice xs ++ commaSeparatedToSlice ys ∧
    (∀ s t : String, commaSeparatedToSlice (xs ++ [s ++ "," ++ t] ++ ys) =
      commaSeparatedToSlice (xs ++ [s, t] ++ ys)) ∧
    (∀ item ∈ commaSeparatedToSlice xs, item ≠ "" ∧
      (∀ c, item.data.head? = some c → isSpace c = false) ∧
      (∀ c, item.data.getLast? = some c → isSpace c = false)) := by
  have hspec : ∀ zs : List String, commaSeparatedToSlice zs = zs.flatMap trimmedPieces := by
    intro zs
    simp [commaSeparatedToSlice, commaSeparatedToSliceLoop_eq]
  refine ⟨hspec xs, ?_, ?_, ?_⟩
  · simp [hspec, List.flatMap_append]
  · intro s t
    simp [hspec, List.flatMap_append, trimmedPieces_append_comma]
  · intro item hitem
    rw [hspec, List.mem_flatMap] at hitem
    obtain ⟨x, -, hx⟩ := hitem
    simp only [trimmedPieces, List.mem_filter, List.mem_map, decide_eq_true_eq] at hx
    obtain ⟨⟨piece, -, rfl⟩, hne⟩ := hx
    exact ⟨hne, TrimSpace_head piece, TrimSpace_getLast piece⟩

/-! ## Lemmas on the cases of `runSingleScan` -/

theorem scanSource_github (fl : Flags) (eng : EngineAnswers) :
    scanSource fl eng "github" = githubScanCase fl eng := by
  simp [scanSource]

theorem scanSource_huggingface (fl : Flags) (eng : EngineAnswers) :
    scanSource fl eng "huggingface" = huggingfaceScanCase fl eng := by
  simp [scanSource]

theorem runSingleScan_of_scan_err (fl : Flags) (eng : EngineAnswers) (cmd : String)
    (cfg : engine.Config) (calls : List EngineCall) (err : String)
    (hinit : eng.newEngineErr = none) (hsrc : scanSource fl eng cmd = (calls, some err)) :
    (runSingleScan fl eng cmd cfg).err = some err ∧
    (runSingleScan fl eng cmd cfg).calls =
      [EngineCall.NewEngine { cfg with
        SourceManager := some (sources.NewManager (managerOptions cfg fl.jobReportFile)) },
        EngineCall.Start] ++ calls ++ [EngineCall.CleanTempArtifacts] := by
  unfold runSingleScan
  simp [hinit, hsrc]

theorem runSingleScan_of_scan_ok (fl : Flags) (eng : EngineAnswers) (cmd : String)
    (cfg : engine.Config) (calls : List EngineCall)
    (hinit : eng.newEngineErr = none) (hsrc : scanSource fl eng cmd = (calls, none)) :
    (runSingleScan fl eng cmd cfg).err =
      eng.finishErr.map (fun err => "engine failed to finish execution: " ++ err) ∧
    (runSingleScan fl eng cmd cfg).calls =
      [EngineCall.NewEngine { cfg with
        SourceManager := some (sources.NewManager (managerOptions cfg fl.jobReportFile)) },
        EngineCall.Start] ++ calls ++ [EngineCall.Finish, EngineCall.CleanTempArtifacts] := by
  unfold runSingleScan
  simp only [hinit, hsrc]
  cases eng.finishErr <;> simp

theorem runSingleScan_of_init_err (fl : Flags) (eng : EngineAnswers) (cmd : String)
    (cfg : engine.Config) (err : String) (hinit : eng.newEngineErr = some err) :
    (runSingleScan fl eng cmd cfg).err = some ("error initializing engine: " ++ err) ∧
    (runSingleScan fl eng cmd cfg).calls =
      [EngineCall.NewEngine { cfg with
        SourceManager := some (sources.NewManager (managerOptions cfg fl.jobReportFile)) }] := by
  unfold runSingleScan
  simp [hinit]

/-- The calls of a `runSingleScan`: the creation of the engine alone when it
fails, else the creation, `Start`, the calls of the selected case, `Finish`
unless the case returned an error, and the deferred clean-up. -/
theorem runSingleScan_calls (fl : Flags) (eng : EngineAnswers) (cmd : String)
    (cfg : engine.Config) :
    (eng.newEngineErr ≠ none ∧ ∃ c, (runSingleScan fl eng cmd cfg).calls = [EngineCall.NewEngine c]) ∨
    (eng.newEngineErr = none ∧ ∃ c tail, (tail = [] ∨ tail = [EngineCall.Finish]) ∧
      (runSingleScan fl eng cmd cfg).calls =
        [EngineCall.NewEngine c, EngineCall.Start] ++ (scanSource fl eng cmd).1 ++ tail ++
          [EngineCall.CleanTempArtifacts]) := by
  rcases hinit : eng.newEngineErr with _ | e
  · right
    refine ⟨rfl, ?_⟩
    rcases hsrc : scanSource fl eng cmd with ⟨calls, _ | err⟩
    · refine ⟨{ cfg with
        SourceManager := some (sources.NewManager (managerOptions cfg fl.jobReportFile)) },
        [EngineCall.Finish], Or.inr rfl, ?_⟩
      rw [(runSingleScan_of_scan_ok fl eng cmd cfg calls hinit hsrc).2]
      simp
    · refine ⟨{ cfg with
        SourceManager := some (sources.NewManager (managerOptions cfg fl.jobReportFile)) },
        [], Or.inl rfl, ?_⟩
      rw [(runSingleScan_of_scan_err fl eng cmd cfg calls err hinit hsrc).2]
      simp
  · left
    exact ⟨by simp, _, (runSingleScan_of_init_err fl eng cmd cfg e hinit).2⟩

theorem runSingleScan_scan_calls (fl : Flags) (eng : EngineAnswers) (cmd : String)
    (cfg : engine.Config) (c : EngineCall) (hc : c.isScan = true)
    (hmem : c ∈ (runSingleScan fl eng cmd cfg).calls) : c ∈ (scanSource fl eng cmd).1 := by
  rcases runSingleScan_calls fl eng cmd cfg with ⟨-, c0, h⟩ | ⟨-, c0, tail, htail, h⟩
  · rw [h] at hmem
    simp only [List.mem_singleton] at hmem
    subst hmem
    simp [EngineCall.isScan] at hc
  · rw [h] at hmem
    rcases List.mem_append.1 hmem with hm | hm
    · rcases List.mem_append.1 hm with hm | hm
      · rcases List.mem_append.1 hm with hm | hm
        · simp only [List.mem_cons, List.mem_singleton, List.not_mem_nil, or_false] at hm
          rcases hm with rfl | rfl <;> simp [EngineCall.isScan] at hc
        · exact hm
      · rcases htail with rfl | rfl
        · simp at hm
        · simp only [List.mem_singleton] at hm
          subst hm
          simp [EngineCall.isScan] at hc
    · simp only [List.mem_singleton] at hm
      subst hm
      simp [EngineCall.isScan] at hc

theorem runSingleScan_err_of_scanSource_err (fl : Flags) (eng : EngineAnswers) (cmd : String)
    (cfg : engine.Config) (h : (scanSource fl eng cmd).2 ≠ none) :
    (runSingleScan fl eng cmd cfg).err ≠ none := by
  rcases hinit : eng.newEngineErr with _ | e
  · rcases hsrc : scanSource fl eng cmd with ⟨calls, _ | err⟩
    · rw [hsrc] at h
      exact absurd rfl h
    · rw [(runSingleScan_of_scan_err fl eng cmd cfg calls err hinit hsrc).1]
      simp
  · rw [(runSingleScan_of_init_err fl eng cmd cfg e hinit).1]
    simp

theorem githubScanCase_calls (fl : Flags) (eng : EngineAnswers) :
    (githubScanCase fl eng).1 = [] ∨
    ((githubScanCase fl eng).1 = [EngineCall.ScanGitHub fl.githubScanOrgs fl.githubScanRepos] ∧
      eng.filterErr = none ∧ ¬ (fl.githubScanOrgs = [] ∧ fl.githubScanRepos = [])) := by
  unfold githubScanCase
  rcases eng.filterErr with _ | e
  · simp only [List.length_eq_zero]
    split_ifs with h
    · exact Or.inl rfl
    · exact Or.inr ⟨rfl, by simp, h⟩
  · exact Or.inl rfl

theorem githubScanCase_of_filter (fl : Flags) (eng : EngineAnswers) (hfilter : eng.filterErr = none) :
    ((fl.githubScanOrgs = [] ∧ fl.githubScanRepos = []) →
      githubScanCase fl eng = ([], some githubInvalidConfig)) ∧
    (¬ (fl.githubScanOrgs = [] ∧ fl.githubScanRepos = []) →
      (githubScanCase fl eng).1 =
        [EngineCall.ScanGitHub fl.githubScanOrgs fl.githubScanRepos]) := by
  unfold githubScanCase
  simp only [hfilter, List.length_eq_zero]
  constructor
  · intro h
    rw [if_pos h]
    rfl
  · intro h
    rw [if_neg h]
    rfl

theorem githubScanCase_err_of_empty (fl : Flags) (eng : EngineAnswers)
    (h : fl.githubScanOrgs = [] ∧ fl.githubScanRepos = []) : (githubScanCase fl eng).2 ≠ none := by
  unfold githubScanCase
  rcases eng.filterErr with _ | e
  · simp only [List.length_eq_zero]
    rw [if_pos h]
    simp
  · simp

/-! ## Theorems on the cases of `runSingleScan` -/

/-- C11, counterexample: the `github` command without `--org` and `--repo`, with
an include-paths file that cannot be read; `runSingleScan` returns the filter
error, which is not the invalid-config error. -/
theorem github_filter_error_first :
    (runSingleScan { concurrency := 1 } { filterErr := some "open paths.txt: no such file" }
      "github" { Concurrency := 1, Results := none, ShouldScanEntireChunk := false }).err =
      some "could not create filter: open paths.txt: no such file" ∧
    (runSingleScan { concurrency := 1 } { filterErr := some "open paths.txt: no such file" }
      "github" { Concurrency := 1, Results := none, ShouldScanEntireChunk := false }).err ≠
      some githubInvalidConfig := by
  decide

/-- C11, amended: for the `github` command, if both the `--org` list and the
`--repo` list are empty, `runSingleScan` never calls `ScanGitHub` and returns an
error, which is the invalid-config error when the engine was created and the
path filter was built (an error of either is reported first); if one of the
lists is non-empty, the engine was created and the path filter was built,
`ScanGitHub` is called, once, with exactly those orgs and repos. -/
theorem github_requires_target (fl : Flags) (eng : EngineAnswers) (cfg : engine.Config) :
    ((fl.githubScanOrgs = [] ∧ fl.githubScanRepos = []) →
      (∀ orgs repos,
        EngineCall.ScanGitHub orgs repos ∉ (runSingleScan fl eng "github" cfg).calls) ∧
      (runSingleScan fl eng "github" cfg).err ≠ none ∧
      (eng.newEngineErr = none → eng.filterErr = none →
        (runSingleScan fl eng "github" cfg).err = some githubInvalidConfig)) ∧
    (¬ (fl.githubScanOrgs = [] ∧ fl.githubScanRepos = []) →
      eng.newEngineErr = none → eng.filterErr = none →
      (runSingleScan fl eng "github" cfg).calls.count
        (EngineCall.ScanGitHub fl.githubScanOrgs fl.githubScanRepos) = 1 ∧
      ∀ c ∈ (runSingleScan fl eng "github" cfg).calls, c.isScan = true →
        c = EngineCall.ScanGitHub fl.githubScanOrgs fl.githubScanRepos) := by
  constructor
  · intro hempty
    refine ⟨?_, ?_, ?_⟩
    · intro orgs repos hmem
      have h := runSingleScan_scan_calls fl eng "github" cfg
        (EngineCall.ScanGitHub orgs repos) rfl hmem
      rw [scanSource_github] at h
      rcases githubScanCase_calls fl eng with h0 | ⟨-, -, hne⟩
      · rw [h0] at h
        simp at h
      · exact hne hempty
    · apply runSingleScan_err_of_scanSource_err
      rw [scanSource_github]
      exact githubScanCase_err_of_empty fl eng hempty
    · intro hinit hfilter
      have hsrc : scanSource fl eng "github" = ([], some githubInvalidConfig) := by
        rw [scanSource_github]
        exact (githubScanCase_of_filter fl eng hfilter).1 hempty
      exact (runSingleScan_of_scan_err fl eng "github" cfg [] _ hinit hsrc).1
  · intro hne hinit hfilter
    have hcalls := (githubScanCase_of_filter fl eng hfilter).2 hne
    rw [← scanSource_github] at hcalls
    constructor
    · rcases runSingleScan_calls fl eng "github" cfg with ⟨h, -⟩ | ⟨-, c0, tail, htail, h⟩
      · exact absurd hinit h
      · rw [h, hcalls]
        rcases htail with rfl | rfl <;> simp [List.count_cons]
    · intro c hc hscan
      have h := runSingleScan_scan_calls fl eng "github" cfg c hscan hc
      rw [hcalls] at h
      simpa using h

theorem huggingfaceScanCase_cases (fl : Flags) (eng : EngineAnswers) :
    ((fl.huggingfaceModels = [] ∧ fl.huggingfaceSpaces = [] ∧ fl.huggingfaceDatasets = [] ∧
        fl.huggingfaceOrgs = [] ∧ fl.huggingfaceUsers = []) →
      huggingfaceScanCase fl eng = ([], some huggingfaceInvalidConfig)) ∧
    (¬ (fl.huggingfaceModels = [] ∧ fl.huggingfaceSpaces = [] ∧ fl.huggingfaceDatasets = [] ∧
        fl.huggingfaceOrgs = [] ∧ fl.huggingfaceUsers = []) →
      (huggingfaceScanCase fl eng).1 =
        [EngineCall.ScanHuggingface fl.huggingfaceModels fl.huggingfaceSpaces
          fl.huggingfaceDatasets fl.huggingfaceOrgs fl.huggingfaceUsers]) := by
  unfold huggingfaceScanCase
  simp only [List.length_eq_zero]
  constructor
  · intro h
    rw [if_pos h]
    rfl
  · intro h
    rw [if_neg h]
    rfl

theorem initError_ne (e s : String) (hs : s.data.head? = some 'i') :
    "error initializing engine: " ++ e ≠ s := by
  intro h
  have h2 : ("error initializing engine: " ++ e).data.head? = s.data.head? := by rw [h]
  rw [hs, String.data_append] at h2
  simp at h2

/-- C12, counterexample: the `huggingface` command without any target, with an
engine that cannot be created; `runSingleScan` returns the initialisation
error, which is not the invalid-config error. -/
theorem huggingface_engine_error_first :
    (({ concurrency := 1 } : Flags).huggingfaceModels = [] ∧
      ({ concurrency := 1 } : Flags).huggingfaceSpaces = [] ∧
      ({ concurrency := 1 } : Flags).huggingfaceDatasets = [] ∧
      ({ concurrency := 1 } : Flags).huggingfaceOrgs = [] ∧
      ({ concurrency := 1 } : Flags).huggingfaceUsers = []) ∧
    (runSingleScan { concurrency := 1 } { newEngineErr := some "no detectors" } "huggingface"
      { Concurrency := 1, Results := none, ShouldScanEntireChunk := false }).err =
      some "error initializing engine: no detectors" ∧
    (runSingleScan { concurrency := 1 } { newEngineErr := some "no detectors" } "huggingface"
      { Concurrency := 1, Results := none, ShouldScanEntireChunk := false }).err ≠
      some huggingfaceInvalidConfig := by
  decide

/-- C12, amended: for the `huggingface` command, `runSingleScan` returns the
invalid-config error without calling `ScanHuggingface` exactly when the engine
was created and the model, space, dataset, org and user lists are all empty;
when the engine was created and a list is non-empty, `ScanHuggingface` is
called with the five lists; when the engine cannot be created, the
initialisation error is returned and `ScanHuggingface` is not called, whatever
the lists. -/
theorem huggingface_requires_target (fl : Flags) (eng : EngineAnswers) (cfg : engine.Config) :
    (((runSingleScan fl eng "huggingface" cfg).err = some huggingfaceInvalidConfig ∧
        ∀ models spaces datasets orgs users,
          EngineCall.ScanHuggingface models spaces datasets orgs users ∉
            (runSingleScan fl eng "huggingface" cfg).calls) ↔
      (eng.newEngineErr = none ∧
        fl.huggingfaceModels = [] ∧ fl.huggingfaceSpaces = [] ∧ fl.huggingfaceDatasets = [] ∧
        fl.huggingfaceOrgs = [] ∧ fl.huggingfaceUsers = [])) ∧
    (eng.newEngineErr = none →
      ¬ (fl.huggingfaceModels = [] ∧ fl.huggingfaceSpaces = [] ∧ fl.huggingfaceDatasets = [] ∧
        fl.huggingfaceOrgs = [] ∧ fl.huggingfaceUsers = []) →
      EngineCall.ScanHuggingface fl.huggingfaceModels fl.huggingfaceSpaces
        fl.huggingfaceDatasets fl.huggingfaceOrgs fl.huggingfaceUsers ∈
        (runSingleScan fl eng "huggingface" cfg).calls) ∧
    (∀ e, eng.newEngineErr = some e →
      (runSingleScan fl eng "huggingface" cfg).err = some ("error initializing engine: " ++ e) ∧
      (runSingleScan fl eng "huggingface" cfg).err ≠ some huggingfaceInvalidConfig ∧
      ∀ models spaces datasets orgs users,
        EngineCall.ScanHuggingface models spaces datasets orgs users ∉
          (runSingleScan fl eng "huggingface" cfg).calls) := by
  have hcalled : eng.newEngineErr = none →
      ¬ (fl.huggingfaceModels = [] ∧ fl.huggingfaceSpaces = [] ∧
      fl.huggingfaceDatasets = [] ∧ fl.huggingfaceOrgs = [] ∧ fl.huggingfaceUsers = []) →
      EngineCall.ScanHuggingface fl.huggingfaceModels fl.huggingfaceSpaces
        fl.huggingfaceDatasets fl.huggingfaceOrgs fl.huggingfaceUsers ∈
        (runSingleScan fl eng "huggingface" cfg).calls := by
    intro hinit hne
    have hcalls := (huggingfaceScanCase_cases fl eng).2 hne
    rw [← scanSource_huggingface] at hcalls
    rcases runSingleScan_calls fl eng "huggingface" cfg with ⟨h, -⟩ | ⟨-, c0, tail, -, h⟩
    · exact absurd hinit h
    · rw [h, hcalls]
      simp
  have hfailed : ∀ e, eng.newEngineErr = some e →
      (runSingleScan fl eng "huggingface" cfg).err = some ("error initializing engine: " ++ e) ∧
      (runSingleScan fl eng "huggingface" cfg).err ≠ some huggingfaceInvalidConfig ∧
      ∀ models spaces datasets orgs users,
        EngineCall.ScanHuggingface models spaces datasets orgs users ∉
          (runSingleScan fl eng "huggingface" cfg).calls := by
    intro e he
    obtain ⟨herr, hcalls⟩ := runSingleScan_of_init_err fl eng "huggingface" cfg e he
    refine ⟨herr, ?_, ?_⟩
    · rw [herr]
      intro h
      exact initError_ne e huggingfaceInvalidConfig (by decide) (Option.some.inj h)
    · intro models spaces datasets orgs users hmem
      rw [hcalls] at hmem
      simp at hmem
  refine ⟨⟨?_, ?_⟩, hcalled, hfailed⟩
  · rintro ⟨herr, hno⟩
    rcases hinit : eng.newEngineErr with _ | e
    · refine ⟨rfl, ?_⟩
      by_contra hne
      exact hno _ _ _ _ _ (hcalled hinit hne)
    · exact absurd herr (hfailed e hinit).2.1
  · rintro ⟨hinit, hempty⟩
    have hsrc : scanSource fl eng "huggingface" = ([], some huggingfaceInvalidConfig) := by
      rw [scanSource_huggingface]
      exact (huggingfaceScanCase_cases fl eng).1 hempty
    obtain ⟨herr, hcalls⟩ := runSingleScan_of_scan_err fl eng "huggingface" cfg [] _ hinit hsrc
    refine ⟨herr, ?_⟩
    intro models spaces datasets orgs users hmem
    rw [hcalls] at hmem
    simp at hmem

/-- Witness of C12: `huggingface` without a target, and `huggingface
--model=org/m`. -/
theorem huggingface_requires_target_witness :
    (runSingleScan { concurrency := 1 } {} "huggingface"
      { Concurrency := 1, Results := none, ShouldScanEntireChunk := false }).err =
      some huggingfaceInvalidConfig ∧
    EngineCall.ScanHuggingface ["org/m"] [] [] [] [] ∈
      (runSingleScan { concurrency := 1, huggingfaceModels := ["org/m"] } {} "huggingface"
        { Concurrency := 1, Results := none, ShouldScanEntireChunk := false }).calls :=
  ⟨((huggingface_requires_target { concurrency := 1 } {}
      { Concurrency := 1, Results := none, ShouldScanEntireChunk := false }).1.2
      ⟨rfl, rfl, rfl, rfl, rfl, rfl⟩).1,
    (huggingface_requires_target { concurrency := 1, huggingfaceModels := ["org/m"] } {}
      { Concurrency := 1, Results := none, ShouldScanEntireChunk := false }).2.1 rfl
      (by decide)⟩

/-! ## Theorems on fatal errors and unknown commands -/

/-- C13: the function returned by `logFatalFunc` always ends the process; the
exit code is 1 exactly when the error passed to it is non-nil, and 0 when it is
nil. -/
theorem logFatal_exit_code (err : Option String) :
    (∃ code, logFatal err = ProcessEnd.exit code) ∧
    logFatal err ≠ ProcessEnd.returned ∧
    (logFatal err = ProcessEnd.exit 1 ↔ err ≠ none) ∧
    (logFatal err = ProcessEnd.exit 0 ↔ err = none) := by
  cases err <;> simp [logFatal]

theorem scanSource_unknown (fl : Flags) (eng : EngineAnswers) (cmd : String)
    (hcmd : cmd ∉ scanCommands) :
    scanSource fl eng cmd = ([], some ("invalid command: " ++ cmd)) := by
  simp only [scanCommands, List.mem_cons, List.mem_singleton, List.not_mem_nil, or_false,
    not_or] at hcmd
  obtain ⟨h1, h2, h3, h4, h5, h6, h7, h8, h9, h10, h11, h12, h13, h14, h15⟩ := hcmd
  unfold scanSource
  rw [if_neg h1, if_neg h2, if_neg h3, if_neg h4, if_neg h5, if_neg h6, if_neg h7, if_neg h8,
    if_neg h9, if_neg h10, if_neg h11, if_neg h12, if_neg h13, if_neg h14, if_neg h15]

theorem logFatal_some (err : String) : logFatal (some err) = ProcessEnd.exit 1 := rfl

theorem runScans_exit_of_err (fl : Flags) (world : RunAnswers) (cmd : String)
    (cfg : engine.Config)
    (herr : ∀ (eng : EngineAnswers) (c : engine.Config), (runSingleScan fl eng cmd c).err ≠ none) :
    (runScans fl world cmd cfg).ending = ProcessEnd.exit 1 := by
  rcases (runScans_cases fl world cmd cfg).2 with ⟨hsingle, -, -⟩ | ⟨-, -, h, -⟩ | ⟨-, h, -⟩
  · unfold runScans
    rw [if_neg (by simp [hsingle])]
    simp only
    rcases h : (runSingleScan fl world.scan cmd cfg).err with _ | e
    · exact absurd h (herr _ _)
    · rfl
  · exact h
  · exact absurd h (herr _ _)

theorem run_exit_of_err (T : CaseTable) (fl : Flags) (world : RunAnswers) (cmd : String)
    (herr : ∀ (fl2 : Flags) (eng : EngineAnswers) (c : engine.Config),
      (runSingleScan fl2 eng cmd c).err ≠ none) :
    (run T fl world cmd).ending = ProcessEnd.exit 1 := by
  unfold run
  simp only
  split_ifs with h
  · rcases hc : world.configReadErr with _ | e
    · exact absurd hc h.2
    · rfl
  · split
    · rfl
    · exact runScans_exit_of_err _ _ _ _ (herr _)
  · split
    · rfl
    · exact runScans_exit_of_err _ _ _ _ (herr _)

/-- C14, counterexample: the command `analyze`, which `runSingleScan` does not
handle, with an engine that cannot be created; `runSingleScan` returns the
initialisation error, not the invalid-command error. -/
theorem unknown_command_engine_error :
    "analyze" ∉ scanCommands ∧
    (runSingleScan { concurrency := 1 } { newEngineErr := some "no detectors" } "analyze"
      { Concurrency := 1, Results := none, ShouldScanEntireChunk := false }).err =
      some "error initializing engine: no detectors" ∧
    (runSingleScan { concurrency := 1 } { newEngineErr := some "no detectors" } "analyze"
      { Concurrency := 1, Results := none, ShouldScanEntireChunk := false }).err ≠
      some "invalid command: analyze" := by
  decide

/-- C14, amended: for a command that is none of the scan commands, the `switch`
of `runSingleScan` takes its default branch: `runSingleScan` enrols no source
and returns an error, which is the invalid-command error exactly when the
engine was created and the initialisation error when it was not, and `run`
exits with code 1. -/
theorem unknown_command_exits_1 (T : CaseTable) (fl : Flags) (eng : EngineAnswers)
    (world : RunAnswers) (cmd : String) (cfg : engine.Config) (hcmd : cmd ∉ scanCommands) :
    scanSource fl eng cmd = ([], some ("invalid command: " ++ cmd)) ∧
    ((runSingleScan fl eng cmd cfg).err = some ("invalid command: " ++ cmd) ↔
      eng.newEngineErr = none) ∧
    (∀ e, eng.newEngineErr = some e →
      (runSingleScan fl eng cmd cfg).err = some ("error initializing engine: " ++ e)) ∧
    (runSingleScan fl eng cmd cfg).err ≠ none ∧
    (∀ c ∈ (runSingleScan fl eng cmd cfg).calls, c.isScan = false) ∧
    (run T fl world cmd).ending = ProcessEnd.exit 1 := by
  have hsrc := scanSource_unknown fl eng cmd hcmd
  have herr : ∀ (fl2 : Flags) (eng2 : EngineAnswers) (c : engine.Config),
      (runSingleScan fl2 eng2 cmd c).err ≠ none := by
    intro fl2 eng2 c
    apply runSingleScan_err_of_scanSource_err
    rw [scanSource_unknown fl2 eng2 cmd hcmd]
    simp
  have hfailed : ∀ e, eng.newEngineErr = some e →
      (runSingleScan fl eng cmd cfg).err = some ("error initializing engine: " ++ e) :=
    fun e he => (runSingleScan_of_init_err fl eng cmd cfg e he).1
  refine ⟨hsrc, ⟨?_, ?_⟩, hfailed, herr fl eng cfg, ?_, run_exit_of_err T fl world cmd herr⟩
  · intro h
    rcases hinit : eng.newEngineErr with _ | e
    · rfl
    · rw [hfailed e hinit] at h
      exact absurd (Option.some.inj h)
        (initError_ne e ("invalid command: " ++ cmd) (by rw [String.data_append]; rfl))
  · intro hinit
    exact (runSingleScan_of_scan_err fl eng cmd cfg [] _ hinit hsrc).1
  · intro c hc
    by_contra hscan
    have h := runSingleScan_scan_calls fl eng cmd cfg c (by simpa using hscan) hc
    rw [hsrc] at h
    simp at h

/-- Witness of C14: the command `analyze`, which the application registers but
`runSingleScan` does not handle. -/
theorem unknown_command_exits_1_witness :
    "analyze" ∉ scanCommands ∧
    (runSingleScan { concurrency := 1 } {} "analyze"
      { Concurrency := 1, Results := none, ShouldScanEntireChunk := false }).err =
      some "invalid command: analyze" ∧
    (run asciiCaseTable { concurrency := 1 } {} "analyze").ending = ProcessEnd.exit 1 :=
  ⟨by decide,
    (unknown_command_exits_1 asciiCaseTable { concurrency := 1 } {} {} "analyze"
      { Concurrency := 1, Results := none, ShouldScanEntireChunk := false } (by decide)).2.1.2 rfl,
    (unknown_command_exits_1 asciiCaseTable { concurrency := 1 } {} {} "analyze"
      { Concurrency := 1, Results := none, ShouldScanEntireChunk := false }
      (by decide)).2.2.2.2.2⟩

/-! ## Theorems on `--only-verified` and on the clean-up -/

theorem parseResults_verified (T : CaseTable) :
    parseResults T "verified" = (some ["verified"], none) := by
  have hlow : loweredPieces T "verified" = ["verified"] := by
    have h1 : Split "verified" ',' = ["verified"] := by decide
    have h2 : ToLower T "verified" = "verified" := by
      rw [ToLower_of_ascii T "verified" (by decide)]
      decide
    simp [loweredPieces, h1, h2]
  rw [parseResults_of_ne T "verified" (by decide), hlow]
  decide

theorem run_cases_parsed (T : CaseTable) (fl : Flags) (world : RunAnswers) (cmd : String) :
    ((run T fl world cmd).engConf = none ∧ (run T fl world cmd).scans = []) ∨
    ∃ parsedResults,
      parseResults T (if (sinceCommitOverride fl).onlyVerified then "verified"
        else (sinceCommitOverride fl).results) = (parsedResults, none) ∧
      run T fl world cmd =
        runScans (sinceCommitOverride fl) world cmd
          { Concurrency := (sinceCommitOverride fl).concurrency
            Results := parsedResults
            ShouldScanEntireChunk := (sinceCommitOverride fl).scanEntireChunk } := by
  unfold run
  simp only
  generalize (if (sinceCommitOverride fl).onlyVerified = true then "verified"
    else (sinceCommitOverride fl).results) = r
  by_cases h : (sinceCommitOverride fl).configFilename ≠ "" ∧ world.configReadErr ≠ none
  · rw [if_pos h]
    exact Or.inl ⟨rfl, rfl⟩
  · rw [if_neg h]
    rcases hp : parseResults T r with ⟨p, _ | e⟩
    · exact Or.inr ⟨p, rfl, rfl⟩
    · exact Or.inl ⟨rfl, rfl⟩

theorem run_reaches_scans (T : CaseTable) (fl : Flags) (world : RunAnswers) (cmd : String)
    (hread : fl.configFilename = "" ∨ world.configReadErr = none)
    (hparse : (parseResults T (if fl.onlyVerified then "verified" else fl.results)).2 = none) :
    (run T fl world cmd).engConf ≠ none ∧ (run T fl world cmd).scans ≠ [] := by
  obtain ⟨-, -, hcfg, honly, hresults, -, -⟩ := sinceCommitOverride_fields fl
  have hrun : ∃ cfg, run T fl world cmd = runScans (sinceCommitOverride fl) world cmd cfg := by
    unfold run
    simp only [hcfg, honly, hresults]
    rw [if_neg (by
      rintro ⟨h1, h2⟩
      rcases hread with h | h
      · exact h1 h
      · exact h2 h)]
    split
    · rename_i err heq
      rw [heq] at hparse
      simp at hparse
    · exact ⟨_, rfl⟩
  obtain ⟨cfg, hrun⟩ := hrun
  rw [hrun]
  obtain ⟨h1, h2, -⟩ := runScans_scans (sinceCommitOverride fl) world cmd cfg
  exact ⟨by rw [h1]; simp, h2⟩

theorem runScans_scans_results (fl : Flags) (world : RunAnswers) (cmd : String)
    (cfg : engine.Config) :
    ∀ scan ∈ (runScans fl world cmd cfg).scans, ∃ eng cfg2,
      scan = runSingleScan fl eng cmd cfg2 ∧ cfg2.Results = cfg.Results := by
  rcases (runScans_cases fl world cmd cfg).2 with ⟨-, h, -⟩ | ⟨-, -, -, h, -⟩ | ⟨-, -, h, -⟩
  all_goals
    rw [h]
    intro scan hscan
    simp only [List.mem_cons, List.mem_singleton, List.not_mem_nil, or_false] at hscan
  · exact ⟨_, _, hscan, rfl⟩
  · exact ⟨_, _, hscan, rfl⟩
  · rcases hscan with rfl | rfl
    · exact ⟨_, _, rfl, rfl⟩
    · exact ⟨_, _, rfl, rfl⟩

/-- C15: when `--only-verified` is set, `--results` is replaced by `verified`
before it is parsed, whatever it was: no parse error is raised, and the
result-kind set of the engine configuration that `run` builds, and of every
configuration handed to `engine.NewEngine`, is exactly `{verified}`. Such a
configuration is built whenever the configuration file is read without error. -/
theorem only_verified_results (T : CaseTable) (fl : Flags) (world : RunAnswers) (cmd : String)
    (honly : fl.onlyVerified = true) :
    parseResults T (if fl.onlyVerified then "verified" else fl.results) =
      (some ["verified"], none) ∧
    (∀ cfg, (run T fl world cmd).engConf = some cfg → cfg.Results = some ["verified"]) ∧
    (∀ scan ∈ (run T fl world cmd).scans, ∀ cfg, EngineCall.NewEngine cfg ∈ scan.calls →
      cfg.Results = some ["verified"]) ∧
    ((fl.configFilename = "" ∨ world.configReadErr = none) →
      (run T fl world cmd).engConf ≠ none ∧ (run T fl world cmd).scans ≠ []) := by
  obtain ⟨-, -, -, honly2, -, -, -⟩ := sinceCommitOverride_fields fl
  have hparse : parseResults T (if fl.onlyVerified then "verified" else fl.results) =
      (some ["verified"], none) := by
    rw [honly]
    exact parseResults_verified T
  refine ⟨hparse, ?_, ?_, ?_⟩
  · intro cfg hcfg
    rcases run_cases_parsed T fl world cmd with ⟨hnone, -⟩ | ⟨parsedResults, hp, hrun⟩
    · rw [hnone] at hcfg
      simp at hcfg
    · rw [honly2, honly] at hp
      rw [if_pos rfl, parseResults_verified] at hp
      rw [hrun, (runScans_scans _ _ _ _).1] at hcfg
      rw [← Option.some.inj hcfg]
      exact (Prod.mk.inj hp).1.symm
  · intro scan hscan cfg hmem
    rcases run_cases_parsed T fl world cmd with ⟨-, hnil⟩ | ⟨parsedResults, hp, hrun⟩
    · rw [hnil] at hscan
      simp at hscan
    · rw [honly2, honly] at hp
      rw [if_pos rfl, parseResults_verified] at hp
      rw [hrun] at hscan
      obtain ⟨eng, cfg2, rfl, hres⟩ := runScans_scans_results _ _ _ _ scan hscan
      rw [(runSingleScan_NewEngine _ eng cmd cfg2).2 cfg hmem]
      exact hres.trans (Prod.mk.inj hp).1.symm
  · intro hread
    exact run_reaches_scans T fl world cmd hread (by rw [hparse])

/-- Witness of C15: `--only-verified --results=bogus` on a `git` scan. -/
theorem only_verified_results_witness :
    (parseResults asciiCaseTable "bogus").2 ≠ none ∧
    (run asciiCaseTable { concurrency := 4, onlyVerified := true, results := "bogus" } {}
      "git").engConf =
      some { Concurrency := 4, Results := some ["verified"], ShouldScanEntireChunk := false } ∧
    ∀ cfg, (run asciiCaseTable { concurrency := 4, onlyVerified := true, results := "bogus" } {}
      "git").engConf = some cfg → cfg.Results = some ["verified"] :=
  ⟨by decide, by decide,
    (only_verified_results asciiCaseTable
      { concurrency := 4, onlyVerified := true, results := "bogus" } {} "git" rfl).2.1⟩

theorem runSingleScan_cleanup_last (fl : Flags) (eng : EngineAnswers) (cmd : String)
    (cfg : engine.Config) (hstart : EngineCall.Start ∈ (runSingleScan fl eng cmd cfg).calls) :
    ∃ before, (runSingleScan fl eng cmd cfg).calls = before ++ [EngineCall.CleanTempArtifacts] ∧
      EngineCall.Start ∈ before := by
  rcases runSingleScan_calls fl eng cmd cfg with ⟨-, c0, h⟩ | ⟨-, c0, tail, -, h⟩
  · rw [h] at hstart
    simp at hstart
  · exact ⟨_, h, by simp⟩

theorem runSingleScan_cleanedAfterStart (fl : Flags) (eng : EngineAnswers) (cmd : String)
    (cfg : engine.Config) :
    (!(runSingleScan fl eng cmd cfg).calls.contains EngineCall.Start ||
      cleanedAfterStart (runSingleScan fl eng cmd cfg).calls) = true := by
  rcases runSingleScan_calls fl eng cmd cfg with ⟨-, c0, h⟩ | ⟨-, c0, tail, -, h⟩
  · rw [h]
    simp
  · rw [h]
    simp [cleanedAfterStart, List.dropWhile]

theorem runScans_scans_are_runs (fl : Flags) (world : RunAnswers) (cmd : String)
    (cfg : engine.Config) :
    ∀ scan ∈ (runScans fl world cmd cfg).scans, ∃ eng cfg2,
      scan = runSingleScan fl eng cmd cfg2 := by
  intro scan hscan
  obtain ⟨eng, cfg2, h, -⟩ := (runScans_scans fl world cmd cfg).2.2 scan hscan
  exact ⟨eng, cfg2, h⟩

theorem run_scans_are_runs (T : CaseTable) (fl : Flags) (world : RunAnswers) (cmd : String) :
    ∀ scan ∈ (run T fl world cmd).scans, ∃ fl2 eng cfg2,
      scan = runSingleScan fl2 eng cmd cfg2 := by
  intro scan hscan
  rcases run_cases T fl world cmd with ⟨-, hnil⟩ | ⟨parsedResults, hrun⟩
  · rw [hnil] at hscan
    simp at hscan
  · rw [hrun] at hscan
    obtain ⟨eng, cfg2, h⟩ := runScans_scans_are_runs _ _ _ _ scan hscan
    exact ⟨_, eng, cfg2, h⟩

/-- When `run` leaves a goroutine behind: only when the detection strategies
are compared, the max-length scan has returned an error and `run` exits with
code 1. -/
theorem run_unawaited_cases (T : CaseTable) (fl : Flags) (world : RunAnswers) (cmd : String) :
    (run T fl world cmd).unawaited = [] ∨
    (fl.compareDetectionStrategies = true ∧ (run T fl world cmd).ending = ProcessEnd.exit 1 ∧
      ∃ fl2 cfg, (runSingleScan fl2 world.scan cmd cfg).err ≠ none ∧
        (run T fl world cmd).scans = [runSingleScan fl2 world.scan cmd cfg] ∧
        (run T fl world cmd).unawaited =
          [(runSingleScan fl2 world.entireScan cmd
            { cfg with ShouldScanEntireChunk := true }).calls.take world.entireProgress]) := by
  obtain ⟨-, hcmp, -, -, -, -, -⟩ := sinceCommitOverride_fields fl
  have hnone : ∀ e : ProcessEnd, ({ ending := e } : RunTrace).unawaited = [] := fun _ => rfl
  have hrun : (∃ e : ProcessEnd, run T fl world cmd = { ending := e }) ∨
      ∃ cfg, run T fl world cmd = runScans (sinceCommitOverride fl) world cmd cfg := by
    unfold run
    simp only
    split_ifs
    · exact Or.inl ⟨_, rfl⟩
    · split
      · exact Or.inl ⟨_, rfl⟩
      · exact Or.inr ⟨_, rfl⟩
    · split
      · exact Or.inl ⟨_, rfl⟩
      · exact Or.inr ⟨_, rfl⟩
  rcases hrun with ⟨e, he⟩ | ⟨cfg, hrun⟩
  · left
    rw [he]
  · rw [hrun]
    rcases (runScans_cases (sinceCommitOverride fl) world cmd cfg).2 with
      ⟨-, -, h⟩ | ⟨h1, h2, h3, h4, h5⟩ | ⟨-, -, -, h⟩
    · exact Or.inl h
    · exact Or.inr ⟨hcmp ▸ h1, h3, _, cfg, h2, h4, h5⟩
    · exact Or.inl h

theorem process_cleanedUp_of_signal (T : CaseTable) (fl : Flags) (world : RunAnswers)
    (cmd : String) (cut : Nat → Nat) :
    (process T fl world cmd (some cut)).cleanedUp = true ∧
    (process T fl world cmd (some cut)).ending = ProcessEnd.exit 0 ∧
    handlerCleans (process T fl world cmd (some cut)).handler = true := by
  have hclean : handlerCleans signalHandler = true := by decide
  refine ⟨?_, rfl, hclean⟩
  unfold ProcessTrace.cleanedUp
  rw [List.all_eq_true]
  intro calls _
  have hh : (process T fl world cmd (some cut)).handler = signalHandler := rfl
  rw [hh, hclean]
  simp

/-- C16, counterexample: the detection strategies of a `git` scan are compared.
In the first process `engine.NewEngine` fails for the max-length scan, in the
second its `ScanGit` fails; `compareScans` returns the error without waiting
for the goroutine of the entire-chunk scan, which has created and started its
engine, and `run` exits with code 1 through `logFatal`. The goroutine has not
cleaned up, and in the first process `CleanTempArtifacts` was not called at
all. -/
theorem cleanup_skipped_in_compare :
    ((process asciiCaseTable { concurrency := 1, compareDetectionStrategies := true }
        { scan := { newEngineErr := some "boom" }, entireProgress := 2 } "git" none).ending =
        ProcessEnd.exit 1 ∧
      (∃ calls ∈ (process asciiCaseTable { concurrency := 1, compareDetectionStrategies := true }
        { scan := { newEngineErr := some "boom" }, entireProgress := 2 } "git" none).threads,
        EngineCall.Start ∈ calls) ∧
      (process asciiCaseTable { concurrency := 1, compareDetectionStrategies := true }
        { scan := { newEngineErr := some "boom" }, entireProgress := 2 } "git" none).anyCleanup =
        false ∧
      (process asciiCaseTable { concurrency := 1, compareDetectionStrategies := true }
        { scan := { newEngineErr := some "boom" }, entireProgress := 2 } "git" none).cleanedUp =
        false) ∧
    ((process asciiCaseTable { concurrency := 1, compareDetectionStrategies := true }
        { scan := { scanErr := some "boom" }, entireProgress := 3 } "git" none).ending =
        ProcessEnd.exit 1 ∧
      [EngineCall.NewEngine
          { Concurrency := 1, Results := none, ShouldScanEntireChunk := true,
            SourceManager := some (sources.NewManager
              (managerOptions { Concurrency := 1, Results := none, ShouldScanEntireChunk := true }
                false)) },
        EngineCall.Start, EngineCall.ScanGit] ∈
        (process asciiCaseTable { concurrency := 1, compareDetectionStrategies := true }
          { scan := { scanErr := some "boom" }, entireProgress := 3 } "git" none).threads ∧
      (process asciiCaseTable { concurrency := 1, compareDetectionStrategies := true }
        { scan := { scanErr := some "boom" }, entireProgress := 3 } "git" none).cleanedUp =
        false) := by
  decide

/-- C16, amended: every `runSingleScan` whose return `run` has waited for and
which has started the engine ends with the deferred `CleanTempArtifacts`,
whether it returns an error or not, so that when `run` leaves no goroutine
behind, every goroutine that started an engine has cleaned up after the start
when the process ends (return, exit 183, or exit 1 through `logFatal`); when a
signal ends the process, the signal goroutine has called `CleanTempArtifacts`
before it exits with code 0; and `run` leaves no goroutine behind unless the
detection strategies are compared. -/
theorem cleanup_before_exit (T : CaseTable) (fl : Flags) (world : RunAnswers) (cmd : String)
    (signal : Option (Nat → Nat)) :
    (∀ scan ∈ (run T fl world cmd).scans, EngineCall.Start ∈ scan.calls →
      ∃ before, scan.calls = before ++ [EngineCall.CleanTempArtifacts] ∧
        EngineCall.Start ∈ before) ∧
    ((run T fl world cmd).unawaited = [] →
      (process T fl world cmd signal).cleanedUp = true) ∧
    (signal = none →
      (process T fl world cmd signal).ending = (run T fl world cmd).ending ∧
      (process T fl world cmd signal).threads =
        (run T fl world cmd).scans.map (fun scan => scan.calls) ++
          (run T fl world cmd).unawaited ∧
      (process T fl world cmd signal).handler = []) ∧
    (signal ≠ none →
      (process T fl world cmd signal).cleanedUp = true ∧
      (process T fl world cmd signal).ending = ProcessEnd.exit 0 ∧
      handlerCleans (process T fl world cmd signal).handler = true) ∧
    (fl.compareDetectionStrategies = false → (run T fl world cmd).unawaited = []) := by
  refine ⟨?_, ?_, ?_, ?_, ?_⟩
  · intro scan hscan hstart
    obtain ⟨fl2, eng, cfg2, rfl⟩ := run_scans_are_runs T fl world cmd scan hscan
    exact runSingleScan_cleanup_last _ _ _ _ hstart
  · intro hwait
    rcases signal with _ | cut
    · have hthreads : (process T fl world cmd none).threads =
          (run T fl world cmd).scans.map (fun scan => scan.calls) := by
        simp [process, hwait]
      unfold ProcessTrace.cleanedUp
      rw [List.all_eq_true, hthreads]
      intro calls hcalls
      obtain ⟨scan, hscan, rfl⟩ := List.mem_map.1 hcalls
      obtain ⟨fl2, eng, cfg2, rfl⟩ := run_scans_are_runs T fl world cmd scan hscan
      rw [runSingleScan_cleanedAfterStart]
      rfl
    · exact (process_cleanedUp_of_signal T fl world cmd cut).1
  · rintro rfl
    exact ⟨rfl, rfl, rfl⟩
  · intro hsig
    rcases signal with _ | cut
    · exact absurd rfl hsig
    · exact process_cleanedUp_of_signal T fl world cmd cut
  · intro hsingle
    rcases run_unawaited_cases T fl world cmd with h | ⟨h, -⟩
    · exact h
    · rw [hsingle] at h
      exact absurd h (by decide)

/-- Witness of C16: a `git` scan with `--fail` that finds results and exits
with code 183, and the same scan ended by a signal after two calls. -/
theorem cleanup_before_exit_witness :
    (run asciiCaseTable { concurrency := 1, fail := true }
      { scan := { HasFoundResults := true } } "git").unawaited = [] ∧
    (∃ calls ∈ (process asciiCaseTable { concurrency := 1, fail := true }
      { scan := { HasFoundResults := true } } "git" none).threads, EngineCall.Start ∈ calls) ∧
    (process asciiCaseTable { concurrency := 1, fail := true }
      { scan := { HasFoundResults := true } } "git" none).ending = ProcessEnd.exit 183 ∧
    (process asciiCaseTable { concurrency := 1, fail := true }
      { scan := { HasFoundResults := true } } "git" none).cleanedUp = true ∧
    (∃ calls ∈ (process asciiCaseTable { concurrency := 1, fail := true }
      { scan := { HasFoundResults := true } } "git" (some (fun _ => 2))).threads,
      EngineCall.Start ∈ calls ∧ EngineCall.CleanTempArtifacts ∉ calls) ∧
    (process asciiCaseTable { concurrency := 1, fail := true }
      { scan := { HasFoundResults := true } } "git" (some (fun _ => 2))).cleanedUp = true :=
  ⟨by decide, by decide, by decide,
    (cleanup_before_exit asciiCaseTable { concurrency := 1, fail := true }
      { scan := { HasFoundResults := true } } "git" none).2.1 (by decide),
    by decide,
    ((cleanup_before_exit asciiCaseTable { concurrency := 1, fail := true }
      { scan := { HasFoundResults := true } } "git" (some (fun _ => 2))).2.2.2.1 (by simp)).1⟩

/-! ## Lemmas on `strings.Fields` -/

theorem splitSpaces_ne_nil (l : List Char) : splitSpaces l ≠ [] := by
  cases l with
  | nil => simp [splitSpaces]
  | cons c cs =>
    unfold splitSpaces
    split_ifs
    · simp
    · split <;> simp

theorem splitSpaces_cons_of_not_space (c : Char) (cs : List Char) (h : isSpace c = false) :
    ∃ p ps, splitSpaces cs = p :: ps ∧ splitSpaces (c :: cs) = (c :: p) :: ps := by
  rcases hs : splitSpaces cs with _ | ⟨p, ps⟩
  · exact absurd hs (splitSpaces_ne_nil cs)
  · exact ⟨p, ps, rfl, by simp [splitSpaces, h, hs]⟩

theorem splitSpaces_cons_of_space (c : Char) (cs : List Char) (h : isSpace c = true) :
    splitSpaces (c :: cs) = [] :: splitSpaces cs := by
  simp [splitSpaces, h]

theorem splitSpaces_no_space (l : List Char) :
    ∀ p ∈ splitSpaces l, ∀ c ∈ p, isSpace c = false := by
  induction l with
  | nil => simp [splitSpaces]
  | cons c cs ih =>
    by_cases hc : isSpace c = true
    · rw [splitSpaces_cons_of_space c cs hc]
      intro p hp
      rcases List.mem_cons.1 hp with rfl | hp
      · simp
      · exact ih p hp
    · have hc2 : isSpace c = false := by simpa using hc
      obtain ⟨p, ps, hs, hcons⟩ := splitSpaces_cons_of_not_space c cs hc2
      rw [hcons]
      rw [hs] at ih
      intro q hq
      rcases List.mem_cons.1 hq with rfl | hq
      · intro d hd
        rcases List.mem_cons.1 hd with rfl | hd
        · exact hc2
        · exact ih p (List.mem_cons_self _ _) d hd
      · exact ih q (List.mem_cons_of_mem _ hq)

theorem splitSpaces_of_all_space (l : List Char) (h : ∀ c ∈ l, isSpace c = true) :
    ∀ p ∈ splitSpaces l, p = [] := by
  induction l with
  | nil => simp [splitSpaces]
  | cons c cs ih =>
    rw [splitSpaces_cons_of_space c cs (h c (List.mem_cons_self _ _))]
    intro p hp
    rcases List.mem_cons.1 hp with rfl | hp
    · rfl
    · exact ih (fun d hd => h d (List.mem_cons_of_mem _ hd)) p hp

theorem splitSpaces_of_no_space (l : List Char) (h : ∀ c ∈ l, isSpace c = false) :
    splitSpaces l = [l] := by
  induction l with
  | nil => rfl
  | cons c cs ih =>
    obtain ⟨p, ps, hs, hcons⟩ :=
      splitSpaces_cons_of_not_space c cs (h c (List.mem_cons_self _ _))
    rw [ih (fun d hd => h d (List.mem_cons_of_mem _ hd))] at hs
    simp only [List.cons.injEq] at hs
    rw [hcons, ← hs.1, ← hs.2]

theorem splitSpaces_append_space (l r : List Char) (c : Char) (hc : isSpace c = true) :
    splitSpaces (l ++ c :: r) = splitSpaces l ++ splitSpaces r := by
  induction l with
  | nil => simp [splitSpaces, hc]
  | cons d ds ih =>
    by_cases hd : isSpace d = true
    · rw [List.cons_append, splitSpaces_cons_of_space d _ hd, splitSpaces_cons_of_space d _ hd,
        ih]
      rfl
    · have hd2 : isSpace d = false := by simpa using hd
      obtain ⟨p, ps, hs, hcons⟩ := splitSpaces_cons_of_not_space d ds hd2
      obtain ⟨q, qs, hs2, hcons2⟩ := splitSpaces_cons_of_not_space d (ds ++ c :: r) hd2
      rw [List.cons_append, hcons2, hcons]
      rw [ih, hs] at hs2
      simp only [List.cons_append, List.cons.injEq] at hs2
      simp [hs2.1, hs2.2]

theorem Fields_of_all_space (s : String) (h : ∀ c ∈ s.data, isSpace c = true) :
    Fields s = [] := by
  unfold Fields
  rw [List.map_eq_nil_iff, List.filter_eq_nil_iff]
  intro p hp
  simp [splitSpaces_of_all_space s.data h p hp]

theorem Fields_mem (s b : String) (hb : b ∈ Fields s) :
    b ≠ "" ∧ ∀ c ∈ b.data, isSpace c = false := by
  unfold Fields at hb
  simp only [List.mem_map, List.mem_filter, decide_eq_true_eq] at hb
  obtain ⟨p, ⟨hp, hne⟩, rfl⟩ := hb
  refine ⟨?_, splitSpaces_no_space s.data p hp⟩
  intro h
  apply hne
  have := congrArg String.data h
  simpa using this

/-- Joining proper fields with blanks and splitting again gives the fields
back, in their order. -/
theorem Fields_Join (bs : List String)
    (h : ∀ b ∈ bs, b ≠ "" ∧ ∀ c ∈ b.data, isSpace c = false) : Fields (Join bs " ") = bs := by
  induction bs with
  | nil => decide
  | cons b rest ih =>
    have hb := h b (List.mem_cons_self _ _)
    have hrest : ∀ x ∈ rest, x ≠ "" ∧ ∀ c ∈ x.data, isSpace c = false :=
      fun x hx => h x (List.mem_cons_of_mem _ hx)
    have hbne : b.data ≠ [] := by
      intro hnil
      apply hb.1
      apply String.ext
      simpa using hnil
    cases rest with
    | nil =>
      simp only [Join, Fields]
      rw [splitSpaces_of_no_space b.data hb.2]
      simp [hbne]
    | cons b2 rest2 =>
      have ih2 := ih hrest
      have hdata : (Join (b :: b2 :: rest2) " ").data =
          b.data ++ ' ' :: (Join (b2 :: rest2) " ").data := by
        simp [Join, String.data_append]
      unfold Fields at ih2 ⊢
      rw [hdata, splitSpaces_append_space _ _ ' ' (by decide),
        splitSpaces_of_no_space b.data hb.2]
      simp only [List.singleton_append, List.filter_cons, hbne, ne_eq, not_false_eq_true,
        decide_True, if_true, List.map_cons]
      rw [ih2]

/-! ## Lemmas on the commands of the wizard -/

theorem takeWhile_ne_eq_append (k v : List Char) (h : '=' ∉ k) :
    (k ++ '=' :: v).takeWhile (fun c => c ≠ '=') = k := by
  induction k with
  | nil => simp [List.takeWhile]
  | cons c cs ih =>
    have hc : c ≠ '=' := fun hc => h (by simp [hc])
    have hcs : '=' ∉ cs := fun hcs => h (List.mem_cons_of_mem _ hcs)
    have := ih hcs
    simp only [ne_eq, decide_not] at this
    simp [List.takeWhile, hc, this]

theorem flagName_token (key value : String) (hkey : '=' ∉ key.data) :
    flagName ("--" ++ key ++ "=" ++ value) = some key := by
  have hdata : ("--" ++ key ++ "=" ++ value).data = '-' :: '-' :: (key.data ++ '=' :: value.data) := by
    simp [String.data_append]
  simp only [flagName, HasPrefix, hdata]
  have hpre : ("--" : String).data.isPrefixOf ('-' :: '-' :: (key.data ++ '=' :: value.data)) =
      true := by
    simp [List.isPrefixOf]
  rw [hpre]
  simp only [if_true, List.drop_succ_cons, List.drop_zero]
  rw [takeWhile_ne_eq_append key.data value.data hkey]

theorem flagName_literal (p key value : String) (hp : p = "--" ++ key ++ "=")
    (hkey : '=' ∉ key.data) : flagName (p ++ value) = some key := by
  subst hp
  exact flagName_token key value hkey

theorem flagName_nodes (node : String) : flagName ("--nodes=" ++ node) = some "nodes" := by
  have h : "--nodes=" ++ node = "--" ++ "nodes" ++ "=" ++ node := by
    apply String.ext
    simp [String.data_append]
  rw [h]
  exact flagName_token "nodes" node (by decide)

theorem Inputs_Value_of_some (inputs : textinputs.Inputs) (key : String)
    (val : textinputs.Input) (h : inputs key = some val) : inputs.Value key = val.Value := by
  simp [textinputs.Inputs.Value, h]

theorem Inputs_Value_of_none (inputs : textinputs.Inputs) (key : String)
    (h : inputs key = none) : inputs.Value key = "" := by
  simp [textinputs.Inputs.Value, h]

theorem elasticsearch_cmdLoop_flags (inputs : textinputs.Inputs) (keys : List String)
    (hkeys : ∀ k ∈ keys, '=' ∉ k.data) (command : List String) (name : String) :
    name ∈ (elasticsearch.cmdLoop inputs keys command).filterMap flagName ↔
      (name ∈ command.filterMap flagName ∨
        (name ∈ keys ∧ inputs.Value name ≠ "" ∧
          (name = "nodes" → Fields (inputs.Value name) ≠ []))) := by
  induction keys generalizing command with
  | nil => simp [elasticsearch.cmdLoop]
  | cons key rest ih =>
    have hrest : ∀ k ∈ rest, '=' ∉ k.data := fun k hk => hkeys k (List.mem_cons_of_mem _ hk)
    have hkey : '=' ∉ key.data := hkeys key (List.mem_cons_self _ _)
    unfold elasticsearch.cmdLoop
    rcases hin : inputs key with _ | val
    · have hv := Inputs_Value_of_none inputs key hin
      simp only [ih hrest, List.mem_cons]
      constructor
      · rintro (h | ⟨h1, h2, h3⟩)
        · exact Or.inl h
        · exact Or.inr ⟨Or.inr h1, h2, h3⟩
      · rintro (h | ⟨h1 | h1, h2, h3⟩)
        · exact Or.inl h
        · rw [h1, hv] at h2
          exact absurd rfl h2
        · exact Or.inr ⟨h1, h2, h3⟩
    · have hv := Inputs_Value_of_some inputs key val hin
      simp only
      by_cases hval : val.Value = ""
      · rw [if_pos hval, ih hrest]
        simp only [List.mem_cons]
        constructor
        · rintro (h | ⟨h1, h2, h3⟩)
          · exact Or.inl h
          · exact Or.inr ⟨Or.inr h1, h2, h3⟩
        · rintro (h | ⟨h1 | h1, h2, h3⟩)
          · exact Or.inl h
          · rw [h1, hv] at h2
            exact absurd hval h2
          · exact Or.inr ⟨h1, h2, h3⟩
      · rw [if_neg hval]
        by_cases hnodes : key = "nodes"
        · rw [if_pos hnodes, ih hrest]
          have hflags : ((Fields val.Value).map (fun node => "--nodes=" ++ node)).filterMap
              flagName = (Fields val.Value).map (fun _ => "nodes") := by
            rw [List.filterMap_map]
            have : (flagName ∘ fun node => "--nodes=" ++ node) = fun _ => some "nodes" := by
              funext node
              exact flagName_nodes node
            rw [this]
            induction Fields val.Value with
            | nil => rfl
            | cons a l ihl => simp [List.filterMap_cons, ihl]
          simp only [List.filterMap_append, hflags, List.mem_append, List.mem_map, List.mem_cons]
          constructor
          · rintro ((h | ⟨node, hnode, rfl⟩) | ⟨h1, h2, h3⟩)
            · exact Or.inl h
            · refine Or.inr ⟨Or.inl hnodes.symm, ?_, ?_⟩
              · rw [← hnodes, hv]
                exact hval
              · intro _
                rw [← hnodes, hv]
                exact List.ne_nil_of_mem hnode
            · exact Or.inr ⟨Or.inr h1, h2, h3⟩
          · rintro (h | ⟨h1 | h1, h2, h3⟩)
            · exact Or.inl (Or.inl h)
            · have hne := h3 (h1.trans hnodes)
              rw [h1, hv] at hne
              obtain ⟨node, hnode⟩ := List.exists_mem_of_ne_nil _ hne
              exact Or.inl (Or.inr ⟨node, hnode, (h1.trans hnodes).symm⟩)
            · exact Or.inr ⟨h1, h2, h3⟩
        · rw [if_neg hnodes, ih hrest]
          simp only [List.filterMap_append, List.filterMap_cons, List.filterMap_nil,
            flagName_token key val.Value hkey, List.mem_append, List.mem_singleton, List.mem_cons,
            List.not_mem_nil, or_false]
          constructor
          · rintro ((h | h) | ⟨h1, h2, h3⟩)
            · exact Or.inl h
            · refine Or.inr ⟨Or.inl h, ?_, ?_⟩
              · rw [h, hv]
                exact hval
              · intro hn
                exact absurd (h.symm.trans hn) hnodes
            · exact Or.inr ⟨Or.inr h1, h2, h3⟩
          · rintro (h | ⟨h1 | h1, h2, h3⟩)
            · exact Or.inl (Or.inl h)
            · exact Or.inl (Or.inr h1)
            · exact Or.inr ⟨h1, h2, h3⟩

theorem findFirstNonEmptyKey_spec (inputs : textinputs.Inputs) (keys : List String) :
    (elasticsearch.findFirstNonEmptyKey inputs keys = "" ∧ ∀ x ∈ keys, inputs.Value x = "") ∨
    (elasticsearch.findFirstNonEmptyKey inputs keys ∈ keys ∧
      inputs.Value (elasticsearch.findFirstNonEmptyKey inputs keys) ≠ "") := by
  induction keys with
  | nil => exact Or.inl ⟨rfl, by simp⟩
  | cons key rest ih =>
    unfold elasticsearch.findFirstNonEmptyKey
    rcases hin : inputs key with _ | val
    · have hv := Inputs_Value_of_none inputs key hin
      simp only
      rcases ih with ⟨h1, h2⟩ | ⟨h1, h2⟩
      · exact Or.inl ⟨h1, by simpa [hv] using h2⟩
      · exact Or.inr ⟨List.mem_cons_of_mem _ h1, h2⟩
    · have hv := Inputs_Value_of_some inputs key val hin
      simp only
      by_cases hval : val.Value = ""
      · rw [if_neg (by simpa using hval)]
        rcases ih with ⟨h1, h2⟩ | ⟨h1, h2⟩
        · exact Or.inl ⟨h1, by simpa [hv, hval] using h2⟩
        · exact Or.inr ⟨List.mem_cons_of_mem _ h1, h2⟩
      · rw [if_pos hval]
        exact Or.inr ⟨List.mem_cons_self _ _, by rw [hv]; exact hval⟩

/-- The four results of `getConnectionKeys`, with what each says about the
inputs. -/
theorem getConnectionKeys_cases (inputs : textinputs.Inputs) :
    (elasticsearch.getConnectionKeys inputs = [] ∧
      ∀ x ∈ ["username", "password", "serviceToken", "cloudId", "apiKey"],
        inputs.Value x = "") ∨
    (elasticsearch.getConnectionKeys inputs = ["username", "password", "nodes"] ∧
      (inputs.Value "username" ≠ "" ∨ inputs.Value "password" ≠ "")) ∨
    (elasticsearch.getConnectionKeys inputs = ["serviceToken", "nodes"] ∧
      inputs.Value "serviceToken" ≠ "") ∨
    (elasticsearch.getConnectionKeys inputs = ["cloudId", "apiKey"] ∧
      (inputs.Value "cloudId" ≠ "" ∨ inputs.Value "apiKey" ≠ "")) := by
  unfold elasticsearch.getConnectionKeys
  simp only
  have hspec := findFirstNonEmptyKey_spec inputs
    ["username", "password", "serviceToken", "cloudId", "apiKey"]
  generalize elasticsearch.findFirstNonEmptyKey inputs
    ["username", "password", "serviceToken", "cloudId", "apiKey"] = k at hspec
  rcases hspec with ⟨rfl, hall⟩ | ⟨hk, hval⟩
  · exact Or.inl ⟨by decide, hall⟩
  · simp only [List.mem_cons, List.mem_singleton, List.not_mem_nil, or_false] at hk
    rcases hk with rfl | rfl | rfl | rfl | rfl
    · exact Or.inr (Or.inl ⟨by decide, Or.inl hval⟩)
    · exact Or.inr (Or.inl ⟨by decide, Or.inr hval⟩)
    · exact Or.inr (Or.inr (Or.inl ⟨by decide, hval⟩))
    · exact Or.inr (Or.inr (Or.inr ⟨by decide, Or.inl hval⟩))
    · exact Or.inr (Or.inr (Or.inr ⟨by decide, Or.inr hval⟩))

theorem getConnectionKeys_no_eq (inputs : textinputs.Inputs) :
    ∀ k ∈ elasticsearch.getConnectionKeys inputs, '=' ∉ k.data := by
  rcases getConnectionKeys_cases inputs with ⟨h, -⟩ | ⟨h, -⟩ | ⟨h, -⟩ | ⟨h, -⟩ <;>
    rw [h] <;> decide

theorem elasticsearch_sliceFlags_iff (inputs : textinputs.Inputs) (name : String) :
    name ∈ (elasticsearch.command inputs).filterMap flagName ↔
      (name ∈ elasticsearch.getConnectionKeys inputs ∧ inputs.Value name ≠ "" ∧
        (name = "nodes" → Fields (inputs.Value name) ≠ [])) := by
  unfold elasticsearch.command
  rw [elasticsearch_cmdLoop_flags inputs _ (getConnectionKeys_no_eq inputs)]
  have h0 : name ∉ List.filterMap flagName ([] ++ ["trufflehog", "elasticsearch"]) := by
    have : List.filterMap flagName ([] ++ ["trufflehog", "elasticsearch"]) = [] := by decide
    rw [this]
    exact List.not_mem_nil _
  constructor
  · rintro (h | h)
    · exact absurd h h0
    · exact h
  · exact Or.inr

theorem group_of_key (key : String) (G0 : List String)
    (honly : ∀ G ∈ elasticsearch.connectionGroups, key ∈ G → G = G0)
    (hG0 : G0 ∈ elasticsearch.connectionGroups) (flags : List String) (hkey : key ∈ flags)
    (hsub : ∀ name ∈ flags, name ∈ G0) :
    ∃! G, G ∈ elasticsearch.connectionGroups ∧ ∀ name ∈ flags, name ∈ G :=
  ⟨G0, ⟨hG0, hsub⟩, fun G hG => honly G hG.1 (hG.2 key hkey)⟩

/-! ## Lemmas on the nodes of the Elasticsearch wizard -/

theorem findFirstNonEmptyKey_cons (inputs : textinputs.Inputs) (key : String)
    (keys : List String) :
    elasticsearch.findFirstNonEmptyKey inputs (key :: keys) =
      if inputs.Value key ≠ "" then key else elasticsearch.findFirstNonEmptyKey inputs keys := by
  rw [elasticsearch.findFirstNonEmptyKey]
  rcases hin : inputs key with _ | val
  · rw [Inputs_Value_of_none inputs key hin]
    simp
  · rw [Inputs_Value_of_some inputs key val hin]

theorem getConnectionKeys_username (inputs : textinputs.Inputs)
    (h : inputs.Value "username" ≠ "") :
    elasticsearch.getConnectionKeys inputs = ["username", "password", "nodes"] := by
  unfold elasticsearch.getConnectionKeys
  simp only [findFirstNonEmptyKey_cons, if_pos h]
  decide

theorem getConnectionKeys_password (inputs : textinputs.Inputs)
    (hu : inputs.Value "username" = "") (h : inputs.Value "password" ≠ "") :
    elasticsearch.getConnectionKeys inputs = ["username", "password", "nodes"] := by
  unfold elasticsearch.getConnectionKeys
  simp only [findFirstNonEmptyKey_cons, if_neg (not_not.2 hu), if_pos h]
  decide

theorem getConnectionKeys_serviceToken (inputs : textinputs.Inputs)
    (hu : inputs.Value "username" = "") (hp : inputs.Value "password" = "")
    (h : inputs.Value "serviceToken" ≠ "") :
    elasticsearch.getConnectionKeys inputs = ["serviceToken", "nodes"] := by
  unfold elasticsearch.getConnectionKeys
  simp only [findFirstNonEmptyKey_cons, if_neg (not_not.2 hu), if_neg (not_not.2 hp), if_pos h]
  decide

theorem elasticsearch_cmdLoop_cons (inputs : textinputs.Inputs) (key : String)
    (keys command : List String) :
    elasticsearch.cmdLoop inputs (key :: keys) command =
      elasticsearch.cmdLoop inputs keys
        (command ++
          (if inputs.Value key = "" then []
          else if key = "nodes" then
            (Fields (inputs.Value key)).map (fun node => "--nodes=" ++ node)
          else ["--" ++ key ++ "=" ++ inputs.Value key])) := by
  rw [elasticsearch.cmdLoop]
  rcases hin : inputs key with _ | val
  · rw [Inputs_Value_of_none inputs key hin]
    simp
  · rw [Inputs_Value_of_some inputs key val hin]
    simp only
    split_ifs <;> simp

theorem elasticsearch_cmdLoop_nil (inputs : textinputs.Inputs) (command : List String) :
    elasticsearch.cmdLoop inputs [] command = command := by
  rw [elasticsearch.cmdLoop]

theorem Fields_empty : Fields "" = [] := by decide

/-- The tokens that the loop appends for the key `nodes`. -/
theorem nodes_step (inputs : textinputs.Inputs) :
    (if inputs.Value "nodes" = "" then []
      else if "nodes" = "nodes" then
        (Fields (inputs.Value "nodes")).map (fun node => "--nodes=" ++ node)
      else ["--" ++ "nodes" ++ "=" ++ inputs.Value "nodes"]) =
      (Fields (inputs.Value "nodes")).map (fun node => "--nodes=" ++ node) := by
  by_cases h : inputs.Value "nodes" = ""
  · rw [if_pos h, h, Fields_empty]
    rfl
  · rw [if_neg h, if_pos rfl]

/-- The tokens that the loop appends for a key other than `nodes`. -/
theorem other_step (inputs : textinputs.Inputs) (key : String) (h : key ≠ "nodes") :
    (if inputs.Value key = "" then []
      else if key = "nodes" then
        (Fields (inputs.Value key)).map (fun node => "--nodes=" ++ node)
      else ["--" ++ key ++ "=" ++ inputs.Value key]) =
      if inputs.Value key = "" then [] else ["--" ++ key ++ "=" ++ inputs.Value key] := by
  rw [if_neg h]

theorem filter_nodes_map (nodes : List String) :
    (nodes.map (fun node => "--nodes=" ++ node)).filter (fun t => flagName t = some "nodes") =
      nodes.map (fun node => "--nodes=" ++ node) := by
  rw [List.filter_eq_self]
  intro t ht
  obtain ⟨node, -, rfl⟩ := List.mem_map.1 ht
  simp [flagName_nodes]

theorem filter_nodes_other (inputs : textinputs.Inputs) (key : String)
    (hkey : '=' ∉ key.data) (h : key ≠ "nodes") :
    (if inputs.Value key = "" then []
      else ["--" ++ key ++ "=" ++ inputs.Value key]).filter
        (fun t => flagName t = some "nodes") = [] := by
  split_ifs
  · rfl
  · rw [List.filter_cons, flagName_token key _ hkey]
    simp [h]

/-- The command of the wizard when the user name or the password has a value. -/
theorem elasticsearch_command_basic (inputs : textinputs.Inputs)
    (h : inputs.Value "username" ≠ "" ∨ inputs.Value "password" ≠ "") :
    elasticsearch.command inputs =
      ["trufflehog", "elasticsearch"] ++
        (if inputs.Value "username" = "" then []
          else ["--" ++ "username" ++ "=" ++ inputs.Value "username"]) ++
        (if inputs.Value "password" = "" then []
          else ["--" ++ "password" ++ "=" ++ inputs.Value "password"]) ++
        (Fields (inputs.Value "nodes")).map (fun node => "--nodes=" ++ node) := by
  have hkeys : elasticsearch.getConnectionKeys inputs = ["username", "password", "nodes"] := by
    by_cases hu : inputs.Value "username" = ""
    · rcases h with h | h
      · exact absurd hu h
      · exact getConnectionKeys_password inputs hu h
    · exact getConnectionKeys_username inputs hu
  unfold elasticsearch.command
  rw [hkeys, elasticsearch_cmdLoop_cons, elasticsearch_cmdLoop_cons, elasticsearch_cmdLoop_cons,
    elasticsearch_cmdLoop_nil, nodes_step, other_step inputs "username" (by decide),
    other_step inputs "password" (by decide)]
  rfl

/-- The command of the wizard when the service token has a value and neither the
user name nor the password has one. -/
theorem elasticsearch_command_token (inputs : textinputs.Inputs)
    (hu : inputs.Value "username" = "") (hp : inputs.Value "password" = "")
    (h : inputs.Value "serviceToken" ≠ "") :
    elasticsearch.command inputs =
      ["trufflehog", "elasticsearch"] ++
        ["--" ++ "serviceToken" ++ "=" ++ inputs.Value "serviceToken"] ++
        (Fields (inputs.Value "nodes")).map (fun node => "--nodes=" ++ node) := by
  unfold elasticsearch.command
  rw [getConnectionKeys_serviceToken inputs hu hp h, elasticsearch_cmdLoop_cons,
    elasticsearch_cmdLoop_cons, elasticsearch_cmdLoop_nil, nodes_step,
    other_step inputs "serviceToken" (by decide), if_neg h]
  rfl

theorem filter_nodes_of_not_mem (command : List String)
    (h : "nodes" ∉ command.filterMap flagName) :
    command.filter (fun t => flagName t = some "nodes") = [] := by
  rw [List.filter_eq_nil_iff]
  intro t ht hn
  apply h
  rw [List.mem_filterMap]
  exact ⟨t, ht, by simpa using hn⟩

/-- The tokens of the slice when the user name or the password has a value:
the nodes stand at the end, one token for each field. -/
theorem elasticsearch_command_nodes (inputs : textinputs.Inputs)
    (hcred : inputs.Value "username" ≠ "" ∨ inputs.Value "password" ≠ "" ∨
      inputs.Value "serviceToken" ≠ "") :
    ∃ front, elasticsearch.command inputs =
      front ++ (Fields (inputs.Value "nodes")).map (fun node => "--nodes=" ++ node) ∧
      front.filter (fun t => flagName t = some "nodes") = [] := by
  by_cases hup : inputs.Value "username" ≠ "" ∨ inputs.Value "password" ≠ ""
  · refine ⟨_, elasticsearch_command_basic inputs hup, ?_⟩
    rw [List.filter_append, List.filter_append,
      filter_nodes_other inputs "username" (by decide) (by decide),
      filter_nodes_other inputs "password" (by decide) (by decide)]
    decide
  · rw [not_or, not_not, not_not] at hup
    have hst : inputs.Value "serviceToken" ≠ "" := by
      rcases hcred with h | h | h
      · exact absurd hup.1 h
      · exact absurd hup.2 h
      · exact h
    refine ⟨_, elasticsearch_command_token inputs hup.1 hup.2 hst, ?_⟩
    have h0 : ["trufflehog", "elasticsearch"].filter (fun t => flagName t = some "nodes") =
        [] := by decide
    have h1 : ["--" ++ "serviceToken" ++ "=" ++ inputs.Value "serviceToken"].filter
        (fun t => flagName t = some "nodes") = [] := by
      rw [List.filter_cons, flagName_token "serviceToken" _ (by decide),
        if_neg (by decide)]
      rfl
    rw [List.filter_append, h0, h1]
    rfl

/-- Without a user name, a password and a service token the slice holds no
`--nodes` token. -/
theorem elasticsearch_command_no_nodes (inputs : textinputs.Inputs)
    (hu : inputs.Value "username" = "") (hp : inputs.Value "password" = "")
    (hs : inputs.Value "serviceToken" = "") :
    (elasticsearch.command inputs).filter (fun t => flagName t = some "nodes") = [] := by
  apply filter_nodes_of_not_mem
  intro hmem
  have hkeys := ((elasticsearch_sliceFlags_iff inputs "nodes").1 hmem).1
  rcases getConnectionKeys_cases inputs with ⟨h, -⟩ | ⟨h, hv⟩ | ⟨h, hv⟩ | ⟨h, -⟩
  · rw [h] at hkeys
    exact absurd hkeys (by decide)
  · rcases hv with hv | hv
    · exact hv hu
    · exact hv hp
  · exact hv hs
  · rw [h] at hkeys
    exact absurd hkeys (by decide)

/-! ## Lemmas on the arguments of the generated command lines -/

theorem commandArgs_Join (command : List String)
    (h : ∀ t ∈ command, t ≠ "" ∧ ∀ c ∈ t.data, isSpace c = false) :
    commandArgs (Join command " ") = command :=
  Fields_Join command h

theorem commandFlags_Join (command : List String)
    (h : ∀ t ∈ command, t ≠ "" ∧ ∀ c ∈ t.data, isSpace c = false) :
    commandFlags (Join command " ") = command.filterMap flagName := by
  unfold commandFlags
  rw [commandArgs_Join command h]

/-- A token `--key=value` is one argument when neither the key nor the value
holds white space. -/
theorem flag_token_arg (key value : String) (hkey : ∀ c ∈ key.data, isSpace c = false)
    (hvalue : ∀ c ∈ value.data, isSpace c = false) :
    "--" ++ key ++ "=" ++ value ≠ "" ∧
      ∀ c ∈ ("--" ++ key ++ "=" ++ value).data, isSpace c = false := by
  have hdata : ("--" ++ key ++ "=" ++ value).data =
      '-' :: '-' :: (key.data ++ '=' :: value.data) := by
    simp [String.data_append]
  constructor
  · intro h
    have := congrArg String.data h
    rw [hdata] at this
    simp at this
  · intro c hc
    rw [hdata] at hc
    simp only [List.mem_cons, List.mem_append] at hc
    rcases hc with rfl | rfl | hc | rfl | hc
    · decide
    · decide
    · exact hkey c hc
    · decide
    · exact hvalue c hc

theorem literal_token_arg (p key value : String) (hp : p = "--" ++ key ++ "=")
    (hkey : ∀ c ∈ key.data, isSpace c = false)
    (hvalue : ∀ c ∈ value.data, isSpace c = false) :
    p ++ value ≠ "" ∧ ∀ c ∈ (p ++ value).data, isSpace c = false := by
  subst hp
  exact flag_token_arg key value hkey hvalue

theorem elasticsearch_cmdLoop_args (inputs : textinputs.Inputs) (keys : List String)
    (hkeys : ∀ k ∈ keys, (∀ c ∈ k.data, isSpace c = false) ∧
      (k ≠ "nodes" → ∀ c ∈ (inputs.Value k).data, isSpace c = false))
    (command : List String)
    (hcommand : ∀ t ∈ command, t ≠ "" ∧ ∀ c ∈ t.data, isSpace c = false) :
    ∀ t ∈ elasticsearch.cmdLoop inputs keys command,
      t ≠ "" ∧ ∀ c ∈ t.data, isSpace c = false := by
  induction keys generalizing command with
  | nil =>
    rw [elasticsearch_cmdLoop_nil]
    exact hcommand
  | cons key rest ih =>
    rw [elasticsearch_cmdLoop_cons]
    apply ih (fun k hk => hkeys k (List.mem_cons_of_mem _ hk))
    intro t ht
    rcases List.mem_append.1 ht with ht | ht
    · exact hcommand t ht
    · have hkey := hkeys key (List.mem_cons_self _ _)
      split_ifs at ht with h1 h2
      · simp at ht
      · obtain ⟨node, hnode, rfl⟩ := List.mem_map.1 ht
        exact literal_token_arg "--nodes=" "nodes" node (by decide) (by decide)
          (Fields_mem _ node hnode).2
      · rw [List.mem_singleton] at ht
        rw [ht]
        exact flag_token_arg key _ hkey.1 (hkey.2 h2)

/-- Every element of the slice of `elasticSearchCmdModel.Cmd` is one argument
when the credential values hold no white space. -/
theorem elasticsearch_command_args (inputs : textinputs.Inputs)
    (hblank : ∀ key ∈ ["username", "password", "serviceToken", "cloudId", "apiKey"],
      ∀ c ∈ (inputs.Value key).data, isSpace c = false) :
    ∀ t ∈ elasticsearch.command inputs, t ≠ "" ∧ ∀ c ∈ t.data, isSpace c = false := by
  unfold elasticsearch.command
  apply elasticsearch_cmdLoop_args
  · intro k hk
    have hsix : k ∈ ["username", "password", "nodes", "serviceToken", "cloudId", "apiKey"] := by
      rcases getConnectionKeys_cases inputs with ⟨h, -⟩ | ⟨h, -⟩ | ⟨h, -⟩ | ⟨h, -⟩ <;>
        rw [h] at hk <;>
        simp only [List.mem_cons, List.mem_singleton, List.not_mem_nil, or_false] at hk ⊢ <;>
        tauto
    have hnames : ∀ x ∈ ["username", "password", "nodes", "serviceToken", "cloudId", "apiKey"],
        ∀ c ∈ x.data, isSpace c = false := by decide
    refine ⟨hnames k hsix, ?_⟩
    intro hne
    apply hblank
    simp only [List.mem_cons, List.mem_singleton, List.not_mem_nil, or_false] at hsix ⊢
    tauto
  · decide

theorem elasticsearch_commandArgs_eq (inputs : textinputs.Inputs)
    (hblank : ∀ key ∈ ["username", "password", "serviceToken", "cloudId", "apiKey"],
      ∀ c ∈ (inputs.Value key).data, isSpace c = false) :
    commandArgs (elasticsearch.Cmd inputs) = elasticsearch.command inputs :=
  commandArgs_Join _ (elasticsearch_command_args inputs hblank)

theorem elasticsearch_emittedFlags_eq (inputs : textinputs.Inputs)
    (hblank : ∀ key ∈ ["username", "password", "serviceToken", "cloudId", "apiKey"],
      ∀ c ∈ (inputs.Value key).data, isSpace c = false) :
    elasticsearch.emittedFlags inputs = (elasticsearch.command inputs).filterMap flagName :=
  commandFlags_Join _ (elasticsearch_command_args inputs hblank)

theorem elasticsearch_emittedFlags_iff (inputs : textinputs.Inputs)
    (hblank : ∀ key ∈ ["username", "password", "serviceToken", "cloudId", "apiKey"],
      ∀ c ∈ (inputs.Value key).data, isSpace c = false) (name : String) :
    name ∈ elasticsearch.emittedFlags inputs ↔
      (name ∈ elasticsearch.getConnectionKeys inputs ∧ inputs.Value name ≠ "" ∧
        (name = "nodes" → Fields (inputs.Value name) ≠ [])) := by
  rw [elasticsearch_emittedFlags_eq inputs hblank]
  exact elasticsearch_sliceFlags_iff inputs name

/-! ## Theorems on the Elasticsearch wizard -/

/-- C17, counterexample: with only the nodes filled in, the command carries no
flag at all, and the empty set of flags is contained in each of the three
groups, not in exactly one; and with a blank inside the user name, the command
line carries flags of the local and of the cloud group. -/
theorem elasticsearch_nodes_only :
    (elasticsearch.Cmd (fun k => if k = "nodes" then some { Value := "127.0.0.1" } else none) =
      "trufflehog elasticsearch" ∧
    ¬ ∃! G, G ∈ elasticsearch.connectionGroups ∧
      ∀ name ∈ elasticsearch.emittedFlags
        (fun k => if k = "nodes" then some { Value := "127.0.0.1" } else none), name ∈ G) ∧
    (elasticsearch.Cmd (fun k =>
        if k = "username" then some { Value := "u --cloudId=c --apiKey=k" }
        else if k = "nodes" then some { Value := "127.0.0.1" } else none) =
      "trufflehog elasticsearch --username=u --cloudId=c --apiKey=k --nodes=127.0.0.1" ∧
    elasticsearch.emittedFlags (fun k =>
        if k = "username" then some { Value := "u --cloudId=c --apiKey=k" }
        else if k = "nodes" then some { Value := "127.0.0.1" } else none) =
      ["username", "cloudId", "apiKey", "nodes"] ∧
    ¬ ∃ G ∈ elasticsearch.connectionGroups, ∀ name ∈ elasticsearch.emittedFlags (fun k =>
        if k = "username" then some { Value := "u --cloudId=c --apiKey=k" }
        else if k = "nodes" then some { Value := "127.0.0.1" } else none), name ∈ G) := by
  refine ⟨⟨by decide, ?_⟩, by decide, by decide, by decide⟩
  have hnil : elasticsearch.emittedFlags
      (fun k => if k = "nodes" then some { Value := "127.0.0.1" } else none) = [] := by decide
  rw [hnil]
  rintro ⟨G, -, huniq⟩
  have h1 := huniq ["nodes", "username", "password"] ⟨by decide, by simp⟩
  have h2 := huniq ["cloudId", "apiKey"] ⟨by decide, by simp⟩
  rw [← h2] at h1
  exact absurd h1 (by decide)

/-- C17, amended: when the values of username, password, serviceToken, cloudId
and apiKey hold no white space, the flags of the command line returned by
`elasticSearchCmdModel.Cmd` all come from the key list that `getConnectionKeys`
selects, which `Summary` uses as well, so they are contained in one of the
groups {nodes, username, password}, {nodes, serviceToken}, {cloudId, apiKey},
and in exactly one whenever a flag is emitted; no command carries both a
local-cluster flag and a cloud flag. When none of the five has a value, no flag
is emitted at all, whatever the nodes. -/
theorem elasticsearch_flags_one_group (inputs : textinputs.Inputs)
    (hblank : ∀ key ∈ ["username", "password", "serviceToken", "cloudId", "apiKey"],
      ∀ c ∈ (inputs.Value key).data, isSpace c = false) :
    (∀ name ∈ elasticsearch.emittedFlags inputs, name ∈ elasticsearch.getConnectionKeys inputs) ∧
    (∃ G ∈ elasticsearch.connectionGroups, ∀ name ∈ elasticsearch.emittedFlags inputs, name ∈ G) ∧
    (elasticsearch.emittedFlags inputs ≠ [] →
      ∃! G, G ∈ elasticsearch.connectionGroups ∧
        ∀ name ∈ elasticsearch.emittedFlags inputs, name ∈ G) ∧
    ((∀ x ∈ ["username", "password", "serviceToken", "cloudId", "apiKey"],
        inputs.Value x = "") →
      elasticsearch.emittedFlags inputs = [] ∧
        elasticsearch.Cmd inputs = "trufflehog elasticsearch") ∧
    (¬ ∃ a ∈ elasticsearch.emittedFlags inputs, ∃ b ∈ elasticsearch.emittedFlags inputs,
      a ∈ ["nodes", "username", "password", "serviceToken"] ∧ b ∈ ["cloudId", "apiKey"]) ∧
    (∀ (SummarizeSource : SummarizeSourceFn) (labels : textinputs.Labels),
      elasticsearch.Summary SummarizeSource inputs labels =
        SummarizeSource (elasticsearch.getConnectionKeys inputs) inputs labels) ∧
    elasticsearch.Cmd inputs =
      Join (elasticsearch.cmdLoop inputs (elasticsearch.getConnectionKeys inputs)
        ["trufflehog", "elasticsearch"]) " " ∧
    commandArgs (elasticsearch.Cmd inputs) =
      elasticsearch.cmdLoop inputs (elasticsearch.getConnectionKeys inputs)
        ["trufflehog", "elasticsearch"] := by
  have hsub : ∀ name ∈ elasticsearch.emittedFlags inputs,
      name ∈ elasticsearch.getConnectionKeys inputs :=
    fun name h => ((elasticsearch_emittedFlags_iff inputs hblank name).1 h).1
  have hemit : ∀ key, key ∈ elasticsearch.getConnectionKeys inputs → inputs.Value key ≠ "" →
      key ≠ "nodes" → key ∈ elasticsearch.emittedFlags inputs :=
    fun key h1 h2 h3 =>
      (elasticsearch_emittedFlags_iff inputs hblank key).2 ⟨h1, h2, fun h => absurd h h3⟩
  refine ⟨hsub, ?_, ?_, ?_, ?_, fun _ _ => rfl, rfl, elasticsearch_commandArgs_eq inputs hblank⟩
  · rcases getConnectionKeys_cases inputs with ⟨h, -⟩ | ⟨h, -⟩ | ⟨h, -⟩ | ⟨h, -⟩
    · exact ⟨["cloudId", "apiKey"], by decide, fun name hn => by
        have := hsub name hn
        rw [h] at this
        simp at this⟩
    · exact ⟨["nodes", "username", "password"], by decide, fun name hn => by
        have := hsub name hn
        rw [h] at this
        simp only [List.mem_cons, List.mem_singleton, List.not_mem_nil, or_false] at this ⊢
        tauto⟩
    · exact ⟨["nodes", "serviceToken"], by decide, fun name hn => by
        have := hsub name hn
        rw [h] at this
        simp only [List.mem_cons, List.mem_singleton, List.not_mem_nil, or_false] at this ⊢
        tauto⟩
    · exact ⟨["cloudId", "apiKey"], by decide, fun name hn => by
        have := hsub name hn
        rw [h] at this
        exact this⟩
  · intro hne
    rcases getConnectionKeys_cases inputs with ⟨h, -⟩ | ⟨h, hv⟩ | ⟨h, hv⟩ | ⟨h, hv⟩
    · exfalso
      apply hne
      rcases hflags : elasticsearch.emittedFlags inputs with _ | ⟨name, rest⟩
      · rfl
      · have := hsub name (by rw [hflags]; exact List.mem_cons_self _ _)
        rw [h] at this
        simp at this
    · have hsub1 : ∀ name ∈ elasticsearch.emittedFlags inputs,
          name ∈ ["nodes", "username", "password"] := fun name hn => by
        have := hsub name hn
        rw [h] at this
        simp only [List.mem_cons, List.mem_singleton, List.not_mem_nil, or_false] at this ⊢
        tauto
      rcases hv with hv | hv
      · exact group_of_key "username" _ (by decide) (by decide) _
          (hemit "username" (by rw [h]; decide) hv (by decide)) hsub1
      · exact group_of_key "password" _ (by decide) (by decide) _
          (hemit "password" (by rw [h]; decide) hv (by decide)) hsub1
    · have hsub2 : ∀ name ∈ elasticsearch.emittedFlags inputs,
          name ∈ ["nodes", "serviceToken"] := fun name hn => by
        have := hsub name hn
        rw [h] at this
        simp only [List.mem_cons, List.mem_singleton, List.not_mem_nil, or_false] at this ⊢
        tauto
      exact group_of_key "serviceToken" _ (by decide) (by decide) _
        (hemit "serviceToken" (by rw [h]; decide) hv (by decide)) hsub2
    · have hsub3 : ∀ name ∈ elasticsearch.emittedFlags inputs,
          name ∈ ["cloudId", "apiKey"] := fun name hn => by
        have := hsub name hn
        rw [h] at this
        exact this
      rcases hv with hv | hv
      · exact group_of_key "cloudId" _ (by decide) (by decide) _
          (hemit "cloudId" (by rw [h]; decide) hv (by decide)) hsub3
      · exact group_of_key "apiKey" _ (by decide) (by decide) _
          (hemit "apiKey" (by rw [h]; decide) hv (by decide)) hsub3
  · intro hall
    have hkeys : elasticsearch.getConnectionKeys inputs = [] := by
      rcases getConnectionKeys_cases inputs with ⟨h, -⟩ | ⟨-, hv⟩ | ⟨-, hv⟩ | ⟨-, hv⟩
      · exact h
      · rcases hv with hv | hv
        · exact absurd (hall _ (by decide)) hv
        · exact absurd (hall _ (by decide)) hv
      · exact absurd (hall _ (by decide)) hv
      · rcases hv with hv | hv
        · exact absurd (hall _ (by decide)) hv
        · exact absurd (hall _ (by decide)) hv
    have hcmd : elasticsearch.Cmd inputs = "trufflehog elasticsearch" := by
      simp only [elasticsearch.Cmd, elasticsearch.command, hkeys, elasticsearch.cmdLoop]
      decide
    constructor
    · unfold elasticsearch.emittedFlags
      rw [hcmd]
      decide
    · exact hcmd
  · rintro ⟨a, ha, b, hb, hal, hbc⟩
    have ha2 := hsub a ha
    have hb2 := hsub b hb
    simp only [List.mem_cons, List.mem_singleton, List.not_mem_nil, or_false] at hal hbc
    rcases getConnectionKeys_cases inputs with ⟨h, -⟩ | ⟨h, -⟩ | ⟨h, -⟩ | ⟨h, -⟩
    · rw [h] at ha2
      simp at ha2
    · rw [h] at hb2
      simp only [List.mem_cons, List.mem_singleton, List.not_mem_nil, or_false] at hb2
      rcases hb2 with rfl | rfl | rfl <;> simp at hbc
    · rw [h] at hb2
      simp only [List.mem_cons, List.mem_singleton, List.not_mem_nil, or_false] at hb2
      rcases hb2 with rfl | rfl <;> simp at hbc
    · rw [h] at ha2
      simp only [List.mem_cons, List.mem_singleton, List.not_mem_nil, or_false] at ha2
      rcases ha2 with rfl | rfl <;> simp at hal

/-- Witness of C17: a local cluster with user name, password and two nodes. -/
theorem elasticsearch_flags_one_group_witness :
    elasticsearch.Cmd (fun k => if k = "username" then some { Value := "elastic" }
      else if k = "password" then some { Value := "pw" }
      else if k = "nodes" then some { Value := "10.0.0.1 10.0.0.2" } else none) =
      "trufflehog elasticsearch --username=elastic --password=pw --nodes=10.0.0.1 --nodes=10.0.0.2" ∧
    ∃! G, G ∈ elasticsearch.connectionGroups ∧
      ∀ name ∈ elasticsearch.emittedFlags (fun k =>
        if k = "username" then some { Value := "elastic" }
        else if k = "password" then some { Value := "pw" }
        else if k = "nodes" then some { Value := "10.0.0.1 10.0.0.2" } else none), name ∈ G :=
  ⟨by decide,
    (elasticsearch_flags_one_group (fun k => if k = "username" then some { Value := "elastic" }
      else if k = "password" then some { Value := "pw" }
      else if k = "nodes" then some { Value := "10.0.0.1 10.0.0.2" } else none)
      (by decide)).2.2.1 (by decide)⟩

/-- C18, the code at the failing input: with a user name and no password the
command carries `--username` without `--password`. -/
theorem elasticsearch_username_without_password :
    elasticsearch.Cmd (fun k => if k = "username" then some { Value := "elastic" }
      else if k = "nodes" then some { Value := "127.0.0.1" } else none) =
      "trufflehog elasticsearch --username=elastic --nodes=127.0.0.1" ∧
    "username" ∈ elasticsearch.emittedFlags (fun k =>
      if k = "username" then some { Value := "elastic" }
      else if k = "nodes" then some { Value := "127.0.0.1" } else none) ∧
    "password" ∉ elasticsearch.emittedFlags (fun k =>
      if k = "username" then some { Value := "elastic" }
      else if k = "nodes" then some { Value := "127.0.0.1" } else none) := by
  decide

/-- Of the flags that the Elasticsearch wizard emits for values without white
space, `nodes`, `username` and `password` are registered flags of the command
line; `serviceToken`,
`cloudId` and `apiKey` are not, also after `_` is replaced by `-`. -/
theorem elasticsearch_flag_registered_iff (inputs : textinputs.Inputs)
    (hblank : ∀ key ∈ ["username", "password", "serviceToken", "cloudId", "apiKey"],
      ∀ c ∈ (inputs.Value key).data, isSpace c = false) :
    ∀ name ∈ elasticsearch.emittedFlags inputs,
      (ReplaceAll name '_' '-' ∈ elasticsearchFlags ++ cliFlags ↔
        name ∈ ["nodes", "username", "password"]) := by
  intro name hname
  have hkeys := ((elasticsearch_emittedFlags_iff inputs hblank name).1 hname).1
  have hsix : name ∈ ["username", "password", "nodes", "serviceToken", "cloudId", "apiKey"] := by
    rcases getConnectionKeys_cases inputs with ⟨h, -⟩ | ⟨h, -⟩ | ⟨h, -⟩ | ⟨h, -⟩ <;>
      rw [h] at hkeys <;>
      simp only [List.mem_cons, List.mem_singleton, List.not_mem_nil, or_false] at hkeys ⊢ <;>
      tauto
  have hall : ∀ k ∈ ["username", "password", "nodes", "serviceToken", "cloudId", "apiKey"],
      (ReplaceAll k '_' '-' ∈ elasticsearchFlags ++ cliFlags ↔
        k ∈ ["nodes", "username", "password"]) := by
    decide
  exact hall name hsix

/-- C19, the code at the failing input: for a local cluster with a service
token the wizard builds `--serviceToken=tok`; `init` leaves the argument as it
is, and no flag `serviceToken` is registered (the flag is `service-token`), so
the command cannot be run. The same holds for `cloudId` and `apiKey`. -/
theorem elasticsearch_serviceToken_not_registered :
    elasticsearch.Cmd (fun k => if k = "serviceToken" then some { Value := "tok" }
      else if k = "nodes" then some { Value := "127.0.0.1" } else none) =
      "trufflehog elasticsearch --serviceToken=tok --nodes=127.0.0.1" ∧
    ((elasticsearch.command (fun k => if k = "serviceToken" then some { Value := "tok" }
      else if k = "nodes" then some { Value := "127.0.0.1" } else none)).map initArg).filterMap
      flagName = ["serviceToken", "nodes"] ∧
    "serviceToken" ∉ elasticsearchFlags ++ cliFlags ∧
    "service-token" ∈ elasticsearchFlags ∧
    ((elasticsearch.command (fun k => if k = "cloudId" then some { Value := "id" }
      else if k = "apiKey" then some { Value := "key" } else none)).map initArg).filterMap
      flagName = ["cloudId", "apiKey"] ∧
    "cloudId" ∉ elasticsearchFlags ++ cliFlags ∧ "apiKey" ∉ elasticsearchFlags ++ cliFlags := by
  decide

/-- C23, counterexample: the nodes are given, the cloud id and the API key are
empty. In the first map the user name, the password and the service token are
empty too, and the command line carries no `--nodes` argument; in the second
the user name holds a blank, and the command line carries a `--nodes` argument
that is no field of the nodes value. -/
theorem elasticsearch_nodes_dropped :
    (textinputs.Inputs.Value
      (fun k => if k = "nodes" then some { Value := "10.0.0.1 10.0.0.2" }
        else some { Value := "" }) "nodes" ≠ "" ∧
    textinputs.Inputs.Value
      (fun k => if k = "nodes" then some { Value := "10.0.0.1 10.0.0.2" }
        else some { Value := "" }) "cloudId" = "" ∧
    textinputs.Inputs.Value
      (fun k => if k = "nodes" then some { Value := "10.0.0.1 10.0.0.2" }
        else some { Value := "" }) "apiKey" = "" ∧
    Fields (textinputs.Inputs.Value
      (fun k => if k = "nodes" then some { Value := "10.0.0.1 10.0.0.2" }
        else some { Value := "" }) "nodes") = ["10.0.0.1", "10.0.0.2"] ∧
    elasticsearch.Cmd
      (fun k => if k = "nodes" then some { Value := "10.0.0.1 10.0.0.2" }
        else some { Value := "" }) = "trufflehog elasticsearch" ∧
    (commandArgs (elasticsearch.Cmd
      (fun k => if k = "nodes" then some { Value := "10.0.0.1 10.0.0.2" }
        else some { Value := "" }))).filter (fun t => flagName t = some "nodes") = []) ∧
    (textinputs.Inputs.Value
      (fun k => if k = "nodes" then some { Value := "n2" }
        else if k = "username" then some { Value := "u --nodes=n1" }
        else some { Value := "" }) "cloudId" = "" ∧
    textinputs.Inputs.Value
      (fun k => if k = "nodes" then some { Value := "n2" }
        else if k = "username" then some { Value := "u --nodes=n1" }
        else some { Value := "" }) "apiKey" = "" ∧
    Fields (textinputs.Inputs.Value
      (fun k => if k = "nodes" then some { Value := "n2" }
        else if k = "username" then some { Value := "u --nodes=n1" }
        else some { Value := "" }) "nodes") = ["n2"] ∧
    elasticsearch.Cmd
      (fun k => if k = "nodes" then some { Value := "n2" }
        else if k = "username" then some { Value := "u --nodes=n1" }
        else some { Value := "" }) =
      "trufflehog elasticsearch --username=u --nodes=n1 --nodes=n2" ∧
    (commandArgs (elasticsearch.Cmd
      (fun k => if k = "nodes" then some { Value := "n2" }
        else if k = "username" then some { Value := "u --nodes=n1" }
        else some { Value := "" }))).filter (fun t => flagName t = some "nodes") =
      ["--nodes=n1", "--nodes=n2"]) := by
  refine ⟨⟨by decide, by decide, by decide, by decide, by decide, by decide⟩,
    by decide, by decide, by decide, by decide, by decide⟩

/-- C23, amended: when the values of username, password, serviceToken, cloudId
and apiKey hold no white space, the `--nodes` arguments of the command line
returned by `elasticSearchCmdModel.Cmd` are, if at least one of user name,
password and service token has a value, exactly one `--nodes=<n>` for each
white-space-separated field `n` of the nodes value, in order, at the end of the
command line; and if none of the three has a value, there is no `--nodes`
argument. -/
theorem elasticsearch_nodes_passed (inputs : textinputs.Inputs)
    (hblank : ∀ key ∈ ["username", "password", "serviceToken", "cloudId", "apiKey"],
      ∀ c ∈ (inputs.Value key).data, isSpace c = false) :
    ((inputs.Value "username" ≠ "" ∨ inputs.Value "password" ≠ "" ∨
        inputs.Value "serviceToken" ≠ "") →
      (commandArgs (elasticsearch.Cmd inputs)).filter (fun t => flagName t = some "nodes") =
        (Fields (inputs.Value "nodes")).map (fun node => "--nodes=" ++ node) ∧
      ∃ front, commandArgs (elasticsearch.Cmd inputs) =
        front ++ (Fields (inputs.Value "nodes")).map (fun node => "--nodes=" ++ node) ∧
        front.filter (fun t => flagName t = some "nodes") = []) ∧
    ((inputs.Value "username" = "" ∧ inputs.Value "password" = "" ∧
        inputs.Value "serviceToken" = "") →
      (commandArgs (elasticsearch.Cmd inputs)).filter (fun t => flagName t = some "nodes") =
        []) := by
  rw [elasticsearch_commandArgs_eq inputs hblank]
  constructor
  · intro hcred
    obtain ⟨front, hcmd, hfilter⟩ := elasticsearch_command_nodes inputs hcred
    refine ⟨?_, front, hcmd, hfilter⟩
    rw [hcmd, List.filter_append, hfilter, filter_nodes_map]
    rfl
  · rintro ⟨hu, hp, hs⟩
    exact elasticsearch_command_no_nodes inputs hu hp hs

/-- Witness of C23: a service token and two nodes. -/
theorem elasticsearch_nodes_passed_witness :
    (commandArgs (elasticsearch.Cmd
      (fun k => if k = "nodes" then some { Value := "10.0.0.1 10.0.0.2" }
        else if k = "serviceToken" then some { Value := "t0k" }
        else some { Value := "" }))).filter (fun t => flagName t = some "nodes") =
      ["--nodes=10.0.0.1", "--nodes=10.0.0.2"] :=
  (((elasticsearch_nodes_passed
    (fun k => if k = "nodes" then some { Value := "10.0.0.1 10.0.0.2" }
      else if k = "serviceToken" then some { Value := "t0k" }
      else some { Value := "" }) (by decide)).1 (Or.inr (Or.inr (by decide)))).1).trans
    (by decide)

/-! ## Theorems on the Jenkins wizard -/

theorem jenkins_cmdLoop_cons (inputs : textinputs.Inputs) (key : String) (keys command : List String) :
    jenkins.cmdLoop inputs (key :: keys) command =
      jenkins.cmdLoop inputs keys
        (command ++ if inputs.Value key = "" then []
          else ["--" ++ key ++ "=" ++ inputs.Value key]) := by
  rw [jenkins.cmdLoop]
  rcases hin : inputs key with _ | val
  · simp [Inputs_Value_of_none inputs key hin]
  · simp only [Inputs_Value_of_some inputs key val hin]
    split_ifs <;> simp

theorem jenkins_cmdLoop_nil (inputs : textinputs.Inputs) (command : List String) :
    jenkins.cmdLoop inputs [] command = command := by
  rw [jenkins.cmdLoop]

theorem jenkins_checkIsAuthenticated_iff (inputs : textinputs.Inputs) :
    jenkins.checkIsAuthenticated inputs = true ↔
      (inputs.Value "username" ≠ "" ∧ inputs.Value "password" ≠ "") := by
  simp [jenkins.checkIsAuthenticated]

theorem jenkins_command_eq (inputs : textinputs.Inputs) :
    jenkins.command inputs =
      ["trufflehog", "jenkins"] ++
        (if inputs.Value "url" = "" then [] else ["--" ++ "url" ++ "=" ++ inputs.Value "url"]) ++
        (if inputs.Value "username" ≠ "" ∧ inputs.Value "password" ≠ "" then
          ["--" ++ "username" ++ "=" ++ inputs.Value "username",
            "--" ++ "password" ++ "=" ++ inputs.Value "password"]
        else []) := by
  unfold jenkins.command jenkins.keys
  by_cases hauth : inputs.Value "username" ≠ "" ∧ inputs.Value "password" ≠ ""
  · rw [if_pos ((jenkins_checkIsAuthenticated_iff inputs).2 hauth), if_pos hauth]
    simp only [List.cons_append, List.nil_append]
    rw [jenkins_cmdLoop_cons, jenkins_cmdLoop_cons, jenkins_cmdLoop_cons, jenkins_cmdLoop_nil,
      if_neg hauth.1, if_neg hauth.2]
    simp
  · have hno : ¬ jenkins.checkIsAuthenticated inputs = true :=
      fun h => hauth ((jenkins_checkIsAuthenticated_iff inputs).1 h)
    rw [if_neg hno, if_neg hauth]
    simp only [List.nil_append]
    rw [jenkins_cmdLoop_cons, jenkins_cmdLoop_nil]
    simp

/-- Every element of the slice of `jenkinsCmdModel.Cmd` is one argument when
the values hold no white space. -/
theorem jenkins_command_args (inputs : textinputs.Inputs)
    (hblank : ∀ key ∈ ["url", "username", "password"],
      ∀ c ∈ (inputs.Value key).data, isSpace c = false) :
    ∀ t ∈ jenkins.command inputs, t ≠ "" ∧ ∀ c ∈ t.data, isSpace c = false := by
  rw [jenkins_command_eq]
  intro t ht
  rcases List.mem_append.1 ht with ht | ht
  · rcases List.mem_append.1 ht with ht | ht
    · have hbase : ∀ x ∈ ["trufflehog", "jenkins"],
          x ≠ "" ∧ ∀ c ∈ x.data, isSpace c = false := by decide
      exact hbase t ht
    · split_ifs at ht
      · simp at ht
      · rw [List.mem_singleton] at ht
        rw [ht]
        exact flag_token_arg "url" _ (by decide) (hblank "url" (by decide))
  · split_ifs at ht
    · simp only [List.mem_cons, List.mem_singleton, List.not_mem_nil, or_false] at ht
      rcases ht with rfl | rfl
      · exact flag_token_arg "username" _ (by decide) (hblank "username" (by decide))
      · exact flag_token_arg "password" _ (by decide) (hblank "password" (by decide))
    · simp at ht

theorem jenkins_emittedFlags_eq (inputs : textinputs.Inputs)
    (hblank : ∀ key ∈ ["url", "username", "password"],
      ∀ c ∈ (inputs.Value key).data, isSpace c = false) :
    jenkins.emittedFlags inputs =
      (if inputs.Value "url" = "" then [] else ["url"]) ++
        (if inputs.Value "username" ≠ "" ∧ inputs.Value "password" ≠ "" then
          ["username", "password"]
        else []) := by
  unfold jenkins.emittedFlags jenkins.Cmd
  rw [commandFlags_Join _ (jenkins_command_args inputs hblank), jenkins_command_eq]
  have h0 : List.filterMap flagName ["trufflehog", "jenkins"] = [] := by decide
  simp only [List.filterMap_append, h0, List.nil_append]
  congr 1
  · split_ifs
    · rfl
    · simp [List.filterMap_cons, flagName_literal "--url=" "url" _ (by decide) (by decide)]
  · split_ifs
    · simp [List.filterMap_cons,
        flagName_literal "--username=" "username" _ (by decide) (by decide),
        flagName_literal "--password=" "password" _ (by decide) (by decide)]
    · rfl

/-- For values without white space, the command line returned by
`jenkinsCmdModel.Cmd` carries `--username` and `--password`, with the values
given, exactly when both values are non-empty, and neither of them otherwise;
`Summary` hands `common.SummarizeSource` the keys `username` and `password`
under the same condition, whatever the values. -/
theorem jenkins_credentials_paired (inputs : textinputs.Inputs)
    (hblank : ∀ key ∈ ["url", "username", "password"],
      ∀ c ∈ (inputs.Value key).data, isSpace c = false) :
    (("username" ∈ jenkins.emittedFlags inputs ∧ "password" ∈ jenkins.emittedFlags inputs) ↔
      (inputs.Value "username" ≠ "" ∧ inputs.Value "password" ≠ "")) ∧
    (¬ (inputs.Value "username" ≠ "" ∧ inputs.Value "password" ≠ "") →
      "username" ∉ jenkins.emittedFlags inputs ∧ "password" ∉ jenkins.emittedFlags inputs) ∧
    commandArgs (jenkins.Cmd inputs) =
      ["trufflehog", "jenkins"] ++
        (if inputs.Value "url" = "" then [] else ["--" ++ "url" ++ "=" ++ inputs.Value "url"]) ++
        (if inputs.Value "username" ≠ "" ∧ inputs.Value "password" ≠ "" then
          ["--" ++ "username" ++ "=" ++ inputs.Value "username",
            "--" ++ "password" ++ "=" ++ inputs.Value "password"]
        else []) ∧
    (∀ (SummarizeSource : SummarizeSourceFn) (labels : textinputs.Labels),
      jenkins.Summary SummarizeSource inputs labels =
        SummarizeSource
          (if inputs.Value "username" ≠ "" ∧ inputs.Value "password" ≠ "" then
            ["url", "username", "password"]
          else ["url"]) inputs labels) := by
  have hflags := jenkins_emittedFlags_eq inputs hblank
  have hargs : commandArgs (jenkins.Cmd inputs) = jenkins.command inputs :=
    commandArgs_Join _ (jenkins_command_args inputs hblank)
  refine ⟨?_, ?_, by rw [hargs, jenkins_command_eq], ?_⟩
  · rw [hflags]
    by_cases hauth : inputs.Value "username" ≠ "" ∧ inputs.Value "password" ≠ ""
    · simp [hauth]
    · rw [if_neg hauth]
      constructor
      · rintro ⟨h, -⟩
        split_ifs at h <;> simp at h
      · intro h
        exact absurd h hauth
  · intro hauth
    rw [hflags, if_neg hauth]
    split_ifs <;> simp
  · intro SummarizeSource labels
    unfold jenkins.Summary jenkins.keys
    by_cases hauth : inputs.Value "username" ≠ "" ∧ inputs.Value "password" ≠ ""
    · rw [if_pos ((jenkins_checkIsAuthenticated_iff inputs).2 hauth), if_pos hauth]
      rfl
    · have hno : ¬ jenkins.checkIsAuthenticated inputs = true :=
        fun h => hauth ((jenkins_checkIsAuthenticated_iff inputs).1 h)
      rw [if_neg hno, if_neg hauth]

/-- C20, the code at the failing input: the URL holds a blank, the user name
and the password are empty. The value is appended as it is and the slice is
joined with blanks, so the command line carries `--username` without
`--password`, although `checkIsAuthenticated` is false. -/
theorem jenkins_url_carries_username :
    textinputs.Inputs.Value (fun k =>
      if k = "url" then some { Value := "https://j --username=admin" } else some { Value := "" })
      "username" = "" ∧
    textinputs.Inputs.Value (fun k =>
      if k = "url" then some { Value := "https://j --username=admin" } else some { Value := "" })
      "password" = "" ∧
    jenkins.checkIsAuthenticated (fun k =>
      if k = "url" then some { Value := "https://j --username=admin" } else some { Value := "" }) =
      false ∧
    jenkins.Cmd (fun k =>
      if k = "url" then some { Value := "https://j --username=admin" } else some { Value := "" }) =
      "trufflehog jenkins --url=https://j --username=admin" ∧
    commandArgs (jenkins.Cmd (fun k =>
      if k = "url" then some { Value := "https://j --username=admin" }
      else some { Value := "" })) =
      ["trufflehog", "jenkins", "--url=https://j", "--username=admin"] ∧
    "username" ∈ jenkins.emittedFlags (fun k =>
      if k = "url" then some { Value := "https://j --username=admin" }
      else some { Value := "" }) ∧
    "password" ∉ jenkins.emittedFlags (fun k =>
      if k = "url" then some { Value := "https://j --username=admin" }
      else some { Value := "" }) := by
  refine ⟨by decide, by decide, by decide, by decide, by decide, by decide, by decide⟩

/-! ## Theorems on the S3 wizard -/

theorem s3_bucketLoop_eq (buckets command : List String) :
    s3.bucketLoop buckets command = command ++ buckets.map (fun bucket => "--bucket=" ++ bucket) := by
  induction buckets generalizing command with
  | nil => simp [s3.bucketLoop]
  | cons b rest ih => simp [s3.bucketLoop, ih]

theorem flagName_bucket (bucket : String) : flagName ("--bucket=" ++ bucket) = some "bucket" :=
  flagName_literal "--bucket=" "bucket" bucket (by decide) (by decide)

theorem s3_command_eq (inputs : textinputs.Inputs) :
    s3.command inputs =
      ["trufflehog", "s3"] ++
        (Fields (inputs.Value "buckets")).map (fun bucket => "--bucket=" ++ bucket) := by
  unfold s3.command
  simp only [List.nil_append]
  split_ifs with h
  · exact s3_bucketLoop_eq _ _
  · have hempty : inputs.Value "buckets" = "" := by simpa using h
    rw [hempty]
    decide

/-- C21: `s3CmdModel.Cmd` is `trufflehog s3` followed by one `--bucket=<b>`
token for each white-space-separated field `b` of the buckets value, in the
order of the fields (the fields of `b1 b2 .. bn` are `b1`, .., `bn`); every
field is non-empty and free of white space, and with an empty or all-white-space
value the command is `trufflehog s3` without any flag. -/
theorem s3_buckets_fields (inputs : textinputs.Inputs) :
    s3.command inputs =
      ["trufflehog", "s3"] ++
        (Fields (inputs.Value "buckets")).map (fun bucket => "--bucket=" ++ bucket) ∧
    s3.Cmd inputs =
      Join (["trufflehog", "s3"] ++
        (Fields (inputs.Value "buckets")).map (fun bucket => "--bucket=" ++ bucket)) " " ∧
    ((s3.command inputs).filterMap flagName =
      (Fields (inputs.Value "buckets")).map (fun _ => "bucket")) ∧
    "bucket" ∈ s3Flags ∧
    (∀ b ∈ Fields (inputs.Value "buckets"), b ≠ "" ∧ ∀ c ∈ b.data, isSpace c = false) ∧
    (∀ bs : List String, (∀ b ∈ bs, b ≠ "" ∧ ∀ c ∈ b.data, isSpace c = false) →
      inputs.Value "buckets" = Join bs " " →
      s3.command inputs = ["trufflehog", "s3"] ++ bs.map (fun bucket => "--bucket=" ++ bucket)) ∧
    ((∀ c ∈ (inputs.Value "buckets").data, isSpace c = true) →
      s3.command inputs = ["trufflehog", "s3"] ∧ s3.Cmd inputs = "trufflehog s3") := by
  have hcmd := s3_command_eq inputs
  refine ⟨hcmd, by rw [s3.Cmd, hcmd], ?_, by decide, fun b hb => Fields_mem _ b hb, ?_, ?_⟩
  · rw [hcmd, List.filterMap_append, List.filterMap_map]
    have h0 : List.filterMap flagName ["trufflehog", "s3"] = [] := by decide
    have h1 : (flagName ∘ fun bucket => "--bucket=" ++ bucket) = fun _ => some "bucket" := by
      funext bucket
      exact flagName_bucket bucket
    rw [h0, h1, List.nil_append]
    induction Fields (inputs.Value "buckets") with
    | nil => rfl
    | cons a l ih => simp [List.filterMap_cons, ih]
  · intro bs hbs hval
    rw [hcmd, hval, Fields_Join bs hbs]
  · intro hall
    have hf := Fields_of_all_space _ hall
    constructor
    · rw [hcmd, hf]
      rfl
    · rw [s3.Cmd, hcmd, hf]
      decide

/-! ## Theorems on the GitHub wizard -/

theorem Inputs_delete_self (inputs : textinputs.Inputs) (key : String) :
    inputs.delete key key = none := by
  simp [textinputs.Inputs.delete]

theorem Inputs_delete_other (inputs : textinputs.Inputs) (key k : String) (h : k ≠ key) :
    inputs.delete key k = inputs k := by
  simp [textinputs.Inputs.delete, h]

theorem Inputs_delete_Value_self (inputs : textinputs.Inputs) (key : String) :
    (inputs.delete key).Value key = "" := by
  simp [textinputs.Inputs.Value, textinputs.Inputs.delete]

theorem Inputs_delete_Value_other (inputs : textinputs.Inputs) (key k : String) (h : k ≠ key) :
    (inputs.delete key).Value k = inputs.Value k := by
  simp [textinputs.Inputs.Value, textinputs.Inputs.delete, h]

theorem Inputs_delete_IsDefault_other (inputs : textinputs.Inputs) (key k : String)
    (h : k ≠ key) : (inputs.delete key).IsDefault k = inputs.IsDefault k := by
  simp [textinputs.Inputs.IsDefault, textinputs.Inputs.delete, h]

theorem GetSpecialInputs_org_default (inputs : textinputs.Inputs)
    (horg : inputs.IsDefault "org" = true) (hrepo : inputs.IsDefault "repo" = false) :
    github.GetSpecialInputs inputs = inputs.delete "org" := by
  unfold github.GetSpecialInputs
  rw [if_pos (by rw [horg, hrepo]; decide)]
  simp only [horg, if_true]
  rw [Inputs_delete_IsDefault_other inputs "org" "repo" (by decide), hrepo]
  simp

theorem GetSpecialInputs_repo_default (inputs : textinputs.Inputs)
    (horg : inputs.IsDefault "org" = false) (hrepo : inputs.IsDefault "repo" = true) :
    github.GetSpecialInputs inputs = inputs.delete "repo" := by
  unfold github.GetSpecialInputs
  rw [if_pos (by rw [horg, hrepo]; decide)]
  simp [horg, hrepo]

theorem GetSpecialInputs_same (inputs : textinputs.Inputs)
    (h : inputs.IsDefault "org" = inputs.IsDefault "repo") :
    github.GetSpecialInputs inputs = inputs := by
  unfold github.GetSpecialInputs
  rw [if_neg (by simpa using h)]

theorem flagName_org (v : String) : flagName ("--org=" ++ v) = some "org" :=
  flagName_literal "--org=" "org" v (by decide) (by decide)

theorem flagName_repo (v : String) : flagName ("--repo=" ++ v) = some "repo" :=
  flagName_literal "--repo=" "repo" v (by decide) (by decide)

/-- The flags of the command line when the slice is the two words and at most
one flag token without white space. -/
theorem github_flags_of_command (inputs : textinputs.Inputs) (p key value : String)
    (hp : p = "--" ++ key ++ "=") (hkey : '=' ∉ key.data)
    (hkeyblank : ∀ c ∈ key.data, isSpace c = false)
    (hvalue : ∀ c ∈ value.data, isSpace c = false)
    (hcmd : github.command inputs =
      ["trufflehog", "github"] ++ (if value = "" then [] else [p ++ value])) :
    github.emittedFlags inputs = if value = "" then [] else [key] := by
  unfold github.emittedFlags github.Cmd
  rw [hcmd]
  by_cases hv : value = ""
  · rw [if_pos hv, if_pos hv]
    decide
  · rw [if_neg hv, if_neg hv, commandFlags_Join]
    · have h0 : List.filterMap flagName ["trufflehog", "github"] = [] := by decide
      rw [List.filterMap_append, h0, List.filterMap_cons, flagName_literal p key value hp hkey]
      rfl
    · intro t ht
      rcases List.mem_append.1 ht with ht | ht
      · have hbase : ∀ x ∈ ["trufflehog", "github"],
            x ≠ "" ∧ ∀ c ∈ x.data, isSpace c = false := by decide
        exact hbase t ht
      · rw [List.mem_singleton] at ht
        rw [ht]
        exact literal_token_arg p key value hp hkeyblank hvalue

/-- When exactly one of the entries `org` and `repo` holds its default value,
`GetSpecialInputs` deletes that entry and leaves every other entry as it is;
when both entries or neither is default the map is returned unchanged. For
values without white space the command line returned by `Cmd` then carries no
flag for the defaulted field and the flag of the other field (when that one has
a value). -/
theorem github_special_inputs (inputs : textinputs.Inputs) :
    (inputs.IsDefault "org" = true ∧ inputs.IsDefault "repo" = false →
      github.GetSpecialInputs inputs "org" = none ∧
      (∀ k, k ≠ "org" → github.GetSpecialInputs inputs k = inputs k) ∧
      github.command inputs =
        ["trufflehog", "github"] ++
          (if inputs.Value "repo" = "" then [] else ["--repo=" ++ inputs.Value "repo"]) ∧
      ((∀ c ∈ (inputs.Value "repo").data, isSpace c = false) →
        github.emittedFlags inputs = if inputs.Value "repo" = "" then [] else ["repo"])) ∧
    (inputs.IsDefault "org" = false ∧ inputs.IsDefault "repo" = true →
      github.GetSpecialInputs inputs "repo" = none ∧
      (∀ k, k ≠ "repo" → github.GetSpecialInputs inputs k = inputs k) ∧
      github.command inputs =
        ["trufflehog", "github"] ++
          (if inputs.Value "org" = "" then [] else ["--org=" ++ inputs.Value "org"]) ∧
      ((∀ c ∈ (inputs.Value "org").data, isSpace c = false) →
        github.emittedFlags inputs = if inputs.Value "org" = "" then [] else ["org"])) ∧
    (inputs.IsDefault "org" = inputs.IsDefault "repo" →
      github.GetSpecialInputs inputs = inputs) := by
  refine ⟨?_, ?_, GetSpecialInputs_same inputs⟩
  · rintro ⟨horg, hrepo⟩
    have hgsi := GetSpecialInputs_org_default inputs horg hrepo
    have hcmd : github.command inputs =
        ["trufflehog", "github"] ++
          (if inputs.Value "repo" = "" then [] else ["--repo=" ++ inputs.Value "repo"]) := by
      unfold github.command
      simp only [hgsi, Inputs_delete_Value_self,
        Inputs_delete_Value_other inputs "org" "repo" (by decide)]
      split_ifs <;> simp_all
    exact ⟨by rw [hgsi]; exact Inputs_delete_self _ _,
      fun k hk => by rw [hgsi]; exact Inputs_delete_other _ _ _ hk, hcmd,
      fun hblank => github_flags_of_command inputs "--repo=" "repo" _ (by decide) (by decide)
        (by decide) hblank hcmd⟩
  · rintro ⟨horg, hrepo⟩
    have hgsi := GetSpecialInputs_repo_default inputs horg hrepo
    have hcmd : github.command inputs =
        ["trufflehog", "github"] ++
          (if inputs.Value "org" = "" then [] else ["--org=" ++ inputs.Value "org"]) := by
      unfold github.command
      simp only [hgsi, Inputs_delete_Value_self,
        Inputs_delete_Value_other inputs "repo" "org" (by decide)]
      split_ifs <;> simp_all
    exact ⟨by rw [hgsi]; exact Inputs_delete_self _ _,
      fun k hk => by rw [hgsi]; exact Inputs_delete_other _ _ _ hk, hcmd,
      fun hblank => github_flags_of_command inputs "--org=" "org" _ (by decide) (by decide)
        (by decide) hblank hcmd⟩

/-- C22, the code at the failing input: the organization holds its default
value, the repository was filled in and holds a blank. `GetSpecialInputs`
deletes the entry `org`, but the repository is appended as it is and the slice
is joined with blanks, so the command line carries `--org` next to `--repo`. -/
theorem github_repo_carries_org :
    textinputs.Inputs.IsDefault (fun k =>
      if k = "org" then some { Value := "trufflesecurity", IsDefault := true }
      else if k = "repo" then some { Value := "r --org=o" } else none) "org" = true ∧
    textinputs.Inputs.IsDefault (fun k =>
      if k = "org" then some { Value := "trufflesecurity", IsDefault := true }
      else if k = "repo" then some { Value := "r --org=o" } else none) "repo" = false ∧
    github.GetSpecialInputs (fun k =>
      if k = "org" then some { Value := "trufflesecurity", IsDefault := true }
      else if k = "repo" then some { Value := "r --org=o" } else none) "org" = none ∧
    github.Cmd (fun k =>
      if k = "org" then some { Value := "trufflesecurity", IsDefault := true }
      else if k = "repo" then some { Value := "r --org=o" } else none) =
      "trufflehog github --repo=r --org=o" ∧
    commandArgs (github.Cmd (fun k =>
      if k = "org" then some { Value := "trufflesecurity", IsDefault := true }
      else if k = "repo" then some { Value := "r --org=o" } else none)) =
      ["trufflehog", "github", "--repo=r", "--org=o"] ∧
    github.emittedFlags (fun k =>
      if k = "org" then some { Value := "trufflesecurity", IsDefault := true }
      else if k = "repo" then some { Value := "r --org=o" } else none) = ["repo", "org"] := by
  refine ⟨by decide, by decide, by decide, by decide, by decide, by decide⟩

/-! ## Theorems on the paths of the filesystem scan -/

theorem scanSource_filesystem (fl : Flags) (eng : EngineAnswers) :
    scanSource fl eng "filesystem" = filesystemScanCase fl eng := by
  simp [scanSource]

theorem filesystemScanCase_calls (fl : Flags) (eng : EngineAnswers) :
    (filesystemScanCase fl eng).1 =
      [EngineCall.ScanFileSystem (fl.filesystemPaths ++ fl.filesystemDirectories)] := by
  simp [filesystemScanCase, scanCall]

/-- C24: for the `filesystem` command the one scan call of `runSingleScan` is
`ScanFileSystem` with the positional paths followed by the values of
`--directory` as `Paths`, each list in its given order and with every entry
kept; no other `ScanFileSystem` call is made, and the call is made whenever the
engine could be created. -/
theorem filesystem_paths (fl : Flags) (eng : EngineAnswers) (cfg : engine.Config) :
    (scanSource fl eng "filesystem").1 =
      [EngineCall.ScanFileSystem (fl.filesystemPaths ++ fl.filesystemDirectories)] ∧
    (∀ paths, EngineCall.ScanFileSystem paths ∈ (runSingleScan fl eng "filesystem" cfg).calls →
      paths = fl.filesystemPaths ++ fl.filesystemDirectories ∧
      paths.length = fl.filesystemPaths.length + fl.filesystemDirectories.length ∧
      paths.take fl.filesystemPaths.length = fl.filesystemPaths ∧
      paths.drop fl.filesystemPaths.length = fl.filesystemDirectories ∧
      ∀ p, paths.count p = fl.filesystemPaths.count p + fl.filesystemDirectories.count p) ∧
    (eng.newEngineErr = none →
      EngineCall.ScanFileSystem (fl.filesystemPaths ++ fl.filesystemDirectories) ∈
        (runSingleScan fl eng "filesystem" cfg).calls) := by
  have hsrc : (scanSource fl eng "filesystem").1 =
      [EngineCall.ScanFileSystem (fl.filesystemPaths ++ fl.filesystemDirectories)] := by
    rw [scanSource_filesystem, filesystemScanCase_calls]
  refine ⟨hsrc, ?_, ?_⟩
  · intro paths hmem
    have h := runSingleScan_scan_calls fl eng "filesystem" cfg (EngineCall.ScanFileSystem paths)
      rfl hmem
    rw [hsrc, List.mem_singleton] at h
    injection h with h
    subst h
    exact ⟨rfl, List.length_append _ _, List.take_left _ _, List.drop_left _ _,
      fun p => List.count_append _ _ _⟩
  · intro hinit
    rcases runSingleScan_calls fl eng "filesystem" cfg with ⟨h, -⟩ | ⟨-, c, tail, -, h⟩
    · exact absurd hinit h
    · rw [h, hsrc]
      simp

end Trufflehog
